import Mathlib

/-!
YouTube comment downloader: tree search, retry wrapper, pagination, relative dates.

A shallow embedding of the class `YoutubeCommentDownloader` of
`src/youtube_comment_downloader.js`, followed by theorems about the embedded functions.

JavaScript values that can occur in a parsed JSON payload are the type `JVal`.  Exceptions are
explicit: a function that can throw returns `Except JsError _`.  The transport (`axios`) is a
sequence of outcomes indexed by the number of POSTs already made, and every POST is recorded in
a request log.
-/

set_option autoImplicit false

/-! ## Values -/

/-- A JavaScript value as it occurs in payloads obtained from `JSON.parse`, plus `undefined`
(the result of reading a missing property).  An object is the list of its own entries in
`Object.entries` order (a real object has no two entries with the same key; nothing below
depends on that).  Numbers are integers: the downloader never does arithmetic on payload
numbers, it only tests them for truthiness and equality. -/
inductive JVal where
  | undefined
  | null
  | bool (b : Bool)
  | num (n : Int)
  | str (s : String)
  | arr (xs : List JVal)
  | obj (es : List (String × JVal))

namespace JVal

mutual
/-- Structural equality test on values. -/
def beq : JVal → JVal → Bool
  | undefined, undefined => true
  | null, null => true
  | bool a, bool b => a == b
  | num a, num b => a == b
  | str a, str b => a == b
  | arr xs, arr ys => beqList xs ys
  | obj es, obj fs => beqEntries es fs
  | _, _ => false
/-- Structural equality test on sequences of values. -/
def beqList : List JVal → List JVal → Bool
  | [], [] => true
  | x :: xs, y :: ys => beq x y && beqList xs ys
  | _, _ => false
/-- Structural equality test on entry lists. -/
def beqEntries : List (String × JVal) → List (String × JVal) → Bool
  | [], [] => true
  | (k, x) :: xs, (l, y) :: ys => k == l && beq x y && beqEntries xs ys
  | _, _ => false
end

mutual
theorem beq_iff : ∀ a b : JVal, beq a b = true ↔ a = b
  | undefined, b => by cases b <;> simp [beq]
  | null, b => by cases b <;> simp [beq]
  | bool a, b => by cases b <;> simp [beq]
  | num a, b => by cases b <;> simp [beq]
  | str a, b => by cases b <;> simp [beq]
  | arr xs, b => by
    cases b <;> simp [beq]
    exact beqList_iff xs _
  | obj es, b => by
    cases b <;> simp [beq]
    exact beqEntries_iff es _
theorem beqList_iff : ∀ a b : List JVal, beqList a b = true ↔ a = b
  | [], b => by cases b <;> simp [beqList]
  | x :: xs, b => by
    cases b with
    | nil => simp [beqList]
    | cons y ys => simp [beqList, beq_iff x y, beqList_iff xs ys]
theorem beqEntries_iff : ∀ a b : List (String × JVal), beqEntries a b = true ↔ a = b
  | [], b => by cases b <;> simp [beqEntries]
  | (k, x) :: xs, b => by
    cases b with
    | nil => simp [beqEntries]
    | cons y ys =>
      obtain ⟨l, y⟩ := y
      simp [beqEntries, beq_iff x y, beqEntries_iff xs ys, and_assoc]
end

instance instDecidableEq : DecidableEq JVal := fun a b =>
  if h : beq a b = true then isTrue ((beq_iff a b).1 h)
  else isFalse (fun e => h ((beq_iff a b).2 e))

/-- The test `typeof v === 'object' && v !== null`: arrays and plain objects. -/
def isObject : JVal → Bool
  | arr _ => true
  | obj _ => true
  | _ => false

/-- JavaScript truthiness (`if (v)`, `!v`, `v || w`). -/
def truthy : JVal → Bool
  | undefined => false
  | null => false
  | bool b => b
  | num n => decide (n ≠ 0)
  | str s => decide (s ≠ "")
  | arr _ => true
  | obj _ => true

mutual
/-- Number of nodes of a tree; bounds the iterations of the search loop. -/
def nodes : JVal → Nat
  | arr xs => 1 + nodesList xs
  | obj es => 1 + nodesEntries es
  | _ => 1
/-- Total number of nodes of a list of trees. -/
def nodesList : List JVal → Nat
  | [] => 0
  | x :: xs => nodes x + nodesList xs
/-- Total number of nodes below the entries of an object. -/
def nodesEntries : List (String × JVal) → Nat
  | [] => 0
  | (_, v) :: es => nodes v + nodesEntries es
end

end JVal

/-! ## Tree search (`searchDict`, `findFirst`) -/

/-- The `for (const [key, value] of Object.entries(currentItem))` loop of `searchDict`:
a matching entry yields its value at once, a non-matching entry whose value is an object or
array is pushed.  The stack is a list whose head is the top; `out` is what has been yielded. -/
def searchEntries (searchKey : String) :
    List (String × JVal) → List JVal → List JVal → List JVal × List JVal
  | [], stack, out => (stack, out)
  | (key, value) :: rest, stack, out =>
    if key = searchKey then searchEntries searchKey rest stack (out ++ [value])
    else if value.isObject then searchEntries searchKey rest (value :: stack) out
    else searchEntries searchKey rest stack out

/-- The `while (stack.length > 0)` loop of `searchDict`, one iteration per unit of fuel;
`none` when the fuel runs out before the stack is empty.  `stack.push(...currentItem)` leaves
the last element of the array on top. -/
def searchLoop (searchKey : String) : Nat → List JVal → List JVal → Option (List JVal)
  | _, [], out => some out
  | 0, _ :: _, _ => none
  | fuel + 1, cur :: stack, out =>
    match cur with
    | .arr xs => searchLoop searchKey fuel (xs.reverse ++ stack) out
    | .obj es =>
      searchLoop searchKey fuel (searchEntries searchKey es stack out).1
        (searchEntries searchKey es stack out).2
    | _ => searchLoop searchKey fuel stack out

/-- The generator `searchDict(obj, searchKey)`, as the list of the values it yields, in order.
The loop pops one node per iteration, so `obj.nodes` iterations always suffice
(`searchLoop_eq`). -/
def searchDict (o : JVal) (searchKey : String) : List JVal :=
  (searchLoop searchKey o.nodes [o] []).getD []

/-- The helper `findFirst(iterator, defaultValue = null)`. -/
def findFirst (iterator : List JVal) (defaultValue : JVal := .null) : JVal :=
  match iterator with
  | item :: _ => item
  | [] => defaultValue

/-! ### Reference descriptions of the search result -/

/-- Values of the entries of one object whose key is the search key, in stored order. -/
def matchesOf (K : String) : List (String × JVal) → List JVal
  | [] => []
  | (k, v) :: rest => if k = K then v :: matchesOf K rest else matchesOf K rest

mutual
/-- The recursively defined sequence `S(T)`: nothing for a scalar; for a sequence the results
of its elements, last element first; for a map the values of the matching entries in stored
order, then the results of the non-matching map/sequence values, last entry first. -/
def searchSpec (K : String) : JVal → List JVal
  | .arr xs => searchSpecList K xs
  | .obj es => matchesOf K es ++ searchSpecEntries K es
  | _ => []
/-- The sequence `S(en) ++ ... ++ S(e1)` for the elements of a sequence. -/
def searchSpecList (K : String) : List JVal → List JVal
  | [] => []
  | x :: xs => searchSpecList K xs ++ searchSpec K x
/-- The sequence `S(v)` for each entry whose key is not `K` and whose value is a map or sequence, in
reverse stored entry order. -/
def searchSpecEntries (K : String) : List (String × JVal) → List JVal
  | [] => []
  | (k, v) :: rest =>
    searchSpecEntries K rest ++ (if k = K then [] else if v.isObject then searchSpec K v else [])
end

mutual
/-- Values of every map entry anywhere in the tree whose key is `K` (document order),
including entries that lie beneath the value of another entry with key `K`. -/
def allValues (K : String) : JVal → List JVal
  | .arr xs => allValuesList K xs
  | .obj es => allValuesEntries K es
  | _ => []
/-- The function `allValues` over the elements of a sequence. -/
def allValuesList (K : String) : List JVal → List JVal
  | [] => []
  | x :: xs => allValues K x ++ allValuesList K xs
/-- The function `allValues` over the entries of a map. -/
def allValuesEntries (K : String) : List (String × JVal) → List JVal
  | [] => []
  | (k, v) :: rest => (if k = K then [v] else []) ++ allValues K v ++ allValuesEntries K rest
end

mutual
/-- Values of the map entries with key `K` that are reached from the root without passing
through the value of another entry with key `K` (document order). -/
def outerValues (K : String) : JVal → List JVal
  | .arr xs => outerValuesList K xs
  | .obj es => outerValuesEntries K es
  | _ => []
/-- The function `outerValues` over the elements of a sequence. -/
def outerValuesList (K : String) : List JVal → List JVal
  | [] => []
  | x :: xs => outerValues K x ++ outerValuesList K xs
/-- The function `outerValues` over the entries of a map: a matching entry contributes its value and is
not entered. -/
def outerValuesEntries (K : String) : List (String × JVal) → List JVal
  | [] => []
  | (k, v) :: rest => (if k = K then [v] else outerValues K v) ++ outerValuesEntries K rest
end

mutual
/-- Whether the tree contains, anywhere, a map entry with key `K`. -/
def containsKey (K : String) : JVal → Bool
  | .arr xs => containsKeyList K xs
  | .obj es => containsKeyEntries K es
  | _ => false
/-- The test `containsKey` for some element of a sequence. -/
def containsKeyList (K : String) : List JVal → Bool
  | [] => false
  | x :: xs => containsKey K x || containsKeyList K xs
/-- The test `containsKey` for some entry of a map. -/
def containsKeyEntries (K : String) : List (String × JVal) → Bool
  | [] => false
  | (k, v) :: rest => decide (k = K) || containsKey K v || containsKeyEntries K rest
end

/-- The tree `{"a": {"a": 1}}`: an entry with key `a` beneath the value of another one. -/
def nestedMatchTree : JVal :=
  .obj [("a", .obj [("a", .num 1)])]

/-- Non-matching object-valued entries of a map, in stored order: what one visit pushes. -/
def pushedOf (K : String) : List (String × JVal) → List JVal
  | [] => []
  | (k, v) :: rest =>
    if k = K then pushedOf K rest else if v.isObject then v :: pushedOf K rest else pushedOf K rest

/-- Concatenated search results of a stack, top first. -/
def searchSpecStack (K : String) : List JVal → List JVal
  | [] => []
  | x :: st => searchSpec K x ++ searchSpecStack K st

/-! ## JavaScript runtime operations used by the downloader -/

/-- Exceptions the downloader can raise or meet. -/
inductive JsError where
  /-- Reading a property of `undefined`/`null`, calling a missing method, `in` on a primitive,
  iterating a non-iterable, assigning a property of a primitive in class (strict) code. -/
  | typeError
  /-- Raised by `Intl.DateTimeFormat.prototype.format` on an invalid date. -/
  | rangeError
  /-- Raised by `JSON.parse` on malformed text. -/
  | syntaxError
  /-- A rejected `client.get` / `client.post` outside `ajaxRequest`. -/
  | transportError
  /-- The error `new Error('Falha ao definir a ordenação')`. -/
  | orderingError
  /-- The error `new Error('Erro retornado pelo servidor: ' + error)`, with the value of `error`. -/
  | serverError (message : JVal)
  deriving DecidableEq

/-- The own entries of an object, in insertion order. -/
abbrev Dict := List (String × JVal)

/-- Own-property lookup `o[name]`: the value of the entry, `undefined` when there is none. -/
def lookupKey : List (String × JVal) → String → JVal
  | [], _ => .undefined
  | (k, v) :: rest, name => if k = name then v else lookupKey rest name

/-- Whether the object has an own entry `name`. -/
def hasKey : List (String × JVal) → String → Bool
  | [], _ => false
  | (k, _) :: rest, name => decide (k = name) || hasKey rest name

/-- Assignment `o[name] = value`: an existing entry keeps its place, a new one goes last. -/
def setKey : List (String × JVal) → String → JVal → List (String × JVal)
  | [], name, value => [(name, value)]
  | (k, v) :: rest, name, value =>
    if k = name then (k, value) :: rest else (k, v) :: setKey rest name value

/-- Property read `v.name` for the fixed names the downloader uses (none of them is `length`
or a member of a prototype): a `TypeError` on `undefined` and `null`, the own entry of an
object, `undefined` on arrays and primitives. -/
def getProp (v : JVal) (name : String) : Except JsError JVal :=
  match v with
  | .undefined => .error .typeError
  | .null => .error .typeError
  | .obj es => .ok (lookupKey es name)
  | _ => .ok .undefined

/-- The operator `name in v` for the fixed names the downloader uses: a `TypeError` on a
primitive, own-entry membership on an object, `false` on an array. -/
def jsIn (name : String) (v : JVal) : Except JsError Bool :=
  match v with
  | .obj es => .ok (hasKey es name)
  | .arr _ => .ok false
  | _ => .error .typeError

/-- The operator `a || b`. -/
def jsOr (a b : JVal) : JVal :=
  if a.truthy then a else b

/-- Optional chaining `v?.name`. -/
def optProp (v : JVal) (name : String) : JVal :=
  match v with
  | .obj es => lookupKey es name
  | _ => .undefined

/-- White space and line terminators of ECMAScript (`\s` in a regular expression, and what
`String.prototype.trim` removes). -/
def isJsSpace (c : Char) : Bool :=
  let n := c.toNat
  n = 9 || n = 10 || n = 11 || n = 12 || n = 13 || n = 32 || n = 160 || n = 5760 ||
    (8192 ≤ n && n ≤ 8202) || n = 8232 || n = 8233 || n = 8239 || n = 8287 || n = 12288 ||
    n = 65279

/-- The method `String.prototype.trim` on the characters of a string. -/
def jsTrimChars (cs : List Char) : List Char :=
  ((cs.dropWhile isJsSpace).reverse.dropWhile isJsSpace).reverse

/-- The method `String.prototype.trim`. -/
def jsTrim (s : String) : String :=
  String.mk (jsTrimChars s.data)

/-- The call `s.startsWith(p)` on characters: `startsWithChars p s`. -/
def startsWithChars : List Char → List Char → Bool
  | [], _ => true
  | _ :: _, [] => false
  | p :: ps, c :: cs => p == c && startsWithChars ps cs

/-- The call `s.includes(sub)` on characters: `includesChars sub s`. -/
def includesChars (sub : List Char) : List Char → Bool
  | [] => startsWithChars sub []
  | c :: cs => startsWithChars sub (c :: cs) || includesChars sub cs

/-- The method `String.prototype.includes`. -/
def jsIncludes (s sub : String) : Bool :=
  includesChars sub.data s.data

/-- Length of a string in UTF-16 code units (`s.length`). -/
def utf16Length (s : String) : Nat :=
  (s.data.map (fun c => if c.toNat < 65536 then 1 else 2)).sum

mutual
/-- The conversion `ToString` (used when a value becomes a property key).  Integers print in
decimal, which is what JavaScript prints below `10^21`. -/
def jsToString : JVal → String
  | .undefined => "undefined"
  | .null => "null"
  | .bool true => "true"
  | .bool false => "false"
  | .num n => toString n
  | .str s => s
  | .arr xs => jsJoin xs
  | .obj _ => "[object Object]"
/-- The method `Array.prototype.join(',')`: `undefined` and `null` elements print as the empty string. -/
def jsJoin : List JVal → String
  | [] => ""
  | [.undefined] => ""
  | [.null] => ""
  | [x] => jsToString x
  | .undefined :: rest => "," ++ jsJoin rest
  | .null :: rest => "," ++ jsJoin rest
  | x :: rest => jsToString x ++ "," ++ jsJoin rest
end

mutual
/-- Whether the conversions `ToString` and `ToPrimitive` return on a value of a response.  On
an object with an own entry `toString` they throw a `TypeError`: the entry is not callable
(no value of a response is) and the inherited `valueOf` returns the object itself.  On an
array they call `join`, which converts every element other than `undefined` and `null`. -/
def stringable : JVal → Bool
  | .arr xs => stringableList xs
  | .obj es => !hasKey es "toString"
  | _ => true
/-- Whether `join` returns on the elements of an array. -/
def stringableList : List JVal → Bool
  | [] => true
  | x :: xs => stringable x && stringableList xs
end

/-- The conversion `ToPropertyKey` of a value used as a key in `o[v]` or `v in o`. -/
def toPropertyKey (v : JVal) : Except JsError String :=
  if stringable v then .ok (jsToString v) else .error .typeError

/-- Digits of a canonical array index (`"0"`, `"17"`, no sign, no leading zero). -/
def parseDigits : List Char → Nat → Option Nat
  | [], acc => some acc
  | c :: cs, acc =>
    if '0' ≤ c ∧ c ≤ '9' then parseDigits cs (acc * 10 + (c.toNat - 48)) else none

/-- The integer a property key denotes when it is an array index (such keys come first, in
ascending order, in `Object.entries`). -/
def arrayIndex (k : String) : Option Nat :=
  match k.data with
  | [] => none
  | ['0'] => some 0
  | '0' :: _ => none
  | cs =>
    match parseDigits cs 0 with
    | some n => if n < 4294967295 then some n else none
    | none => none

/-! ### Objects built by the code and the members they inherit -/

/-- The names under which `Object.prototype` holds a member in Node.js: eleven functions and
the accessor `__proto__`. -/
def objectPrototypeNames : List String :=
  ["constructor", "__defineGetter__", "__defineSetter__", "hasOwnProperty", "__lookupGetter__",
    "__lookupSetter__", "isPrototypeOf", "propertyIsEnumerable", "toString", "valueOf",
    "__proto__", "toLocaleString"]

/-- The names under which `Array.prototype` holds a function (ECMAScript 2023, Node.js 20).
Its member `length` is hidden by the `length` of every array. -/
def arrayPrototypeNames : List String :=
  ["at", "concat", "constructor", "copyWithin", "entries", "every", "fill", "filter", "find",
    "findIndex", "findLast", "findLastIndex", "flat", "flatMap", "forEach", "includes",
    "indexOf", "join", "keys", "lastIndexOf", "map", "pop", "push", "reduce", "reduceRight",
    "reverse", "shift", "slice", "some", "sort", "splice", "toLocaleString", "toReversed",
    "toSorted", "toSpliced", "toString", "unshift", "values", "with"]

/-- What a property read gives when the property may be inherited: a value of a response, or
a member of one of the two built-in prototypes. -/
inductive Member where
  /-- A value of a response. -/
  | val (v : JVal)
  /-- The object `Object.prototype` (what the accessor `__proto__` returns on a plain object). -/
  | objectPrototype
  /-- The function `Object.prototype[name]`; for `constructor` it is `Object`. -/
  | objectFunction (name : String)
  /-- The function `Array.prototype[name]`; for `constructor` it is `Array`. -/
  | arrayFunction (name : String)
  deriving DecidableEq

/-- The prototype of an object the code creates with `{}`: `Object.prototype` until an
assignment to `__proto__` replaces it by `null` or by an object or array of a response. -/
inductive Proto where
  | objectPrototype
  | null
  | object (entries : List (String × JVal))
  | array (items : List JVal)
  deriving DecidableEq

/-- An object the code creates with `{}` and fills by assignments (`payments`, `surfaceKeys`,
`paymentsMapped`, `toolbarStates`): its own entries in insertion order and its prototype.
The literal `{}` is the value with no entry and the prototype `Object.prototype`. -/
structure Built where
  own : Dict := []
  proto : Proto := .objectPrototype
  deriving DecidableEq

/-- The member `name` of `Object.prototype`, read on an object whose prototype is `proto`:
the accessor `__proto__` returns that prototype, any other name of `objectPrototypeNames` a
function. -/
def objectMember (proto : Member) (name : String) : Option Member :=
  if name = "__proto__" then some proto
  else if name ∈ objectPrototypeNames then some (.objectFunction name)
  else none

/-- The property `name` of an array of a response and of `Array.prototype` behind it: an
element, the length, or a function of `arrayPrototypeNames`. -/
def arrayMember (items : List JVal) (name : String) : Option Member :=
  match arrayIndex name with
  | some i => if i < items.length then some (.val (items.getD i .undefined)) else none
  | none =>
    if name = "length" then some (.val (.num items.length))
    else if name ∈ arrayPrototypeNames then some (.arrayFunction name)
    else none

/-- The property `name` of a built object, looked up through its prototype chain; `none`
when no object of the chain has it. -/
def findMember (o : Built) (name : String) : Option Member :=
  if hasKey o.own name then some (.val (lookupKey o.own name))
  else
    match o.proto with
    | .objectPrototype => objectMember .objectPrototype name
    | .null => none
    | .object es =>
      if hasKey es name then some (.val (lookupKey es name))
      else objectMember (.val (.obj es)) name
    | .array xs =>
      match arrayMember xs name with
      | some m => some m
      | none => objectMember (.val (.arr xs)) name

/-- The operator `name in o` on a built object. -/
def hasMember (o : Built) (name : String) : Bool :=
  (findMember o name).isSome

/-- The read `o[name]` on a built object: `undefined` when the chain has no such property. -/
def readMember (o : Built) (name : String) : Member :=
  (findMember o name).getD (.val .undefined)

/-- Whether an assignment to `__proto__` on an object with this prototype reaches the
setter of `Object.prototype`: not when the chain ends in `null`, and not when an own entry
`__proto__` of the prototype (a data property made by `JSON.parse`) comes first. -/
def reachesProtoSetter : Proto → Bool
  | .objectPrototype => true
  | .null => false
  | .object es => !hasKey es "__proto__"
  | .array _ => true

/-- The assignment `o[name] = value` on a built object.  An own entry is overwritten in
place.  Otherwise the name `__proto__`, when it reaches the setter of `Object.prototype`,
replaces the prototype if the value is an object, an array or `null` and does nothing for any
other value.  In every other case a new own entry goes last (the inherited data properties
are all writable). -/
def setMember (o : Built) (name : String) (value : JVal) : Built :=
  if hasKey o.own name then { o with own := setKey o.own name value }
  else if name = "__proto__" ∧ reachesProtoSetter o.proto = true then
    match value with
    | .obj es => { o with proto := .object es }
    | .arr xs => { o with proto := .array xs }
    | .null => { o with proto := .null }
    | _ => o
  else { o with own := setKey o.own name value }

/-- The text V8 gives for a built-in function called `name`. -/
def nativeSource (name : String) : String :=
  "function " ++ name ++ "() \x7b [native code] \x7d"

/-- The conversion `ToPropertyKey` of what a property read gave. -/
def Member.toKey : Member → Except JsError String
  | .val v => toPropertyKey v
  | .objectPrototype => .ok "[object Object]"
  | .objectFunction name => .ok (nativeSource (if name = "constructor" then "Object" else name))
  | .arrayFunction name => .ok (nativeSource (if name = "constructor" then "Array" else name))

/-- Optional chaining `m?.name` on what a property read gave, for the fixed names the
downloader uses (no built-in function or prototype has a property `heartState`). -/
def optMember (m : Member) (name : String) : JVal :=
  match m with
  | .val v => optProp v name
  | _ => .undefined

/-- What the host provides and this development takes as given: the date parser behind
`new Date(string)`, the formatter behind `Intl.DateTimeFormat('pt-BR', ...).format`, and the
comparison `n >= s` of a number with a string. -/
structure Runtime where
  /-- The value `new Date(s).getTime()`; `none` is `NaN` (an unparseable string). -/
  dateParse : String → Option Int
  /-- The string `new Intl.DateTimeFormat('pt-BR', options).format(d)` for a valid instant in ms. -/
  formatDate : Int → String
  /-- The comparison `n >= s` where `s` is a string (it is converted with `ToNumber`). -/
  geString : Int → String → Bool

/-! ## Transport retry wrapper (`ajaxRequest`) -/

/-- One POST issued through `this.client.post(url, data, { params: { key } })`.  The url is
`'https://www.youtube.com' + apiUrl`; the operand `apiUrl` is recorded. -/
structure Request where
  apiUrl : JVal
  context : JVal
  continuation : JVal
  key : JVal
  deriving DecidableEq

/-- What one call of `this.client.post` does: it resolves with a response, or it rejects (a
thrown error).  Which of the two the client of the downloader does on an answer of the server
is `clientPost`. -/
inductive Outcome where
  | response (status : Nat) (data : JVal)
  | rejected
  deriving DecidableEq

/-- The transport: the outcome of a POST, given how many POSTs were made before it. -/
abbrev Transport := Nat → Outcome

/-- Lines 33-38 of `ajaxRequest`: the url operand and the request body, read from the
endpoint and the config before the first attempt.  The concatenation
`'https://www.youtube.com' + apiUrl` converts the operand and throws when that fails. -/
def ajaxPayload (endpoint ytcfg : JVal) : Except JsError (JVal × JVal × JVal) := do
  let commandMetadata ← getProp endpoint "commandMetadata"
  let webCommandMetadata ← getProp commandMetadata "webCommandMetadata"
  let apiUrl ← getProp webCommandMetadata "apiUrl"
  if !stringable apiUrl then throw JsError.typeError
  let context ← getProp ytcfg "INNERTUBE_CONTEXT"
  let continuationCommand ← getProp endpoint "continuationCommand"
  let token ← getProp continuationCommand "token"
  return (apiUrl, context, token)

/-- The `for (let i = 0; i < retries; i++)` loop of `ajaxRequest`, by the number of attempts
left.  A call that resolves with status 200 returns the data, one that resolves with 403 or
413 returns `{}`, one that resolves with anything else or rejects (caught, logged) goes on to
the next attempt after the sleep; with no attempt left the result is `{}`.  Returns the result
and the request log. -/
def ajaxAttempts (world : Transport) (payload : JVal × JVal × JVal) (ytcfg : JVal) :
    Nat → List Request → JVal × List Request
  | 0, log => (.obj [], log)
  | left + 1, log =>
    match getProp ytcfg "INNERTUBE_API_KEY" with
    | .error _ => ajaxAttempts world payload ytcfg left log
    | .ok key =>
      let sent := log ++ [Request.mk payload.1 payload.2.1 payload.2.2 key]
      match world log.length with
      | .response status data =>
        if status = 200 then (data, sent)
        else if status = 403 ∨ status = 413 then (.obj [], sent)
        else ajaxAttempts world payload ytcfg left sent
      | .rejected => ajaxAttempts world payload ytcfg left sent

/-- The method `ajaxRequest(endpoint, ytcfg, retries = 5, sleepTime = 20)`; the sleep between
attempts has no effect on the result.  Returns the result and the request log, or the
exception raised. -/
def ajaxRequest (world : Transport) (endpoint ytcfg : JVal) (log : List Request)
    (retries : Nat := 5) : Except JsError (JVal × List Request) :=
  match ajaxPayload endpoint ytcfg with
  | .error e => .error e
  | .ok payload => .ok (ajaxAttempts world payload ytcfg retries log)

/-- An outcome that ends `ajaxRequest`: status 200, 403 or 413. -/
def Outcome.isFinal : Outcome → Bool
  | .response status _ => decide (status = 200 ∨ status = 403 ∨ status = 413)
  | .rejected => false

/-- A well-formed continuation endpoint: an object whose `commandMetadata.webCommandMetadata`
and `continuationCommand` are objects, with an `apiUrl` that converts to a string. -/
def wellFormedEndpoint (endpoint : JVal) : Bool :=
  match endpoint with
  | .obj es =>
    (match lookupKey es "commandMetadata" with
      | .obj cm => (match lookupKey cm "webCommandMetadata" with
        | .obj wcm => stringable (lookupKey wcm "apiUrl")
        | _ => false)
      | _ => false) &&
    (match lookupKey es "continuationCommand" with
      | .obj _ => true
      | _ => false)
  | _ => false

/-- A well-formed runtime config: an object (it comes from `JSON.parse` of `{...}`). -/
def wellFormedConfig (ytcfg : JVal) : Bool :=
  match ytcfg with
  | .obj _ => true
  | _ => false

/-- What the server does with one POST: it answers with a status and a body, or the
connection fails. -/
inductive Answer where
  | status (code : Nat) (body : JVal)
  | networkError
  deriving DecidableEq

/-- The default `validateStatus` of axios (`status >= 200 && status < 300`).  The client of
the downloader is created on lines 21-26 with headers only, so it keeps this default. -/
def validateStatus (status : Nat) : Bool :=
  decide (200 ≤ status ∧ status < 300)

/-- The call `this.client.post(...)` on the answer of the server: axios resolves with the
response when `validateStatus` accepts its status and rejects with an error for any other
status, as it does when the connection fails. -/
def clientPost : Answer → Outcome
  | .status code body => if validateStatus code then .response code body else .rejected
  | .networkError => .rejected

/-- The transport that the client of the downloader makes of a server: the outcome of each
POST is what `client.post` makes of the answer. -/
def clientTransport (server : Nat → Answer) : Transport := fun n =>
  clientPost (server n)

/-! ## Pagination engine and comment assembler (`getCommentsFromUrl`) -/

/-- One element of the list returned by `getCommentsFromUrl` (the object literal `result`).
`time_parsed` is `none` when the field is absent, `some none` when it is `NaN` and
`some (some ms)` when it is `ms / 1000`; `paid` is `none` when the field is absent, and
otherwise what the read `paymentsMapped[cid]` gave. -/
structure Comment where
  cid : JVal
  text : JVal
  time : JVal
  author : JVal
  channel : JVal
  votes : String
  replies : JVal
  photo : JVal
  heart : Bool
  reply : Bool
  time_parsed : Option (Option Int)
  paid : Option Member
  deriving DecidableEq

/-- The three target ids of a top-level comments surface. -/
def topLevelTargets : List String :=
  ["comments-section", "engagement-panel-comments-section",
    "shorts-engagement-panel-comments-section"]

/-- The test `[...].includes(action.targetId)` (strict equality with one of three strings). -/
def isTopLevelTarget (targetId : JVal) : Bool :=
  match targetId with
  | .str s => topLevelTargets.contains s
  | _ => false

/-- The call `action.targetId.startsWith('comment-replies-item')`: a `TypeError` unless the
target id is a string. -/
def isRepliesTarget (targetId : JVal) : Except JsError Bool :=
  match targetId with
  | .str s => .ok (startsWithChars "comment-replies-item".data s.data)
  | _ => .error .typeError

/-- The values `for (const item of action.continuationItems || [])` iterates: none for a
falsy value, the elements of an array, the characters of a string; a `TypeError` for any
other value (not iterable). -/
def iterItems (v : JVal) : Except JsError (List JVal) :=
  if v.truthy then
    match v with
    | .arr xs => .ok xs
    | .str s => .ok (s.data.map (fun c => JVal.str (String.singleton c)))
    | _ => .error .typeError
  else .ok []

/-- The body of the inner loop (lines 167-175) for one item: continuation tokens of a
top-level surface go to the front of the work list (`unshift`), the command of a
"show more replies" button goes to the back (`push`). -/
def processItem (action : JVal) (continuations : List JVal) (item : JVal) :
    Except JsError (List JVal) := do
  let targetId ← getProp action "targetId"
  let continuations1 :=
    if isTopLevelTarget targetId then searchDict item "continuationEndpoint" ++ continuations
    else continuations
  if (← isRepliesTarget targetId) then
    if (← jsIn "continuationItemRenderer" item) then
      let command ← getProp (findFirst (searchDict item "buttonRenderer")) "command"
      return continuations1 ++ [command]
    else return continuations1
  else return continuations1

/-- The loop `for (const item of ...)` over the items of one action. -/
def processItems (action : JVal) : List JVal → List JVal → Except JsError (List JVal)
  | [], continuations => .ok continuations
  | item :: rest, continuations =>
    match processItem action continuations item with
    | .error e => .error e
    | .ok continuations1 => processItems action rest continuations1

/-- The loop `for (const action of actions)` (lines 165-177). -/
def processActions : List JVal → List JVal → Except JsError (List JVal)
  | [], continuations => .ok continuations
  | action :: rest, continuations =>
    match getProp action "continuationItems" with
    | .error e => .error e
    | .ok v =>
      match iterItems v with
      | .error e => .error e
      | .ok items =>
        match processItems action items continuations with
        | .error e => .error e
        | .ok continuations1 => processActions rest continuations1

/-- The array `actions` of lines 160-163. -/
def actionsOf (response : JVal) : List JVal :=
  searchDict response "reloadContinuationItemsCommand" ++
    searchDict response "appendContinuationItemsAction"

/-- The loop of lines 182-186 building `payments`. -/
def collectPayments : List JVal → Built → Except JsError Built
  | [], payments => .ok payments
  | payload :: rest, payments =>
    match jsIn "pdgCommentChip" payload with
    | .error e => .error e
    | .ok false => collectPayments rest payments
    | .ok true =>
      match getProp payload "key" with
      | .error e => .error e
      | .ok key =>
        match toPropertyKey key with
        | .error e => .error e
        | .ok name =>
          collectPayments rest
            (setMember payments name
              (jsOr (findFirst (searchDict payload "simpleText")) (.str "")))

/-- The `.map(vm => vm.commentViewModel)` of line 192. -/
def viewModelsOf : List JVal → Except JsError (List JVal)
  | [] => .ok []
  | vm :: rest =>
    match getProp vm "commentViewModel" with
    | .error e => .error e
    | .ok inner =>
      match viewModelsOf rest with
      | .error e => .error e
      | .ok inners => .ok (inner :: inners)

/-- The `.filter(vm => 'commentSurfaceKey' in vm)` of line 195. -/
def withSurfaceKey : List JVal → Except JsError (List JVal)
  | [] => .ok []
  | vm :: rest =>
    match jsIn "commentSurfaceKey" vm with
    | .error e => .error e
    | .ok keep =>
      match withSurfaceKey rest with
      | .error e => .error e
      | .ok kept => .ok (if keep then vm :: kept else kept)

/-- The `.reduce(...)` of lines 196-199 building `surfaceKeys`. -/
def reduceSurfaceKeys : List JVal → Built → Except JsError Built
  | [], acc => .ok acc
  | vm :: rest, acc =>
    match getProp vm "commentSurfaceKey", getProp vm "commentId" with
    | .ok surfaceKey, .ok commentId =>
      match toPropertyKey surfaceKey with
      | .error e => .error e
      | .ok name => reduceSurfaceKeys rest (setMember acc name commentId)
    | .error e, _ => .error e
    | _, .error e => .error e

/-- Lines 188-200: `surfaceKeys`, computed only when `Object.keys(payments)` is not empty,
that is, when `payments` has an own entry. -/
def surfaceKeysOf (response : JVal) (payments : Built) : Except JsError Built :=
  if payments.own.isEmpty then .ok {}
  else
    match viewModelsOf (searchDict response "commentViewModel") with
    | .error e => .error e
    | .ok viewModels =>
      match withSurfaceKey viewModels with
      | .error e => .error e
      | .ok kept => reduceSurfaceKeys kept {}

/-- Insertion of an index-keyed entry into a list sorted by index. -/
def insertIndexed (e : Nat × String × JVal) : List (Nat × String × JVal) →
    List (Nat × String × JVal)
  | [] => [e]
  | f :: rest => if e.1 ≤ f.1 then e :: f :: rest else f :: insertIndexed e rest

/-- The entries of a built object whose key is an array index, sorted by index. -/
def indexedEntries : Dict → List (Nat × String × JVal)
  | [] => []
  | (k, v) :: rest =>
    match arrayIndex k with
    | some n => insertIndexed (n, k, v) (indexedEntries rest)
    | none => indexedEntries rest

/-- The list `Object.entries(o)` of a built object with the own entries `d`: index keys
ascending, then the other keys in insertion order. -/
def objectEntries (d : Dict) : List (String × JVal) :=
  (indexedEntries d).map (fun e => e.2) ++ d.filter (fun e => (arrayIndex e.1).isNone)

/-- The loop of lines 202-207 building `paymentsMapped`: the test `key in surfaceKeys` and
the read `surfaceKeys[key]` both see inherited members. -/
def mapPayments (surfaceKeys : Built) : List (String × JVal) → Built → Except JsError Built
  | [], acc => .ok acc
  | (key, payment) :: rest, acc =>
    if hasMember surfaceKeys key then
      match (readMember surfaceKeys key).toKey with
      | .error e => .error e
      | .ok name => mapPayments surfaceKeys rest (setMember acc name payment)
    else mapPayments surfaceKeys rest acc

/-- The `.reduce(...)` of lines 210-213 building `toolbarStates`. -/
def reduceToolbarStates : List JVal → Built → Except JsError Built
  | [], acc => .ok acc
  | payload :: rest, acc =>
    match getProp payload "key" with
    | .error e => .error e
    | .ok key =>
      match toPropertyKey key with
      | .error e => .error e
      | .ok name => reduceToolbarStates rest (setMember acc name payload)

/-- The expression `toolbar.likeCountNotliked.trim() || "0"`: a `TypeError` unless the count
is a string. -/
def votesOf (likeCount : JVal) : Except JsError String :=
  match likeCount with
  | .str s => .ok (if jsTrim s = "" then "0" else jsTrim s)
  | _ => .error .typeError

/-- The call `cid.includes('.')`: substring test on a string, element test on an array, a
`TypeError` on anything else. -/
def cidIncludesDot (cid : JVal) : Except JsError Bool :=
  match cid with
  | .str s => .ok (jsIncludes s ".")
  | .arr xs => .ok (xs.any (fun x => x.beq (.str ".")))
  | _ => .error .typeError

/-- The `try` block of lines 237-243: `result.time.split('(')[0].trim()` and the date parse.
When `time` is not a string the call of `split` throws and the field stays absent; for a
string the field is set, to `NaN` when the date does not parse. -/
def timeParsedOf (rt : Runtime) (time : JVal) : Option (Option Int) :=
  match time with
  | .str s => some (rt.dateParse (String.mk (jsTrimChars (s.data.takeWhile (fun c => c ≠ '(')))))
  | _ => none

/-- The body of the loop of lines 217-250 for one comment entity, up to the `push`.  The
read `toolbarStates[...]`, the test `cid in paymentsMapped` and the read `paymentsMapped[cid]`
see inherited members. -/
def assembleComment (rt : Runtime) (toolbarStates paymentsMapped : Built) (comment : JVal) :
    Except JsError Comment := do
  let properties ← getProp comment "properties"
  let cid ← getProp properties "commentId"
  let author ← getProp comment "author"
  let toolbar ← getProp comment "toolbar"
  let stateKey ← toPropertyKey (← getProp properties "toolbarStateKey")
  let toolbarState := readMember toolbarStates stateKey
  let text ← getProp (← getProp properties "content") "content"
  let time ← getProp properties "publishedTime"
  let displayName ← getProp author "displayName"
  let channel ← getProp author "channelId"
  let votes ← votesOf (← getProp toolbar "likeCountNotliked")
  let replies ← getProp toolbar "replyCount"
  let photo ← getProp author "avatarThumbnailUrl"
  let heart := (jsOr (optMember toolbarState "heartState") (.str "")).beq
    (.str "TOOLBAR_HEART_STATE_HEARTED")
  let reply ← cidIncludesDot cid
  let key ← toPropertyKey cid
  return {
    cid := cid, text := text, time := time, author := displayName, channel := channel,
    votes := votes, replies := replies, photo := photo, heart := heart, reply := reply,
    time_parsed := timeParsedOf rt time,
    paid := if hasMember paymentsMapped key then some (readMember paymentsMapped key) else none }

/-- The loop `for (const comment of commentPayloads)`: each record is pushed at the end of
`comments`. -/
def assembleAll (rt : Runtime) (toolbarStates paymentsMapped : Built) :
    List JVal → List Comment → Except JsError (List Comment)
  | [], comments => .ok comments
  | comment :: rest, comments =>
    match assembleComment rt toolbarStates paymentsMapped comment with
    | .error e => .error e
    | .ok result => assembleAll rt toolbarStates paymentsMapped rest (comments ++ [result])

/-- The array `commentPayloads` of line 215: what `searchDict` yields, reversed. -/
def commentPayloadsOf (response : JVal) : List JVal :=
  (searchDict response "commentEntityPayload").reverse

/-- Lines 155-250: everything one iteration does with a truthy response.  Returns the new
work list and the new list of comments. -/
def processResponse (rt : Runtime) (response : JVal) (continuations : List JVal)
    (comments : List Comment) : Except JsError (List JVal × List Comment) := do
  if (findFirst (searchDict response "externalErrorMessage")).truthy then
    if stringable (findFirst (searchDict response "externalErrorMessage")) then
      throw (JsError.serverError (findFirst (searchDict response "externalErrorMessage")))
    else throw JsError.typeError
  else
    let continuations1 ← processActions (actionsOf response) continuations
    let payments ← collectPayments (searchDict response "commentSurfaceEntityPayload") {}
    let surfaceKeys ← surfaceKeysOf response payments
    let paymentsMapped ← mapPayments surfaceKeys (objectEntries payments.own) {}
    let toolbarStates ←
      reduceToolbarStates (searchDict response "engagementToolbarStateEntityPayload") {}
    let comments1 ←
      assembleAll rt toolbarStates paymentsMapped (commentPayloadsOf response) comments
    return (continuations1, comments1)

/-- The `while (continuations.length > 0)` loop of lines 147-253, one iteration per unit of
fuel; `none` when the fuel runs out with tokens still queued.  The result is what the loop
leaves in `comments`, or the exception raised, with the request log. -/
def paginate (rt : Runtime) (world : Transport) (ytcfg : JVal) :
    Nat → List JVal → List Comment → List Request →
      Option (Except JsError (List Comment) × List Request)
  | _, [], comments, log => some (.ok comments, log)
  | 0, _ :: _, _, _ => none
  | fuel + 1, continuation :: rest, comments, log =>
    match ajaxRequest world continuation ytcfg log with
    | .error e => some (.error e, log)
    | .ok (response, log1) =>
      if response.truthy then
        match processResponse rt response rest comments with
        | .error e => some (.error e, log1)
        | .ok (continuations1, comments1) => paginate rt world ytcfg fuel continuations1 comments1 log1
      else some (.ok comments, log1)

/-- What lines 76-116 obtain from the network and from the two regular expressions.  For
each of `YT_CFG_RE` and `YT_INITIAL_DATA_RE`: `none` when the expression does not match the
document, `some none` when `JSON.parse` throws on the matched text, `some (some v)` when it
parses to `v`. -/
inductive Fetched where
  /-- The GET or the consent POST rejects, or reading the resolved url throws. -/
  | failed (e : JsError)
  | page (ytcfgMatch : Option (Option JVal)) (dataMatch : Option (Option JVal))

/-- The assignment `ytcfg.INNERTUBE_CONTEXT.client.hl = language` (line 108) as a new config.
Class bodies are strict code, so assigning a property of a primitive throws; a named property
set on an array is not part of its JSON form and leaves the value as it is. -/
def setLanguage (ytcfg language : JVal) : Except JsError JVal := do
  let context ← getProp ytcfg "INNERTUBE_CONTEXT"
  let client ← getProp context "client"
  match ytcfg, context, client with
  | .obj cfg, .obj ctx, .obj cl =>
    return .obj (setKey cfg "INNERTUBE_CONTEXT" (.obj (setKey ctx "client"
      (.obj (setKey cl "hl" language)))))
  | _, _, .arr _ => return ytcfg
  | _, _, _ => throw JsError.typeError

/-- The expression `findFirst(searchDict(data, 'sortFilterSubMenuRenderer'))?.subMenuItems
|| []` of lines 126 and 136. -/
def sortMenuOf (data : JVal) : JVal :=
  jsOr (optProp (findFirst (searchDict data "sortFilterSubMenuRenderer")) "subMenuItems")
    (.arr [])

/-- The read `sortMenu.length` on a value that is not `undefined` or `null`. -/
def jsLength (v : JVal) : JVal :=
  match v with
  | .arr xs => .num xs.length
  | .str s => .num (utf16Length s)
  | .obj es => lookupKey es "length"
  | _ => .undefined

/-- The comparison `n >= v` for a number `n`: `v` is converted with `ToNumber`
(`undefined` and `[object Object]` give `NaN`, so the comparison is false). -/
def jsGe (rt : Runtime) (n : Int) (v : JVal) : Bool :=
  match v with
  | .undefined => false
  | .null => decide (0 ≤ n)
  | .bool b => decide ((if b then 1 else 0) ≤ n)
  | .num m => decide (m ≤ n)
  | .str s => rt.geString n s
  | .arr xs => rt.geString n (jsJoin xs)
  | .obj _ => false

/-- The read `sortMenu[sortBy]` on a value that is not `undefined` or `null`.  For a string
the result is the one-unit string at that index (exact when the characters before it are in
the basic plane). -/
def jsIndex (v : JVal) (i : Int) : JVal :=
  match v with
  | .arr xs => if 0 ≤ i then xs.getD i.toNat .undefined else .undefined
  | .str s =>
    if 0 ≤ i ∧ i < utf16Length s then .str (String.singleton (s.data.getD i.toNat ' '))
    else .undefined
  | .obj es => lookupKey es (toString i)
  | _ => .undefined

/-- Lines 126-138: the sort menu of the initial data, or, when that is empty, the sort menu
of the response to the first `continuationEndpoint` of the section list.  Returns the menu
and the request log. -/
def resolveSortMenu (world : Transport) (ytcfg data : JVal) (log : List Request) :
    Except JsError (JVal × List Request) :=
  let sortMenu := sortMenuOf data
  if !sortMenu.truthy || (jsLength sortMenu).beq (.num 0) then
    let sectionList := jsOr (findFirst (searchDict data "sectionListRenderer")) (.obj [])
    match searchDict sectionList "continuationEndpoint" with
    | [] => .ok (sortMenu, log)
    | first :: _ =>
      match ajaxRequest world first ytcfg log with
      | .error e => .error e
      | .ok (response, log1) => .ok (sortMenuOf (jsOr response (.obj [])), log1)
  else .ok (sortMenu, log)

/-- Lines 140-144: the ordering check and the endpoint of the chosen menu entry. -/
def selectOrdering (rt : Runtime) (sortMenu : JVal) (sortBy : Int) : Except JsError JVal :=
  if !sortMenu.truthy || (jsLength sortMenu).beq (.num 0) || jsGe rt sortBy (jsLength sortMenu)
  then .error .orderingError
  else getProp (jsIndex sortMenu sortBy) "serviceEndpoint"

/-- Lines 107-109: the language override of the config, when a language is given. -/
def applyLanguage (ytcfg language : JVal) : Except JsError JVal :=
  if language.truthy then setLanguage ytcfg language else .ok ytcfg

/-- Lines 119-120: the continuation renderer of the first item section found, `null` when
there is no truthy item section. -/
def commentsRenderer (data : JVal) : JVal :=
  let itemSection := findFirst (searchDict data "itemSectionRenderer")
  if itemSection.truthy then findFirst (searchDict itemSection "continuationItemRenderer")
  else .null

/-- The `try` block of `getCommentsFromUrl` (lines 76-255): the list it returns or the
exception it raises, with the log of the POSTs made through `ajaxRequest`; `none` when the
pagination loop does not end within the fuel. -/
def getCommentsTry (rt : Runtime) (world : Transport) (fetched : Fetched) (sortBy : Int)
    (language : JVal) (fuel : Nat) : Option (Except JsError (List Comment) × List Request) :=
  match fetched with
  | .failed e => some (.error e, [])
  | .page none _ => some (.ok [], [])
  | .page (some none) _ => some (.error .syntaxError, [])
  | .page (some (some ytcfg0)) dataMatch =>
    match applyLanguage ytcfg0 language with
    | .error e => some (.error e, [])
    | .ok ytcfg =>
      match dataMatch with
      | none => some (.ok [], [])
      | some none => some (.error .syntaxError, [])
      | some (some data) =>
        if (commentsRenderer data).truthy then
          match resolveSortMenu world ytcfg data [] with
          | .error e => some (.error e, [])
          | .ok (sortMenu, log) =>
            match selectOrdering rt sortMenu sortBy with
            | .error e => some (.error e, log)
            | .ok endpoint => paginate rt world ytcfg fuel [endpoint] [] log
        else some (.ok [], [])

/-- The method `getCommentsFromUrl(youtubeUrl, sortBy, language, sleepTime)`: the `try` block
and the `catch` of lines 256-259, which logs the exception and returns `[]`.  The result is
`.ok list` for a returned list and `.error e` for an exception raised to the caller. -/
def getCommentsFromUrl (rt : Runtime) (world : Transport) (fetched : Fetched) (sortBy : Int)
    (language : JVal) (fuel : Nat) : Option (Except JsError (List Comment) × List Request) :=
  match getCommentsTry rt world fetched sortBy language fuel with
  | none => none
  | some (.ok comments, log) => some (.ok comments, log)
  | some (.error _, log) => some (.ok [], log)

/-! ## Relative-time converter (`converterDataRelativa`, `formatarData`) -/

/-- The class `\d`. -/
def isDigitChar (c : Char) : Bool :=
  48 ≤ c.toNat && c.toNat ≤ 57

/-- The class `\w` (without the `u` flag): ASCII letters, digits and the underscore. -/
def isWordChar (c : Char) : Bool :=
  (97 ≤ c.toNat && c.toNat ≤ 122) || (65 ≤ c.toNat && c.toNat ≤ 90) || isDigitChar c ||
    c.toNat = 95

/-- A match of `/há\s+(\d+)\s+(\w+)/i` starting at the head of the input: the two groups.
The classes `\s`, `\d` and `\w` are disjoint where they meet, so each greedy run is the
maximal one and no backtracking changes the result. -/
def matchAt : List Char → Option (List Char × List Char)
  | h :: a :: rest =>
    if (h = 'h' ∨ h = 'H') ∧ (a = 'á' ∨ a = 'Á') then
      let afterSpace1 := rest.dropWhile isJsSpace
      let digits := afterSpace1.takeWhile isDigitChar
      let afterSpace2 := (afterSpace1.dropWhile isDigitChar).dropWhile isJsSpace
      let word := afterSpace2.takeWhile isWordChar
      if (rest.takeWhile isJsSpace).isEmpty || digits.isEmpty ||
          ((afterSpace1.dropWhile isDigitChar).takeWhile isJsSpace).isEmpty || word.isEmpty
      then none
      else some (digits, word)
    else none
  | _ => none

/-- The call `tempoRelativo.match(/há\s+(\d+)\s+(\w+)/i)` on the characters of a string: the
groups of the leftmost match. -/
def regexMatch : List Char → Option (List Char × List Char)
  | [] => none
  | c :: cs =>
    match matchAt (c :: cs) with
    | some groups => some groups
    | none => regexMatch cs

/-- The value `parseInt(digits, 10)` of a run of decimal digits. -/
def digitsValue (digits : List Char) : Nat :=
  digits.foldl (fun acc c => acc * 10 + (c.toNat - 48)) 0

/-- The `if`/`else if` chain of lines 322-338. -/
def multiplicadorOf (unidade : List Char) : Nat :=
  if includesChars "segundo".data unidade then 1000
  else if includesChars "minuto".data unidade then 60 * 1000
  else if includesChars "hora".data unidade then 60 * 60 * 1000
  else if includesChars "dia".data unidade then 24 * 60 * 60 * 1000
  else if includesChars "semana".data unidade then 7 * 24 * 60 * 60 * 1000
  else if includesChars "mês".data unidade || includesChars "meses".data unidade then
    30 * 24 * 60 * 60 * 1000
  else if includesChars "ano".data unidade then 365 * 24 * 60 * 60 * 1000
  else 0

/-- The largest magnitude of a valid time value, in milliseconds. -/
def maxTime : Int := 8640000000000000

/-- The constructor `new Date(t)` for a number: `none` is an invalid date. -/
def timeClip (t : Int) : Option Int :=
  if -maxTime ≤ t ∧ t ≤ maxTime then some t else none

/-- From this value on `parseInt` gives `Infinity`, and the date computed from it is
invalid whatever the multiplier. -/
def infiniteFrom : Nat := 2 ^ 1024 - 2 ^ 970

/-- The method `formatarData(data)`: the host formatter, then `/` replaced by `-`; a
`RangeError` on an invalid date. -/
def formatarData (rt : Runtime) (data : Option Int) : Except JsError String :=
  match data with
  | none => .error .rangeError
  | some t => .ok (String.mk ((rt.formatDate t).data.map (fun c => if c = '/' then '-' else c)))

/-- The `try` block of `converterDataRelativa` (lines 311-343); `agora` is the instant read
by `new Date()` on line 311. -/
def converterTry (rt : Runtime) (agora : Int) (tempoRelativo : JVal) : Except JsError String :=
  match tempoRelativo with
  | .str s =>
    match regexMatch s.data with
    | none => formatarData rt (some agora)
    | some (digits, word) =>
      let quantidade := digitsValue digits
      let unidade := word.map Char.toLower
      let multiplicador := multiplicadorOf unidade
      let dataCalculada :=
        if infiniteFrom ≤ quantidade then none
        else timeClip (agora - quantidade * multiplicador)
      formatarData rt dataCalculada
  | _ => .error .typeError

/-- The method `converterDataRelativa(tempoRelativo)`; `agoraCatch` is the instant read by
`new Date()` in the `catch` of line 345. -/
def converterDataRelativa (rt : Runtime) (agora agoraCatch : Int) (tempoRelativo : JVal) :
    Except JsError String :=
  match converterTry rt agora tempoRelativo with
  | .ok s => .ok s
  | .error _ => formatarData rt (some agoraCatch)

/-! ## Reference descriptions for the work list and the batch order -/

/-- The items `processActions` iterates for one action: the elements of an array-valued
`continuationItems`, the characters of a string-valued one, none otherwise. -/
def itemsOfAction (action : JVal) : List JVal :=
  match optProp action "continuationItems" with
  | .arr xs => xs
  | .str s => s.data.map (fun c => JVal.str (String.singleton c))
  | _ => []

/-- The continuation tokens found in one item of an action whose target is a top-level
comments surface. -/
def frontOfItem (action item : JVal) : List JVal :=
  if isTopLevelTarget (optProp action "targetId") then searchDict item "continuationEndpoint"
  else []

/-- Whether the item is a `continuationItemRenderer` item of an action whose target id starts
with `comment-replies-item`. -/
def isRepliesItem (action item : JVal) : Bool :=
  (match optProp action "targetId" with
    | .str s => startsWithChars "comment-replies-item".data s.data
    | _ => false) &&
  (match item with
    | .obj es => hasKey es "continuationItemRenderer"
    | _ => false)

/-- The button command of a "show more replies" item, as a list of at most one token. -/
def backOfItem (action item : JVal) : List JVal :=
  if isRepliesItem action item then
    [optProp (findFirst (searchDict item "buttonRenderer")) "command"]
  else []

/-- Every (action, item) pair of a list of actions, in the order the loops visit them. -/
def actionItemPairs : List JVal → List (JVal × JVal)
  | [] => []
  | action :: rest => (itemsOfAction action).map (fun item => (action, item)) ++ actionItemPairs rest

/-- The part `F` put in front of the work list: the token blocks of the visited items, the
block of the last visited item first. -/
def frontTokens (actions : List JVal) : List JVal :=
  (((actionItemPairs actions).map (fun p => frontOfItem p.1 p.2)).reverse).flatten

/-- The part `B` appended to the work list: the button commands in visiting order. -/
def backTokens (actions : List JVal) : List JVal :=
  ((actionItemPairs actions).map (fun p => backOfItem p.1 p.2)).flatten

/-- A response whose comment entities are the successive elements of its mutation sequence:
`{"frameworkUpdates": {"entityBatchUpdate": {"mutations": [{"payload":
{"commentEntityPayload": e}}, ...]}}}`. -/
def batchOf (entities : List JVal) : JVal :=
  .obj [("frameworkUpdates", .obj [("entityBatchUpdate", .obj [("mutations",
    .arr (entities.map (fun e => JVal.obj [("payload", .obj [("commentEntityPayload", e)])])))])])]

/-- The identifier read from an entity (`comment.properties.commentId`). -/
def cidOf (comment : JVal) : JVal :=
  optProp (optProp comment "properties") "commentId"

/-! ## Concrete payloads used in the examples -/

/-- A runtime config with an API key and a request context. -/
def sampleConfig : JVal :=
  .obj [("INNERTUBE_API_KEY", .str "key"),
    ("INNERTUBE_CONTEXT", .obj [("client", .obj [("hl", .str "en")])])]

/-- A continuation endpoint carrying the given token. -/
def sampleEndpoint (token : String) : JVal :=
  .obj [("commandMetadata", .obj [("webCommandMetadata",
      .obj [("apiUrl", .str "/youtubei/v1/next")])]),
    ("continuationCommand", .obj [("token", .str token)])]

/-- An initial render tree with an item section, a continuation renderer and a sort menu of
two entries (popular, recent). -/
def sampleData : JVal :=
  .obj [("contents", .obj [
    ("itemSectionRenderer", .obj [("continuationItemRenderer", .obj [("trigger", .str "x")])]),
    ("sortFilterSubMenuRenderer", .obj [("subMenuItems", .arr [
      .obj [("serviceEndpoint", sampleEndpoint "popular")],
      .obj [("serviceEndpoint", sampleEndpoint "recent")]])])])]

/-- A well-formed comment entity with the given identifier. -/
def sampleEntity (cid : String) : JVal :=
  .obj [
    ("properties", .obj [("commentId", .str cid), ("content", .obj [("content", .str "text")]),
      ("publishedTime", .str "há 2 dias"), ("toolbarStateKey", .str "tk")]),
    ("author", .obj [("displayName", .str "@user"), ("channelId", .str "UC1"),
      ("avatarThumbnailUrl", .str "https://a/b.jpg")]),
    ("toolbar", .obj [("likeCountNotliked", .str "3"), ("replyCount", .str "0")])]

/-- The record `assembleComment` builds from `sampleEntity cid` under `sampleRuntime`. -/
def sampleRecord (cid : String) (reply : Bool) : Comment :=
  { cid := .str cid, text := .str "text", time := .str "há 2 dias", author := .str "@user",
    channel := .str "UC1", votes := "3", replies := .str "0", photo := .str "https://a/b.jpg",
    heart := false, reply := reply, time_parsed := some none, paid := none }

/-- A host whose date parser rejects every string and whose formatter prints a fixed date. -/
def sampleRuntime : Runtime :=
  { dateParse := fun _ => none, formatDate := fun _ => "01/01/2025", geString := fun _ _ => false }

/-- A first page: one entity `c0` and a reload action on the top-level surface whose two
items carry the continuation tokens `A` and `B`. -/
def samplePageOne : JVal :=
  .obj [
    ("onResponseReceivedEndpoints", .arr [.obj [("reloadContinuationItemsCommand", .obj [
      ("targetId", .str "comments-section"),
      ("continuationItems", .arr [
        .obj [("continuationItemRenderer", .obj [("continuationEndpoint", sampleEndpoint "A")])],
        .obj [("continuationItemRenderer", .obj [("continuationEndpoint", sampleEndpoint "B")])]
      ])])]]),
    ("frameworkUpdates", .obj [("entityBatchUpdate", .obj [("mutations",
      .arr [.obj [("payload", .obj [("commentEntityPayload", sampleEntity "c0")])]])])])]

/-- A replies page: an append action on a reply thread whose item is a "show more replies"
placeholder with a button carrying the token `R`. -/
def sampleRepliesPage : JVal :=
  .obj [("onResponseReceivedEndpoints", .arr [.obj [("appendContinuationItemsAction", .obj [
    ("targetId", .str "comment-replies-item-UgxAbc"),
    ("continuationItems", .arr [
      .obj [("continuationItemRenderer", .obj [("button", .obj [("buttonRenderer",
        .obj [("command", sampleEndpoint "R")])])])]])])]])]

/-- A server: it answers the first POST with `samplePageOne` (entity `c0`, tokens `B` and
`A`), the seventh with a page that holds the entity `c1`, and every other POST with status
403.  The five attempts for the token `B` are the POSTs two to six. -/
def sampleServer : Nat → Answer := fun n =>
  match n with
  | 0 => .status 200 samplePageOne
  | 6 => .status 200 (batchOf [sampleEntity "c1"])
  | _ => .status 403 (.str "Forbidden")

/-- The transport the client makes of `sampleServer`: the first POST resolves with
`samplePageOne`, the next five are thrown (status 403), the seventh resolves with a page that
holds the entity `c1`, every later one is thrown. -/
def sampleTransport : Transport :=
  clientTransport sampleServer

/-- The request `ajaxRequest` posts for `sampleEndpoint token` under `sampleConfig`. -/
def sampleRequest (token : String) : Request :=
  { apiUrl := .str "/youtubei/v1/next", context := .obj [("client", .obj [("hl", .str "en")])],
    continuation := .str token, key := .str "key" }

/-- A server: it answers the first POST with status 403, the second with status 413, the
third with status 200 and the body `{ok: 1}`; after that the connection fails. -/
def refusingServer : Nat → Answer := fun n =>
  match n with
  | 0 => .status 403 (.str "Forbidden")
  | 1 => .status 413 (.str "Payload Too Large")
  | 2 => .status 200 (.obj [("ok", .num 1)])
  | _ => .networkError

/-! ## Reference descriptions for the relative-time converter -/

/-- The unit words `segundo(s)`, `minuto(s)`, `hora(s)`, `dia(s)`, `semana(s)`, `ano(s)` with
their durations in milliseconds. -/
def unitDurations : List (String × Nat) :=
  [("segundo", 1000), ("segundos", 1000), ("minuto", 60000), ("minutos", 60000),
    ("hora", 3600000), ("horas", 3600000), ("dia", 86400000), ("dias", 86400000),
    ("semana", 7 * 86400000), ("semanas", 7 * 86400000),
    ("ano", 365 * 86400000), ("anos", 365 * 86400000)]

/-- Whether `word` spells the lower-case word `unit` in some letter case: each character is
the letter of `unit` at that place or its upper-case form. -/
def caseVariant : List Char → List Char → Bool
  | [], [] => true
  | c :: cs, l :: ls => (c == l || c == l.toUpper) && caseVariant cs ls
  | _, _ => false

/-- A valid time value: what `new Date()` and `Date.prototype.getTime` can hold. -/
def validInstant (t : Int) : Prop :=
  -maxTime ≤ t ∧ t ≤ maxTime

/-- The letters that occur in the unit words. -/
def unitLetters : List Char :=
  ['s', 'e', 'g', 'u', 'n', 'd', 'o', 'm', 'i', 't', 'h', 'r', 'a']

/-! ## Concrete payloads for the disabled-comments, month and date examples -/

/-- An initial render tree whose item section has no continuation renderer. -/
def sampleDisabledData : JVal :=
  .obj [("contents", .obj [("itemSectionRenderer", .obj [("header", .str "Comments")])])]

/-- A host whose formatter prints the instant itself, so that different instants give
different strings. -/
def instantRuntime : Runtime :=
  { dateParse := fun _ => none, formatDate := fun t => toString t, geString := fun _ _ => false }

/-! ## Reference descriptions and payloads for malformed entities, endless runs and
identifiers -/

/-- The values `undefined` and `null`. -/
def JVal.isNullish : JVal → Bool
  | .undefined => true
  | .null => true
  | _ => false

/-- A malformed entity: it is `null`, or its `properties` or its `author` object is missing. -/
def missingMandatory (comment : JVal) : Bool :=
  comment.isNullish || (optProp comment "properties").isNullish ||
    (optProp comment "author").isNullish

/-- An entity with an identifier and a body but no `author` object. -/
def sampleMalformedEntity : JVal :=
  .obj [
    ("properties", .obj [("commentId", .str "bad"), ("content", .obj [("content", .str "text")]),
      ("publishedTime", .str "há 2 dias"), ("toolbarStateKey", .str "tk")]),
    ("toolbar", .obj [("likeCountNotliked", .str "3"), ("replyCount", .str "0")])]

/-- A transport: the first POST returns `samplePageOne` (entity `c0`, tokens `B` and `A`), the
second a batch with the well-formed entity `c1` followed by `sampleMalformedEntity`, every
later one an empty page. -/
def malformedTransport : Transport := fun n =>
  match n with
  | 0 => .response 200 samplePageOne
  | 1 => .response 200 (batchOf [sampleEntity "c1", sampleMalformedEntity])
  | _ => .response 200 (.obj [])

/-- A page with no entity and a reload action on the top-level surface whose item carries
one continuation token. -/
def sampleEndlessPage : JVal :=
  .obj [("onResponseReceivedEndpoints", .arr [.obj [("reloadContinuationItemsCommand", .obj [
    ("targetId", .str "comments-section"),
    ("continuationItems", .arr [
      .obj [("continuationItemRenderer",
        .obj [("continuationEndpoint", sampleEndpoint "next")])]])])]])]

/-- A transport that answers every POST with `sampleEndlessPage`. -/
def endlessTransport : Transport := fun _ => .response 200 sampleEndlessPage

/-- A transport: the first POST returns `samplePageOne` (entity `c0`, tokens `B` and `A`), the
second a page that holds the entity `c0` again, every later one an empty page. -/
def duplicateTransport : Transport := fun n =>
  match n with
  | 0 => .response 200 samplePageOne
  | 1 => .response 200 (batchOf [sampleEntity "c0"])
  | _ => .response 200 (.obj [])

/-- The identifiers of the comment entities of a response, in the order in which the records
are built. -/
def entityIds (response : JVal) : List JVal :=
  (commentPayloadsOf response).map cidOf

/-- The identifiers one transport outcome delivers to the record loop: those of the entities
of a status-200 response with truthy data, none for any other outcome. -/
def outcomeIds : Outcome → List JVal
  | .response status data => if status = 200 ∧ data.truthy = true then entityIds data else []
  | .rejected => []

/-- The identifiers delivered by the `count` outcomes from index `start` on. -/
def deliveredIds (world : Transport) : Nat → Nat → List JVal
  | _, 0 => []
  | start, count + 1 => outcomeIds (world start) ++ deliveredIds world (start + 1) count

/-- The identifiers a result of `ajaxRequest` delivers to the record loop: those of its
entities when the result is truthy (the loop goes on), none when it is falsy (the loop
stops). -/
def resultIds (response : JVal) : List JVal :=
  if response.truthy then entityIds response else []

/-! ## Public entry point (`getCommentsAsJson`, `getCommentsFromUrlAsJson`,
`obterComentarios`) -/

/-- One element of the list returned by `getCommentsAsJson` and `getCommentsFromUrlAsJson`
(the object literal of lines 384-391 and 407-414). -/
structure Comentario where
  cid : JVal
  user : JVal
  text : JVal
  time : JVal
  data : String
  respostas : JVal
  deriving DecidableEq

/-- The clock: for the record at index `i`, the instant `new Date()` gives on line 311 and
the instant it gives in the `catch` of line 345 during `converterDataRelativa(comment.time)`. -/
abbrev Clock := Nat → Int × Int

/-- The call `allComments.map(comment => ({ ... }))` of lines 384-391 and 407-414, from the
record at index `i` on. -/
def mapComentarios (rt : Runtime) (clock : Clock) : Nat → List Comment →
    Except JsError (List Comentario)
  | _, [] => .ok []
  | i, comment :: rest =>
    match converterDataRelativa rt (clock i).1 (clock i).2 comment.time with
    | .error e => .error e
    | .ok data =>
      match mapComentarios rt clock (i + 1) rest with
      | .error e => .error e
      | .ok mapped =>
        .ok ({ cid := comment.cid, user := comment.author, text := comment.text,
               time := comment.time, data := data, respostas := comment.replies } :: mapped)

/-- The method `getCommentsFromUrlAsJson(youtubeUrl, sortBy, language, sleepTime)`; `fetched`
is what the GET of `youtubeUrl` obtains. -/
def getCommentsFromUrlAsJson (rt : Runtime) (world : Transport) (clock : Clock)
    (fetched : Fetched) (sortBy : Int) (language : JVal) (fuel : Nat) :
    Option (Except JsError (List Comentario) × List Request) :=
  match getCommentsFromUrl rt world fetched sortBy language fuel with
  | none => none
  | some (.error e, log) => some (.error e, log)
  | some (.ok allComments, log) => some (mapComentarios rt clock 0 allComments, log)

/-- The method `getCommentsAsJson(youtubeId, sortBy, language, sleepTime)`, through
`getComments`; `fetched` is what the GET of the watch-page url built from `youtubeId`
obtains. -/
def getCommentsAsJson (rt : Runtime) (world : Transport) (clock : Clock)
    (fetched : Fetched) (sortBy : Int) (language : JVal) (fuel : Nat) :
    Option (Except JsError (List Comentario) × List Request) :=
  match getCommentsFromUrl rt world fetched sortBy language fuel with
  | none => none
  | some (.error e, log) => some (.error e, log)
  | some (.ok allComments, log) => some (mapComentarios rt clock 0 allComments, log)

/-- The parameter `opcoes` of `obterComentarios`: `none` is a property that is `undefined`,
which the destructuring of lines 26-30 replaces by its default. -/
structure Opcoes where
  limite : Option Int := none
  idioma : Option JVal := none
  ordenacao : Option Int := none

/-- The constant `SORT_BY_RECENT`. -/
def SORT_BY_RECENT : Int := 1

/-- The constant `SORT_BY_POPULAR`. -/
def SORT_BY_POPULAR : Int := 0

/-- Exceptions `obterComentarios` raises to its caller. -/
inductive ObterError where
  /-- The error `new Error('É necessário fornecer o ID do vídeo ou a URL')` of line 33. -/
  | semVideo
  /-- An exception of the `try` block, logged and thrown again by the `catch` of line 61. -/
  | relancado (e : JsError)
  deriving DecidableEq

/-- The test `videoIdOuUrl.includes('youtube.com') || videoIdOuUrl.includes('youtu.be')` of
line 38: substring tests on a string, element tests on an array, a `TypeError` otherwise. -/
def ehUrlOf (videoIdOuUrl : JVal) : Except JsError Bool :=
  match videoIdOuUrl with
  | .str s => .ok (jsIncludes s "youtube.com" || jsIncludes s "youtu.be")
  | .arr xs =>
    .ok (xs.any (fun x => x.beq (.str "youtube.com")) || xs.any (fun x => x.beq (.str "youtu.be")))
  | _ => .error .typeError

/-- The call `comentarios.slice(0, limite)` for an integer `limite`: a negative end counts
from the end of the array. -/
def jsSlice {α : Type} (xs : List α) (limite : Int) : List α :=
  if 0 ≤ limite then xs.take limite.toNat
  else xs.take (xs.length - (-limite).toNat)

/-- The function `obterComentarios(videoIdOuUrl, opcoes)`; `fetch ehUrl v` is what the GET
of the page obtains (the url `v` itself when `ehUrl`, the watch-page url built from the
identifier `v` otherwise). -/
def obterComentarios (rt : Runtime) (world : Transport) (clock : Clock)
    (fetch : Bool → JVal → Fetched) (videoIdOuUrl : JVal) (opcoes : Opcoes) (fuel : Nat) :
    Option (Except ObterError (List Comentario) × List Request) :=
  let limite := opcoes.limite.getD 50
  let idioma := opcoes.idioma.getD (.str "pt")
  let ordenacao := opcoes.ordenacao.getD SORT_BY_RECENT
  if videoIdOuUrl.truthy then
    match ehUrlOf videoIdOuUrl with
    | .error e => some (.error (.relancado e), [])
    | .ok ehUrl =>
      let comentarios :=
        if ehUrl then
          getCommentsFromUrlAsJson rt world clock (fetch true videoIdOuUrl) ordenacao idioma fuel
        else
          getCommentsAsJson rt world clock (fetch false videoIdOuUrl) ordenacao idioma fuel
      match comentarios with
      | none => none
      | some (.error e, log) => some (.error (.relancado e), log)
      | some (.ok lista, log) => some (.ok (jsSlice lista limite), log)
  else some (.error .semVideo, [])

/-! ### Reference description of the public projection -/

/-- The date string of the record at index `i`: what `converterDataRelativa` returns for its
`time` (it returns on every input; the empty string stands for a raise that cannot occur). -/
def dataOf (rt : Runtime) (clock : Clock) (i : Nat) (comment : Comment) : String :=
  match converterDataRelativa rt (clock i).1 (clock i).2 comment.time with
  | .ok data => data
  | .error _ => ""

/-- The projection `{cid, user, text, time, data, respostas}` of the record at index `i`. -/
def projecao (rt : Runtime) (clock : Clock) (i : Nat) (comment : Comment) : Comentario :=
  { cid := comment.cid, user := comment.author, text := comment.text, time := comment.time,
    data := dataOf rt clock i comment, respostas := comment.replies }

/-- The projections of a list of records whose first element has index `i`. -/
def projecoes (rt : Runtime) (clock : Clock) : Nat → List Comment → List Comentario
  | _, [] => []
  | i, comment :: rest => projecao rt clock i comment :: projecoes rt clock (i + 1) rest

/-- A clock that shows the instant 1700000000000 at every reading. -/
def sampleClock : Clock := fun _ => (1700000000000, 1700000000000)

/-- The request `ajaxRequest` posts for `sampleEndpoint token` under `sampleConfig` after the
language override `pt`. -/
def sampleRequestPt (token : String) : Request :=
  { apiUrl := .str "/youtubei/v1/next", context := .obj [("client", .obj [("hl", .str "pt")])],
    continuation := .str token, key := .str "key" }

/-! ## Reference descriptions for the paid overlay -/

/-- A surface payload that represents a paid chip: an object with a `pdgCommentChip` entry. -/
def hasChip (payload : JVal) : Bool :=
  match payload with
  | .obj es => hasKey es "pdgCommentChip"
  | _ => false

/-- The key of a surface payload, as a property key. -/
def chipKey (payload : JVal) : String :=
  jsToString (optProp payload "key")

/-- The payment text of a surface payload: the first `simpleText` found in it, the empty
string when there is none (or when the one found is falsy). -/
def chipText (payload : JVal) : JVal :=
  jsOr (findFirst (searchDict payload "simpleText")) (.str "")

/-- The `commentSurfaceEntityPayload` values of a response that carry a `pdgCommentChip`, in
the order `searchDict` yields them. -/
def chipPayloads (response : JVal) : List JVal :=
  (searchDict response "commentSurfaceEntityPayload").filter hasChip

/-- A view model that exposes a surface key: an object with a `commentSurfaceKey` entry. -/
def hasSurfaceKey (vm : JVal) : Bool :=
  match vm with
  | .obj es => hasKey es "commentSurfaceKey"
  | _ => false

/-- The comment view models of a response that expose a surface key: the `commentViewModel`
member of each value found under the key `commentViewModel`. -/
def viewModels (response : JVal) : List JVal :=
  ((searchDict response "commentViewModel").map (fun v => optProp v "commentViewModel")).filter
    hasSurfaceKey

/-- The surface key of a view model, as a property key. -/
def vmKey (vm : JVal) : String :=
  jsToString (optProp vm "commentSurfaceKey")

/-- The comment identifier of a view model, as a property key. -/
def vmId (vm : JVal) : String :=
  jsToString (optProp vm "commentId")

/-- Successive assignments `d[k] = v` for the pairs of a list, in order. -/
def setAll (d : Dict) : List (String × JVal) → Dict
  | [] => d
  | (k, v) :: rest => setAll (setKey d k v) rest

/-- The assignments the loop of lines 202-207 makes: for each entry of `payments` whose key
is in `surfaceKeys`, the comment identifier it maps to and the payment. -/
def mappedPairs (surfaceKeys : Dict) : List (String × JVal) → List (String × JVal)
  | [] => []
  | (key, payment) :: rest =>
    if hasKey surfaceKeys key then
      (jsToString (lookupKey surfaceKeys key), payment) :: mappedPairs surfaceKeys rest
    else mappedPairs surfaceKeys rest

/-- Surface keys and comment identifiers correspond one to one in a response: no two paid
chips share a key, no two view models share a surface key, no two share a comment id. -/
def oneToOne (response : JVal) : Prop :=
  ((chipPayloads response).map chipKey).Nodup ∧ ((viewModels response).map vmKey).Nodup ∧
    ((viewModels response).map vmId).Nodup

/-- A page with two entities `c1` and `c2`, a paid chip with key `sk1` and text `R$ 10,00`,
and a view model that maps the surface key `sk1` to the comment `c1`. -/
def samplePaidPage : JVal :=
  .obj [
    ("contents", .arr [.obj [("commentThreadRenderer", .obj [("commentViewModel", .obj [
      ("commentViewModel", .obj [("commentId", .str "c1"),
        ("commentSurfaceKey", .str "sk1")])])])]]),
    ("frameworkUpdates", .obj [("entityBatchUpdate", .obj [("mutations", .arr [
      .obj [("payload", .obj [("commentEntityPayload", sampleEntity "c1")])],
      .obj [("payload", .obj [("commentEntityPayload", sampleEntity "c2")])],
      .obj [("payload", .obj [("commentSurfaceEntityPayload", .obj [("key", .str "sk1"),
        ("pdgCommentChip", .obj [("chipText", .obj [("simpleText", .str "R$ 10,00")])])])])]
    ])])])]

/-- The record of `sampleEntity cid` with the given paid field. -/
def samplePaidRecord (cid : String) (paid : Option Member) : Comment :=
  { cid := .str cid, text := .str "text", time := .str "há 2 dias", author := .str "@user",
    channel := .str "UC1", votes := "3", replies := .str "0", photo := .str "https://a/b.jpg",
    heart := false, reply := false, time_parsed := some none, paid := paid }

/-- No key of a paid chip, and no surface key or comment identifier of a view model, is the
name of a member of `Object.prototype`. -/
def plainNames (response : JVal) : Prop :=
  (∀ p ∈ chipPayloads response, chipKey p ∉ objectPrototypeNames) ∧
    (∀ vm ∈ viewModels response,
      vmKey vm ∉ objectPrototypeNames ∧ vmId vm ∉ objectPrototypeNames)

/-- A batch with one entity whose identifier is `constructor`, no paid chip and no view
model. -/
def sampleInheritedPage : JVal :=
  batchOf [sampleEntity "constructor"]

/-! ## Theorems: tree search -/

theorem searchEntries_eq (K : String) (es : List (String × JVal)) (stack out : List JVal) :
    searchEntries K es stack out = ((pushedOf K es).reverse ++ stack, out ++ matchesOf K es) := by
  induction es generalizing stack out with
  | nil => simp [searchEntries, pushedOf, matchesOf]
  | cons e rest ih =>
    obtain ⟨k, v⟩ := e
    by_cases hk : k = K
    · simp [searchEntries, pushedOf, matchesOf, hk, ih]
    · by_cases hv : v.isObject = true
      · simp [searchEntries, pushedOf, matchesOf, hk, hv, ih]
      · simp [searchEntries, pushedOf, matchesOf, hk, hv, ih]

theorem searchSpecStack_append (K : String) (a b : List JVal) :
    searchSpecStack K (a ++ b) = searchSpecStack K a ++ searchSpecStack K b := by
  induction a with
  | nil => simp [searchSpecStack]
  | cons x xs ih => simp [searchSpecStack, ih]

theorem searchSpecStack_reverse (K : String) (xs : List JVal) :
    searchSpecStack K xs.reverse = searchSpecList K xs := by
  induction xs with
  | nil => simp [searchSpecStack, searchSpecList]
  | cons x xs ih => simp [searchSpecStack_append, searchSpecStack, searchSpecList, ih]

theorem searchSpecStack_pushed (K : String) (es : List (String × JVal)) :
    searchSpecStack K (pushedOf K es).reverse = searchSpecEntries K es := by
  induction es with
  | nil => simp [searchSpecStack, searchSpecEntries, pushedOf]
  | cons e rest ih =>
    obtain ⟨k, v⟩ := e
    by_cases hk : k = K
    · simp [pushedOf, searchSpecEntries, hk, ih]
    · by_cases hv : v.isObject = true
      · simp [pushedOf, searchSpecEntries, hk, hv, searchSpecStack_append, searchSpecStack, ih]
      · simp [pushedOf, searchSpecEntries, hk, hv, ih]

theorem nodesList_append (a b : List JVal) :
    JVal.nodesList (a ++ b) = JVal.nodesList a + JVal.nodesList b := by
  induction a with
  | nil => simp [JVal.nodesList]
  | cons x xs ih => simp [JVal.nodesList, ih, Nat.add_assoc]

theorem nodesList_reverse (a : List JVal) : JVal.nodesList a.reverse = JVal.nodesList a := by
  induction a with
  | nil => simp
  | cons x xs ih => simp [nodesList_append, JVal.nodesList, ih, Nat.add_comm]

theorem nodesList_pushed (K : String) (es : List (String × JVal)) :
    JVal.nodesList (pushedOf K es) ≤ JVal.nodesEntries es := by
  induction es with
  | nil => simp [pushedOf, JVal.nodesList]
  | cons e rest ih =>
    obtain ⟨k, v⟩ := e
    by_cases hk : k = K
    · simp only [pushedOf, hk, if_true, JVal.nodesEntries]; omega
    · by_cases hv : v.isObject = true
      · simp only [pushedOf, hk, hv, if_true, if_false, JVal.nodesEntries, JVal.nodesList]; omega
      · have hv2 : v.isObject = false := by simpa using hv
        simp only [pushedOf, hk, hv2, if_false, JVal.nodesEntries, Bool.false_eq_true]; omega

/-- Fuel adequacy: with at least as much fuel as there are nodes on the stack, the loop ends
and yields, after what was already yielded, the reference sequence of each stacked tree. -/
theorem searchLoop_eq (K : String) :
    ∀ (fuel : Nat) (stack out : List JVal), JVal.nodesList stack ≤ fuel →
      searchLoop K fuel stack out = some (out ++ searchSpecStack K stack) := by
  intro fuel
  induction fuel with
  | zero =>
    intro stack out h
    cases stack with
    | nil => simp [searchLoop, searchSpecStack]
    | cons x st =>
      exfalso
      cases x <;> simp [JVal.nodesList, JVal.nodes] at h
  | succ n ih =>
    intro stack out h
    cases stack with
    | nil => simp [searchLoop, searchSpecStack]
    | cons x st =>
      cases x with
      | arr xs =>
        have h2 : JVal.nodesList (xs.reverse ++ st) ≤ n := by
          rw [nodesList_append, nodesList_reverse]
          simp only [JVal.nodesList, JVal.nodes] at h
          omega
        simp only [searchLoop]
        rw [ih _ _ h2, searchSpecStack_append, searchSpecStack_reverse]
        simp [searchSpecStack, searchSpec]
      | obj es =>
        have h2 : JVal.nodesList ((pushedOf K es).reverse ++ st) ≤ n := by
          rw [nodesList_append, nodesList_reverse]
          have := nodesList_pushed K es
          simp only [JVal.nodesList, JVal.nodes] at h
          omega
        simp only [searchLoop, searchEntries_eq]
        rw [ih _ _ h2, searchSpecStack_append, searchSpecStack_pushed]
        simp [searchSpecStack, searchSpec]
      | undefined =>
        have h2 : JVal.nodesList st ≤ n := by
          simp only [JVal.nodesList, JVal.nodes] at h; omega
        simp only [searchLoop]; rw [ih _ _ h2]; simp [searchSpecStack, searchSpec]
      | null =>
        have h2 : JVal.nodesList st ≤ n := by
          simp only [JVal.nodesList, JVal.nodes] at h; omega
        simp only [searchLoop]; rw [ih _ _ h2]; simp [searchSpecStack, searchSpec]
      | bool b =>
        have h2 : JVal.nodesList st ≤ n := by
          simp only [JVal.nodesList, JVal.nodes] at h; omega
        simp only [searchLoop]; rw [ih _ _ h2]; simp [searchSpecStack, searchSpec]
      | num i =>
        have h2 : JVal.nodesList st ≤ n := by
          simp only [JVal.nodesList, JVal.nodes] at h; omega
        simp only [searchLoop]; rw [ih _ _ h2]; simp [searchSpecStack, searchSpec]
      | str s =>
        have h2 : JVal.nodesList st ≤ n := by
          simp only [JVal.nodesList, JVal.nodes] at h; omega
        simp only [searchLoop]; rw [ih _ _ h2]; simp [searchSpecStack, searchSpec]

/-- The generator yields the reference sequence (shared by the theorems below). -/
theorem searchDict_eq_spec (T : JVal) (K : String) : searchDict T K = searchSpec K T := by
  unfold searchDict
  rw [searchLoop_eq K T.nodes [T] [] (by simp [JVal.nodesList])]
  simp [searchSpecStack]

theorem searchSpec_of_not_isObject (K : String) (v : JVal) (h : v.isObject = false) :
    searchSpec K v = [] := by
  cases v <;> simp_all [searchSpec, JVal.isObject]

mutual
theorem searchSpec_perm_outer (K : String) : ∀ T : JVal, (searchSpec K T).Perm (outerValues K T)
  | .arr xs => by
    simpa [searchSpec, outerValues] using searchSpecList_perm_outer K xs
  | .obj es => by
    simpa [searchSpec, outerValues] using searchSpecEntries_perm_outer K es
  | .undefined => by simp [searchSpec, outerValues]
  | .null => by simp [searchSpec, outerValues]
  | .bool _ => by simp [searchSpec, outerValues]
  | .num _ => by simp [searchSpec, outerValues]
  | .str _ => by simp [searchSpec, outerValues]
theorem searchSpecList_perm_outer (K : String) :
    ∀ xs : List JVal, (searchSpecList K xs).Perm (outerValuesList K xs)
  | [] => by simp [searchSpecList, outerValuesList]
  | x :: xs => by
    simp only [searchSpecList, outerValuesList]
    exact List.perm_append_comm.trans
      ((searchSpec_perm_outer K x).append (searchSpecList_perm_outer K xs))
theorem searchSpecEntries_perm_outer (K : String) :
    ∀ es : List (String × JVal),
      (matchesOf K es ++ searchSpecEntries K es).Perm (outerValuesEntries K es)
  | [] => by simp [matchesOf, searchSpecEntries, outerValuesEntries]
  | (k, v) :: rest => by
    have ih := searchSpecEntries_perm_outer K rest
    by_cases hk : k = K
    · simp only [matchesOf, searchSpecEntries, outerValuesEntries, hk, if_true, List.append_nil,
        List.cons_append, List.singleton_append]
      exact ih.cons v
    · have hv : (if v.isObject then searchSpec K v else []) = searchSpec K v := by
        cases h : v.isObject
        · simp [searchSpec_of_not_isObject K v h]
        · simp
      simp only [matchesOf, searchSpecEntries, outerValuesEntries, hk, if_false, hv]
      rw [← List.append_assoc]
      exact List.perm_append_comm.trans ((searchSpec_perm_outer K v).append ih)
end

mutual
theorem searchSpec_nil_iff (K : String) :
    ∀ T : JVal, searchSpec K T = [] ↔ containsKey K T = false
  | .arr xs => by simpa [searchSpec, containsKey] using searchSpecList_nil_iff K xs
  | .obj es => by simpa [searchSpec, containsKey] using searchSpecEntries_nil_iff K es
  | .undefined => by simp [searchSpec, containsKey]
  | .null => by simp [searchSpec, containsKey]
  | .bool _ => by simp [searchSpec, containsKey]
  | .num _ => by simp [searchSpec, containsKey]
  | .str _ => by simp [searchSpec, containsKey]
theorem searchSpecList_nil_iff (K : String) :
    ∀ xs : List JVal, searchSpecList K xs = [] ↔ containsKeyList K xs = false
  | [] => by simp [searchSpecList, containsKeyList]
  | x :: xs => by
    simp [searchSpecList, containsKeyList, searchSpec_nil_iff K x, searchSpecList_nil_iff K xs,
      and_comm]
theorem searchSpecEntries_nil_iff (K : String) :
    ∀ es : List (String × JVal),
      (matchesOf K es = [] ∧ searchSpecEntries K es = []) ↔ containsKeyEntries K es = false
  | [] => by simp [matchesOf, searchSpecEntries, containsKeyEntries]
  | (k, v) :: rest => by
    have ih := searchSpecEntries_nil_iff K rest
    by_cases hk : k = K
    · simp [matchesOf, searchSpecEntries, containsKeyEntries, hk]
    · have hv : (if v.isObject then searchSpec K v else []) = searchSpec K v := by
        cases h : v.isObject
        · simp [searchSpec_of_not_isObject K v h]
        · simp
      simp only [matchesOf, searchSpecEntries, containsKeyEntries, hk, if_false, hv,
        List.append_eq_nil, decide_False, Bool.false_or, Bool.or_eq_false_iff,
        searchSpec_nil_iff K v, ← ih]
      tauto
end

/-- C1 (as stated, refuted): on the tree `{"a": {"a": 1}}` the search for `a` yields one value
although the tree has two entries with key `a`, so the yielded values are not the values of
every entry with that key. -/
theorem searchDict_all_entries_counterexample :
    searchDict nestedMatchTree "a" = [.obj [("a", .num 1)]] ∧
      allValues "a" nestedMatchTree = [.obj [("a", .num 1)], .num 1] ∧
      ¬ (searchDict nestedMatchTree "a").Perm (allValues "a" nestedMatchTree) := by
  refine ⟨by decide, by decide, ?_⟩
  intro h
  have := h.length_eq
  revert this
  decide

/-- C1 (amended): for every tree and key, `searchDict` yields exactly, with multiplicity, the
values of the map entries with that key that do not lie beneath the value of another entry
with that key. -/
theorem searchDict_perm_outerValues (T : JVal) (K : String) :
    (searchDict T K).Perm (outerValues K T) := by
  rw [searchDict_eq_spec]
  exact searchSpec_perm_outer K T

/-- C2: for every tree and key, `searchDict` yields the recursively defined sequence `S(T)`;
at a map the matches of that map come first, in stored order, and the stacked children follow
in reverse stored order. -/
theorem searchDict_refines_searchSpec (T : JVal) (K : String) :
    searchDict T K = searchSpec K T ∧
      (∀ es, searchDict (.obj es) K = matchesOf K es ++ searchSpecEntries K es) ∧
      (∀ x xs, searchDict (.arr (x :: xs)) K = searchDict (.arr xs) K ++ searchDict x K) := by
  refine ⟨searchDict_eq_spec T K, ?_, ?_⟩
  · intro es
    rw [searchDict_eq_spec]; simp [searchSpec]
  · intro x xs
    simp [searchDict_eq_spec, searchSpec, searchSpecList]

/-- C3: `findFirst` over `searchDict` returns the first yielded value when the tree has an
entry with the key anywhere, and returns the default `d` (the `return defaultValue` of line
269, reached when nothing is yielded) exactly when the tree has no such entry; `searchDict`
yields nothing exactly when no such entry exists.  When `d` is not itself the first yielded
value, the result equals `d` exactly when no such entry exists. -/
theorem findFirst_searchDict (T : JVal) (K : String) (d : JVal) :
    (searchDict T K = [] ↔ containsKey K T = false) ∧
      (containsKey K T = true →
        ∃ v rest, searchDict T K = v :: rest ∧ findFirst (searchDict T K) d = v) ∧
      (containsKey K T = false → searchDict T K = [] ∧ findFirst (searchDict T K) d = d) ∧
      ((∀ v rest, searchDict T K = v :: rest → v ≠ d) →
        (findFirst (searchDict T K) d = d ↔ containsKey K T = false)) := by
  have hnil : searchDict T K = [] ↔ containsKey K T = false := by
    rw [searchDict_eq_spec]; exact searchSpec_nil_iff K T
  refine ⟨hnil, ?_, ?_, ?_⟩
  · intro h
    cases hs : searchDict T K with
    | nil => rw [hnil.1 hs] at h; cases h
    | cons v rest => exact ⟨v, rest, rfl, rfl⟩
  · intro h
    refine ⟨hnil.2 h, ?_⟩
    rw [hnil.2 h]; rfl
  · intro hd
    constructor
    · intro hres
      cases hs : searchDict T K with
      | nil => exact hnil.1 hs
      | cons v rest =>
        rw [hs] at hres
        exact absurd hres (hd v rest hs)
    · intro h
      rw [hnil.2 h]; rfl

/-- C3 at concrete trees: `{"b": [{"a": 7}], "a": 5}` searched for `a` with default `null`
gives 5, the match at the visited map, and a tree without an `a` gives the default. -/
theorem findFirst_searchDict_witness :
    containsKey "a" (.obj [("b", .arr [.obj [("a", .num 7)]]), ("a", .num 5)]) = true ∧
      findFirst (searchDict (.obj [("b", .arr [.obj [("a", .num 7)]]), ("a", .num 5)]) "a")
        .null = .num 5 ∧
      containsKey "a" (.obj [("b", .num 5)]) = false ∧
      findFirst (searchDict (.obj [("b", .num 5)]) "a") .null = .null :=
  ⟨by decide, by decide, by decide,
    ((findFirst_searchDict (.obj [("b", .num 5)]) "a" .null).2.2.1 (by decide)).2⟩

/-! ## Theorems: transport retry wrapper -/

theorem ajaxPayload_ok (endpoint ytcfg : JVal) (he : wellFormedEndpoint endpoint = true)
    (hc : wellFormedConfig ytcfg = true) : ∃ payload, ajaxPayload endpoint ytcfg = .ok payload := by
  cases endpoint <;> simp [wellFormedEndpoint] at he
  cases ytcfg <;> simp [wellFormedConfig] at hc
  rename_i es cfg
  obtain ⟨h1, h2⟩ := he
  cases hcm : lookupKey es "commandMetadata" <;> rw [hcm] at h1 <;> simp at h1
  rename_i cm
  cases hw : lookupKey cm "webCommandMetadata" <;> rw [hw] at h1 <;> simp at h1
  cases hcc : lookupKey es "continuationCommand" <;> rw [hcc] at h2 <;> simp at h2
  simp [ajaxPayload, getProp, hcm, hw, hcc, h1, bind, Except.bind, pure, Except.pure]

/-- Behaviour of the attempts loop against the transport outcomes, for a config that is an
object: the log only grows, by at most the number of attempts; the first final outcome
decides the result; without one every attempt is used. -/
theorem ajaxAttempts_spec (world : Transport) (payload : JVal × JVal × JVal) (cfg : List (String × JVal)) :
    ∀ (r : Nat) (log : List Request),
      ((ajaxAttempts world payload (.obj cfg) r log).2.length ≤ log.length + r) ∧
      (∀ j, j < r → (∀ i, i < j → (world (log.length + i)).isFinal = false) →
        (∀ d, world (log.length + j) = .response 200 d →
          (ajaxAttempts world payload (.obj cfg) r log).1 = d ∧
            (ajaxAttempts world payload (.obj cfg) r log).2.length = log.length + j + 1) ∧
        (∀ s d, world (log.length + j) = .response s d → (s = 403 ∨ s = 413) →
          (ajaxAttempts world payload (.obj cfg) r log).1 = .obj [] ∧
            (ajaxAttempts world payload (.obj cfg) r log).2.length = log.length + j + 1)) ∧
      ((∀ i, i < r → (world (log.length + i)).isFinal = false) →
        (ajaxAttempts world payload (.obj cfg) r log).1 = .obj [] ∧
          (ajaxAttempts world payload (.obj cfg) r log).2.length = log.length + r) := by
  intro r
  induction r with
  | zero =>
    intro log
    simp [ajaxAttempts]
  | succ n ih =>
    intro log
    have step : ∀ o, world log.length = o → o.isFinal = false →
        ajaxAttempts world payload (.obj cfg) (n + 1) log =
          ajaxAttempts world payload (.obj cfg) n
            (log ++ [Request.mk payload.1 payload.2.1 payload.2.2 (lookupKey cfg "INNERTUBE_API_KEY")]) := by
      intro o ho hf
      cases o with
      | rejected => simp [ajaxAttempts, getProp, ho]
      | response s d =>
        simp only [Outcome.isFinal, decide_eq_false_iff_not, not_or] at hf
        simp [ajaxAttempts, getProp, ho, hf.1, hf.2.1, hf.2.2]
    have hlen : (log ++ [Request.mk payload.1 payload.2.1 payload.2.2
        (lookupKey cfg "INNERTUBE_API_KEY")]).length = log.length + 1 := by simp
    obtain ⟨ih1, ih2, ih3⟩ := ih (log ++ [Request.mk payload.1 payload.2.1 payload.2.2
      (lookupKey cfg "INNERTUBE_API_KEY")])
    rw [hlen] at ih1 ih2 ih3
    cases hfin : (world log.length).isFinal with
    | true =>
      -- the first outcome already ends the call
      have h0 : ∃ s d, world log.length = .response s d ∧ (s = 200 ∨ s = 403 ∨ s = 413) := by
        cases ho : world log.length with
        | rejected => rw [ho] at hfin; simp [Outcome.isFinal] at hfin
        | response s d =>
          rw [ho] at hfin
          exact ⟨s, d, rfl, by simpa [Outcome.isFinal] using hfin⟩
      obtain ⟨s, d, ho, hs⟩ := h0
      have hres : ajaxAttempts world payload (.obj cfg) (n + 1) log =
          (if s = 200 then d else .obj [], log ++ [Request.mk payload.1 payload.2.1 payload.2.2
            (lookupKey cfg "INNERTUBE_API_KEY")]) := by
        rcases hs with h | h | h <;> simp [ajaxAttempts, getProp, ho, h]
      refine ⟨by rw [hres]; simp, ?_, ?_⟩
      · intro j hj hprev
        have hj0 : j = 0 := by
          by_contra hne
          have := hprev 0 (Nat.pos_of_ne_zero hne)
          simp [hfin] at this
        subst hj0
        simp only [Nat.add_zero, ho]
        refine ⟨?_, ?_⟩
        · intro d2 hd
          injection hd with hs2 hd2
          rw [hres]; simp [hs2, hd2]
        · intro s2 d2 hd hs2
          injection hd with hs3 hd3
          have : s ≠ 200 := by omega
          rw [hres]; simp [this]
      · intro hall
        have := hall 0 (Nat.succ_pos n)
        simp [hfin] at this
    | false =>
      rw [step _ rfl hfin]
      refine ⟨by omega, ?_, ?_⟩
      · intro j hj hprev
        cases j with
        | zero =>
          refine ⟨?_, ?_⟩
          · intro d hd
            simp only [Nat.add_zero] at hd
            rw [hd] at hfin
            simp [Outcome.isFinal] at hfin
          · intro s d hd hs
            simp only [Nat.add_zero] at hd
            rw [hd] at hfin
            simp only [Outcome.isFinal, decide_eq_false_iff_not, not_or] at hfin
            omega
        | succ k =>
          have hk := ih2 k (by omega) (fun i hi => by
            have := hprev (i + 1) (by omega)
            rwa [show log.length + (i + 1) = log.length + 1 + i by omega] at this)
          rw [show log.length + (k + 1) = log.length + 1 + k by omega]
          rw [show log.length + 1 + k + 1 = log.length + 1 + k + 1 by rfl]
          exact hk
      · intro hall
        have := ih3 (fun i hi => by
          have := hall (i + 1) (by omega)
          rwa [show log.length + (i + 1) = log.length + 1 + i by omega] at this)
        rw [show log.length + (n + 1) = log.length + 1 + n by omega]
        exact this

/-- Behaviour of `ajaxRequest` against the outcomes of `client.post`, for a well-formed
endpoint and config: it raises nothing and makes at most `r` POSTs; the first call that
resolves with status 200 returns its data, the first that resolves with status 403 or 413
returns `{}` at once, and when none of the first `r` calls resolves with one of these it
returns `{}` after exactly `r` POSTs. -/
theorem ajaxRequest_client_contract (world : Transport) (endpoint ytcfg : JVal) (r : Nat)
    (log : List Request) (he : wellFormedEndpoint endpoint = true)
    (hc : wellFormedConfig ytcfg = true) :
    ∃ result log1, ajaxRequest world endpoint ytcfg log r = .ok (result, log1) ∧
      log1.length ≤ log.length + r ∧
      (∀ j, j < r → (∀ i, i < j → (world (log.length + i)).isFinal = false) →
        (∀ d, world (log.length + j) = .response 200 d →
          result = d ∧ log1.length = log.length + j + 1) ∧
        (∀ s d, world (log.length + j) = .response s d → (s = 403 ∨ s = 413) →
          result = .obj [] ∧ log1.length = log.length + j + 1)) ∧
      ((∀ i, i < r → (world (log.length + i)).isFinal = false) →
        result = .obj [] ∧ log1.length = log.length + r) := by
  obtain ⟨payload, hp⟩ := ajaxPayload_ok endpoint ytcfg he hc
  cases ytcfg <;> simp [wellFormedConfig] at hc
  rename_i cfg
  refine ⟨(ajaxAttempts world payload (.obj cfg) r log).1,
    (ajaxAttempts world payload (.obj cfg) r log).2, ?_, ajaxAttempts_spec world payload cfg r log⟩
  simp [ajaxRequest, hp]

/-! ## Theorems: pagination engine -/

/-- C4 (as stated, refuted): with the two-entry sort menu of `sampleData` and `sortBy = 2`,
`getCommentsFromUrl` returns the empty list to its caller; no ordering error is raised to
the caller. -/
theorem getCommentsFromUrl_ordering_counterexample :
    sortMenuOf sampleData = .arr [.obj [("serviceEndpoint", sampleEndpoint "popular")],
        .obj [("serviceEndpoint", sampleEndpoint "recent")]] ∧
      getCommentsFromUrl sampleRuntime sampleTransport
        (.page (some (some sampleConfig)) (some (some sampleData))) 2 .null 10 =
        some (.ok [], []) ∧
      ¬ ∃ log, getCommentsFromUrl sampleRuntime sampleTransport
        (.page (some (some sampleConfig)) (some (some sampleData))) 2 .null 10 =
        some (.error .orderingError, log) := by
  have h : getCommentsFromUrl sampleRuntime sampleTransport
      (.page (some (some sampleConfig)) (some (some sampleData))) 2 .null 10 =
      some (.ok [], []) := by rfl
  refine ⟨by rfl, h, ?_⟩
  rintro ⟨log, hlog⟩
  rw [h] at hlog
  cases hlog

/-- C4 (amended): for every sort menu of length `n` reached by the ordering check and every
`sortBy ≥ n`, the check raises the ordering-selection error inside the `try` block, the
`catch` of `getCommentsFromUrl` absorbs it, and the caller receives the empty list. -/
theorem getCommentsFromUrl_ordering_error_caught (rt : Runtime) (world : Transport)
    (ytcfg0 ytcfg data language : JVal) (menu : List JVal) (sortBy : Int) (log : List Request)
    (fuel : Nat)
    (hlang : applyLanguage ytcfg0 language = .ok ytcfg)
    (hrenderer : (commentsRenderer data).truthy = true)
    (hmenu : resolveSortMenu world ytcfg data [] = .ok (.arr menu, log))
    (hn : (menu.length : Int) ≤ sortBy) :
    selectOrdering rt (.arr menu) sortBy = .error .orderingError ∧
      getCommentsTry rt world (.page (some (some ytcfg0)) (some (some data))) sortBy language
        fuel = some (.error .orderingError, log) ∧
      getCommentsFromUrl rt world (.page (some (some ytcfg0)) (some (some data))) sortBy language
        fuel = some (.ok [], log) := by
  have hsel : selectOrdering rt (.arr menu) sortBy = .error .orderingError := by
    simp [selectOrdering, jsLength, jsGe, hn]
  have htry : getCommentsTry rt world (.page (some (some ytcfg0)) (some (some data))) sortBy
      language fuel = some (.error .orderingError, log) := by
    simp [getCommentsTry, hlang, hrenderer, hmenu, hsel]
  exact ⟨hsel, htry, by simp [getCommentsFromUrl, htry]⟩

/-- C4 (amended) at `sampleData` with `sortBy = 2`: the hypotheses hold and the caller gets
the empty list with no request made. -/
theorem getCommentsFromUrl_ordering_error_caught_witness :
    getCommentsFromUrl sampleRuntime sampleTransport
      (.page (some (some sampleConfig)) (some (some sampleData))) 2 .null 10 =
      some (.ok [], []) :=
  (getCommentsFromUrl_ordering_error_caught sampleRuntime sampleTransport sampleConfig
    sampleConfig sampleData .null
    [.obj [("serviceEndpoint", sampleEndpoint "popular")],
      .obj [("serviceEndpoint", sampleEndpoint "recent")]]
    2 [] 10 (by rfl) (by rfl) (by rfl) (by decide)).2.2

/-- An empty result `{}` of `ajaxRequest` does not end the loop: `{}` is truthy, the
iteration finds nothing in it, and the loop goes on with the tokens still queued. -/
theorem paginate_empty_result (rt : Runtime) (world : Transport) (ytcfg continuation : JVal)
    (rest : List JVal) (comments : List Comment) (log log1 : List Request) (fuel : Nat)
    (h : ajaxRequest world continuation ytcfg log = .ok (.obj [], log1)) :
    paginate rt world ytcfg (fuel + 1) (continuation :: rest) comments log =
      paginate rt world ytcfg fuel rest comments log1 := by
  have hp : processResponse rt (.obj []) rest comments = .ok (rest, comments) := by rfl
  simp [paginate, h, hp, JVal.truthy]

/-- What `client.post` makes of an answer ends `ajaxRequest` exactly when the answer has
status 200: the client never resolves with status 403 or 413. -/
theorem clientPost_isFinal (a : Answer) :
    (clientPost a).isFinal = true ↔ ∃ d, a = .status 200 d := by
  cases a with
  | networkError => simp [clientPost, Outcome.isFinal]
  | status code body =>
    by_cases hv : validateStatus code = true
    · simp only [clientPost, hv, if_true, Outcome.isFinal, decide_eq_true_eq]
      simp only [validateStatus, decide_eq_true_eq] at hv
      constructor
      · intro h
        have : code = 200 := by omega
        exact ⟨body, by rw [this]⟩
      · rintro ⟨d, hd⟩
        injection hd with h1 _
        exact Or.inl h1
    · simp only [clientPost, hv, Bool.false_eq_true, if_false, Outcome.isFinal, false_iff]
      rintro ⟨d, hd⟩
      injection hd with h1 _
      rw [h1] at hv
      exact hv (by decide)

theorem clientPost_response (a : Answer) (s : Nat) (d : JVal)
    (h : clientPost a = .response s d) : a = .status s d ∧ 200 ≤ s ∧ s < 300 := by
  cases a with
  | networkError => simp [clientPost] at h
  | status code body =>
    by_cases hv : validateStatus code = true
    · simp only [clientPost, hv, if_true, Outcome.response.injEq] at h
      simp only [validateStatus, decide_eq_true_eq] at hv
      obtain ⟨h1, h2⟩ := h
      subst h1
      subst h2
      exact ⟨rfl, hv.1, hv.2⟩
    · simp [clientPost, hv] at h

/-- While an attempt is left, the attempts loop posts at least once (for a config that is
an object). -/
theorem ajaxAttempts_posts (world : Transport) (payload : JVal × JVal × JVal)
    (cfg : List (String × JVal)) (r : Nat) (log : List Request) :
    log.length + 1 ≤ (ajaxAttempts world payload (.obj cfg) (r + 1) log).2.length := by
  have hmono : ∀ (n : Nat) (l : List Request),
      l.length ≤ (ajaxAttempts world payload (.obj cfg) n l).2.length := by
    intro n
    induction n with
    | zero => intro l; simp [ajaxAttempts]
    | succ k ih =>
      intro l
      have hk := ih (l ++ [Request.mk payload.1 payload.2.1 payload.2.2
        (lookupKey cfg "INNERTUBE_API_KEY")])
      simp only [List.length_append, List.length_singleton] at hk
      simp only [ajaxAttempts, getProp]
      cases world l.length with
      | rejected => simp only; omega
      | response s d =>
        simp only
        split
        · simp
        · split
          · simp
          · omega
  have hk := hmono r (log ++ [Request.mk payload.1 payload.2.1 payload.2.2
    (lookupKey cfg "INNERTUBE_API_KEY")])
  simp only [List.length_append, List.length_singleton] at hk
  simp only [ajaxAttempts, getProp]
  cases world log.length with
  | rejected => simp only; omega
  | response s d =>
    simp only
    split
    · simp
    · split
      · simp
      · omega

/-- C6 (the code with the client it builds): the client keeps the default `validateStatus`
of axios, so `client.post` throws on an answer with status 403 or 413 as on any other status
outside 2xx; the branch of lines 50-52 is never reached, the error is caught on line 53 and
the request is tried again.  For a well-formed endpoint and config, any retry count `r` and
any sequence of answers, `ajaxRequest` raises nothing and makes at most `r` POSTs; it returns
the data of the first answer with status 200 among the first `r`, whatever came before it,
and the empty object only after exactly `r` POSTs; after a first answer with status 403 or
413 it makes a further attempt whenever `r` allows one. -/
theorem ajaxRequest_rejection_retried (server : Nat → Answer) (endpoint ytcfg : JVal) (r : Nat)
    (log : List Request) (he : wellFormedEndpoint endpoint = true)
    (hc : wellFormedConfig ytcfg = true) :
    (∀ n s d, clientTransport server n = .response s d → s ≠ 403 ∧ s ≠ 413) ∧
    ∃ result log1,
      ajaxRequest (clientTransport server) endpoint ytcfg log r = .ok (result, log1) ∧
      log1.length ≤ log.length + r ∧
      (∀ j, j < r → (∀ i, i < j → ∀ d, server (log.length + i) ≠ .status 200 d) →
        ∀ d, server (log.length + j) = .status 200 d →
          result = d ∧ log1.length = log.length + j + 1) ∧
      ((∀ i, i < r → ∀ d, server (log.length + i) ≠ .status 200 d) →
        result = .obj [] ∧ log1.length = log.length + r) ∧
      (∀ s d, server log.length = .status s d → (s = 403 ∨ s = 413) → 1 < r →
        log.length + 2 ≤ log1.length) := by
  have hnot : ∀ n, (∀ d, server n ≠ .status 200 d) →
      (clientTransport server n).isFinal = false := by
    intro n hn
    cases hf : (clientTransport server n).isFinal with
    | false => rfl
    | true =>
      exfalso
      obtain ⟨d, hd⟩ := (clientPost_isFinal (server n)).1 hf
      exact hn d hd
  refine ⟨?_, ?_⟩
  · intro n s d h
    obtain ⟨_, h1, h2⟩ := clientPost_response (server n) s d h
    exact ⟨by omega, by omega⟩
  obtain ⟨result, log1, hrun, hlen, hfirst, hnone⟩ :=
    ajaxRequest_client_contract (clientTransport server) endpoint ytcfg r log he hc
  refine ⟨result, log1, hrun, hlen, ?_, ?_, ?_⟩
  · intro j hj hprev d hd
    refine (hfirst j hj (fun i hi => hnot _ (hprev i hi))).1 d ?_
    simp [clientTransport, clientPost, hd, validateStatus]
  · intro hall
    exact hnone (fun i hi => hnot _ (hall i hi))
  · intro s d hs h403 hr
    obtain ⟨payload, hp⟩ := ajaxPayload_ok endpoint ytcfg he hc
    cases ytcfg <;> simp [wellFormedConfig] at hc
    rename_i cfg
    simp only [ajaxRequest, hp, Except.ok.injEq] at hrun
    obtain ⟨k, hk⟩ : ∃ k, r = k + 2 := ⟨r - 2, by omega⟩
    subst hk
    have hlog : (ajaxAttempts (clientTransport server) payload (.obj cfg) (k + 2) log).2 =
        log1 := by rw [hrun]
    have hrej : clientTransport server log.length = .rejected := by
      have hv : validateStatus s = false := by
        rcases h403 with h | h <;> subst h <;> decide
      simp [clientTransport, clientPost, hs, hv]
    have hstep : ajaxAttempts (clientTransport server) payload (.obj cfg) (k + 2) log =
        ajaxAttempts (clientTransport server) payload (.obj cfg) (k + 1)
          (log ++ [Request.mk payload.1 payload.2.1 payload.2.2
            (lookupKey cfg "INNERTUBE_API_KEY")]) := by
      simp [ajaxAttempts, getProp, hrej]
    have hpost := ajaxAttempts_posts (clientTransport server) payload cfg k
      (log ++ [Request.mk payload.1 payload.2.1 payload.2.2 (lookupKey cfg "INNERTUBE_API_KEY")])
    rw [← hstep, hlog] at hpost
    simpa using hpost

/-- C6 at the failing input: the server answers 403, then 413, then 200 with `{ok: 1}`.
With five attempts allowed `ajaxRequest` posts three times and returns that body; it does
not return the empty object after the first POST. -/
theorem ajaxRequest_rejection_retried_witness :
    wellFormedEndpoint (sampleEndpoint "B") = true ∧ wellFormedConfig sampleConfig = true ∧
      ajaxRequest (clientTransport refusingServer) (sampleEndpoint "B") sampleConfig [] 5 =
        .ok (.obj [("ok", .num 1)],
          [sampleRequest "B", sampleRequest "B", sampleRequest "B"]) ∧
      ∃ result log1,
        ajaxRequest (clientTransport refusingServer) (sampleEndpoint "B") sampleConfig [] 5 =
          .ok (result, log1) ∧ result = .obj [("ok", .num 1)] ∧ log1.length = 3 := by
  obtain ⟨_, result, log1, h1, _, h3, _, _⟩ := ajaxRequest_rejection_retried refusingServer
    (sampleEndpoint "B") sampleConfig 5 [] (by decide) (by decide)
  have h := h3 2 (by decide) (fun i hi d => by
      have hi2 : i = 0 ∨ i = 1 := by omega
      rcases hi2 with hi2 | hi2 <;> subst hi2 <;> simp [refusingServer])
    (.obj [("ok", .num 1)]) (by rfl)
  exact ⟨by decide, by decide, by rfl, result, log1, h1, h.1, by simpa using h.2⟩

/-- C5 (the code at the failing input): the first page queues the tokens `B` and `A`; the
five attempts for `B` are all answered 403, which the client throws, so `ajaxRequest` returns
`{}` with its retries exhausted; `{}` is truthy, the loop goes on, posts `A` and returns the
records of both pages. -/
theorem getCommentsFromUrl_continues_after_rejection :
    ajaxRequest sampleTransport (sampleEndpoint "B") sampleConfig [sampleRequest "recent"] =
        .ok (.obj [], sampleRequest "recent" :: List.replicate 5 (sampleRequest "B")) ∧
      (JVal.obj []).truthy = true ∧
      getCommentsFromUrl sampleRuntime sampleTransport
        (.page (some (some sampleConfig)) (some (some sampleData))) 1 .null 10 =
        some (.ok [sampleRecord "c0" false, sampleRecord "c1" false],
          sampleRequest "recent" :: List.replicate 5 (sampleRequest "B") ++
            [sampleRequest "A"]) := by
  refine ⟨by rfl, by rfl, by rfl⟩

theorem getProp_eq_optProp (v : JVal) (name : String) (x : JVal)
    (h : getProp v name = .ok x) : x = optProp v name := by
  cases v <;> simp [getProp, optProp] at h ⊢
  all_goals exact h.symm

theorem iterItems_eq (action v : JVal) (items : List JVal)
    (hv : getProp action "continuationItems" = .ok v) (h : iterItems v = .ok items) :
    items = itemsOfAction action := by
  have hv2 := getProp_eq_optProp _ _ _ hv
  unfold itemsOfAction
  rw [← hv2]
  unfold iterItems at h
  cases v with
  | arr xs => simpa [JVal.truthy] using h.symm
  | str s =>
    by_cases hs : s = ""
    · subst hs
      simp [JVal.truthy] at h
      simp [h]
    · simp [JVal.truthy, hs] at h
      simp [h]
  | undefined => simpa [JVal.truthy] using h.symm
  | null => simpa [JVal.truthy] using h.symm
  | bool b =>
    cases b
    · simp [JVal.truthy] at h; simp [h]
    · simp [JVal.truthy] at h
  | num n =>
    by_cases hn : n = 0
    · simp [JVal.truthy, hn] at h; simp [h]
    · simp [JVal.truthy, hn] at h
  | obj es => simp [JVal.truthy] at h

theorem processItem_eq (action item : JVal) (W W1 : List JVal)
    (h : processItem action W item = .ok W1) :
    W1 = frontOfItem action item ++ W ++ backOfItem action item := by
  unfold processItem at h
  cases htid : getProp action "targetId" with
  | error e => simp [htid, bind, Except.bind] at h
  | ok targetId =>
    have ht := getProp_eq_optProp _ _ _ htid
    simp only [htid, bind, Except.bind] at h
    cases targetId with
    | str s =>
      simp only [isRepliesTarget] at h
      cases hpre : startsWithChars "comment-replies-item".data s.data with
      | false =>
        simp only [hpre, pure, Except.pure] at h
        simp only [frontOfItem, backOfItem, isRepliesItem, ← ht, hpre, Bool.false_and]
        by_cases htop : isTopLevelTarget (.str s) = true
        · simp [htop] at h ⊢; exact h.symm
        · simp [htop] at h ⊢; exact h.symm
      | true =>
        simp only [hpre, pure, Except.pure] at h
        cases item with
        | obj es =>
          simp only [jsIn] at h
          cases hk : hasKey es "continuationItemRenderer" with
          | false =>
            simp only [hk] at h
            simp only [frontOfItem, backOfItem, isRepliesItem, ← ht, hpre, hk, Bool.and_false]
            by_cases htop : isTopLevelTarget (.str s) = true
            · simp [htop] at h ⊢; exact h.symm
            · simp [htop] at h ⊢; exact h.symm
          | true =>
            simp only [hk] at h
            cases hc : getProp (findFirst (searchDict (.obj es) "buttonRenderer")) "command" with
            | error e => simp [hc] at h
            | ok command =>
              have hcmd := getProp_eq_optProp _ _ _ hc
              simp only [hc] at h
              simp only [frontOfItem, backOfItem, isRepliesItem, ← ht, hpre, hk, Bool.and_self,
                if_true, ← hcmd]
              by_cases htop : isTopLevelTarget (.str s) = true
              · simp [htop] at h ⊢; exact h.symm
              · simp [htop] at h ⊢; exact h.symm
        | arr xs =>
          simp only [jsIn] at h
          simp only [frontOfItem, backOfItem, isRepliesItem, ← ht, hpre, Bool.and_false]
          by_cases htop : isTopLevelTarget (.str s) = true
          · simp [htop] at h ⊢; exact h.symm
          · simp [htop] at h ⊢; exact h.symm
        | undefined => simp [jsIn] at h
        | null => simp [jsIn] at h
        | bool b => simp [jsIn] at h
        | num n => simp [jsIn] at h
        | str t => simp [jsIn] at h
    | undefined => simp [isRepliesTarget] at h
    | null => simp [isRepliesTarget] at h
    | bool b => simp [isRepliesTarget] at h
    | num n => simp [isRepliesTarget] at h
    | arr xs => simp [isRepliesTarget] at h
    | obj es => simp [isRepliesTarget] at h

theorem processItems_eq (action : JVal) :
    ∀ (items W W1 : List JVal), processItems action items W = .ok W1 →
      W1 = ((items.map (frontOfItem action)).reverse).flatten ++ W ++
        (items.map (backOfItem action)).flatten := by
  intro items
  induction items with
  | nil =>
    intro W W1 h
    simp [processItems] at h
    simp [h]
  | cons item rest ih =>
    intro W W1 h
    simp only [processItems] at h
    cases hi : processItem action W item with
    | error e => simp [hi] at h
    | ok W2 =>
      simp only [hi] at h
      rw [ih _ _ h, processItem_eq _ _ _ _ hi]
      simp [List.append_assoc]

theorem processActions_eq :
    ∀ (actions W W1 : List JVal), processActions actions W = .ok W1 →
      W1 = frontTokens actions ++ W ++ backTokens actions := by
  intro actions
  induction actions with
  | nil =>
    intro W W1 h
    simp [processActions] at h
    simp [frontTokens, backTokens, actionItemPairs, h]
  | cons action rest ih =>
    intro W W1 h
    simp only [processActions] at h
    cases hv : getProp action "continuationItems" with
    | error e => simp [hv] at h
    | ok v =>
      simp only [hv] at h
      cases hit : iterItems v with
      | error e => simp [hit] at h
      | ok items =>
        simp only [hit] at h
        cases hp : processItems action items W with
        | error e => simp [hp] at h
        | ok W2 =>
          simp only [hp] at h
          have hitems := iterItems_eq action v items hv hit
          rw [ih _ _ h, processItems_eq _ _ _ _ hp]
          simp [frontTokens, backTokens, actionItemPairs, List.map_map, Function.comp_def,
            List.append_assoc, ← hitems]

theorem except_bind_ok {α β : Type} (x : Except JsError α) (f : α → Except JsError β) (r : β)
    (h : (x >>= f) = .ok r) : ∃ a, x = .ok a ∧ f a = .ok r := by
  cases x with
  | error e => cases h
  | ok a => exact ⟨a, rfl, h⟩

/-- A completed iteration ran the action loop on the work list and the record loop on the
reversed entity list, both to completion. -/
theorem processResponse_parts (rt : Runtime) (response : JVal) (W W1 : List JVal)
    (comments comments1 : List Comment)
    (h : processResponse rt response W comments = .ok (W1, comments1)) :
    processActions (actionsOf response) W = .ok W1 ∧
      ∃ ts pm, assembleAll rt ts pm (commentPayloadsOf response) comments = .ok comments1 := by
  unfold processResponse at h
  split at h
  · split at h <;> cases h
  obtain ⟨continuations1, hw, h⟩ := except_bind_ok _ _ _ h
  obtain ⟨payments, _, h⟩ := except_bind_ok _ _ _ h
  obtain ⟨surfaceKeys, _, h⟩ := except_bind_ok _ _ _ h
  obtain ⟨paymentsMapped, _, h⟩ := except_bind_ok _ _ _ h
  obtain ⟨toolbarStates, _, h⟩ := except_bind_ok _ _ _ h
  obtain ⟨comments2, hc, h⟩ := except_bind_ok _ _ _ h
  cases h
  exact ⟨hw, _, _, hc⟩

/-- C7: when an iteration completes on a response, with `W` the work list left after
popping the front token, the new work list is `F ++ W ++ B`: `F` consists of the continuation
tokens found in the items of the top-level surface actions of the response, `B` of the button
commands of its "show more replies" items in visiting order, `W` stays in the middle in its
order, and a token of `F`, when there is one, is the next to be popped. -/
theorem processResponse_worklist (rt : Runtime) (response : JVal) (W W1 : List JVal)
    (comments comments1 : List Comment)
    (h : processResponse rt response W comments = .ok (W1, comments1)) :
    W1 = frontTokens (actionsOf response) ++ W ++ backTokens (actionsOf response) ∧
      (frontTokens (actionsOf response)).Perm
        (((actionItemPairs (actionsOf response)).map (fun p => frontOfItem p.1 p.2)).flatten) ∧
      (∀ t rest, frontTokens (actionsOf response) = t :: rest → W1.head? = some t) := by
  have h1 := processActions_eq (actionsOf response) W W1
    (processResponse_parts rt response W W1 comments comments1 h).1
  refine ⟨h1, ?_, ?_⟩
  · unfold frontTokens
    exact List.Perm.flatten (List.reverse_perm _)
  · intro t rest ht
    rw [h1, ht]
    rfl

/-- C7 on the first sample page with one token still queued: the tokens `A` and `B` found in
the items of the `comments-section` action go in front of the queued token (the later item
first), nothing is appended, and `B` is the next token to be popped.  On the replies page the
button command goes behind the queued token. -/
theorem processResponse_worklist_witness :
    frontTokens (actionsOf samplePageOne) = [sampleEndpoint "B", sampleEndpoint "A"] ∧
      backTokens (actionsOf samplePageOne) = [] ∧
      [sampleEndpoint "B", sampleEndpoint "A", sampleEndpoint "queued"] =
        frontTokens (actionsOf samplePageOne) ++ [sampleEndpoint "queued"] ++
          backTokens (actionsOf samplePageOne) ∧
      processResponse sampleRuntime sampleRepliesPage [sampleEndpoint "queued"] [] =
        .ok ([sampleEndpoint "queued", sampleEndpoint "R"], []) :=
  ⟨by rfl, by rfl,
    (processResponse_worklist sampleRuntime samplePageOne [sampleEndpoint "queued"]
      [sampleEndpoint "B", sampleEndpoint "A", sampleEndpoint "queued"] []
      [sampleRecord "c0" false] (by rfl)).1, by rfl⟩

theorem assembleComment_cid (rt : Runtime) (ts pm : Built) (comment : JVal) (r : Comment)
    (h : assembleComment rt ts pm comment = .ok r) :
    r.cid = cidOf comment ∧ cidIncludesDot r.cid = .ok r.reply := by
  unfold assembleComment at h
  obtain ⟨properties, hprop, h⟩ := except_bind_ok _ _ _ h
  obtain ⟨cid, hcid, h⟩ := except_bind_ok _ _ _ h
  obtain ⟨author, _, h⟩ := except_bind_ok _ _ _ h
  obtain ⟨toolbar, _, h⟩ := except_bind_ok _ _ _ h
  obtain ⟨stateKey, _, h⟩ := except_bind_ok _ _ _ h
  obtain ⟨stateName, _, h⟩ := except_bind_ok _ _ _ h
  obtain ⟨content, _, h⟩ := except_bind_ok _ _ _ h
  obtain ⟨text, _, h⟩ := except_bind_ok _ _ _ h
  obtain ⟨time, _, h⟩ := except_bind_ok _ _ _ h
  obtain ⟨displayName, _, h⟩ := except_bind_ok _ _ _ h
  obtain ⟨channel, _, h⟩ := except_bind_ok _ _ _ h
  obtain ⟨likeCount, _, h⟩ := except_bind_ok _ _ _ h
  obtain ⟨votes, _, h⟩ := except_bind_ok _ _ _ h
  obtain ⟨replies, _, h⟩ := except_bind_ok _ _ _ h
  obtain ⟨photo, _, h⟩ := except_bind_ok _ _ _ h
  obtain ⟨reply, hreply, h⟩ := except_bind_ok _ _ _ h
  obtain ⟨key, hkey, h⟩ := except_bind_ok _ _ _ h
  cases h
  refine ⟨?_, hreply⟩
  simp only [cidOf]
  rw [← getProp_eq_optProp _ _ _ hprop, ← getProp_eq_optProp _ _ _ hcid]

theorem assembleAll_eq (rt : Runtime) (ts pm : Built) :
    ∀ (payloads : List JVal) (comments comments1 : List Comment),
      assembleAll rt ts pm payloads comments = .ok comments1 →
      ∃ records, comments1 = comments ++ records ∧
        records.map (fun r => r.cid) = payloads.map cidOf := by
  intro payloads
  induction payloads with
  | nil =>
    intro comments comments1 h
    simp [assembleAll] at h
    exact ⟨[], by simp [h], rfl⟩
  | cons p rest ih =>
    intro comments comments1 h
    simp only [assembleAll] at h
    cases hp : assembleComment rt ts pm p with
    | error e => simp [hp] at h
    | ok r =>
      simp only [hp] at h
      obtain ⟨records, h1, h2⟩ := ih _ _ h
      refine ⟨r :: records, by simp [h1], ?_⟩
      simp [h2, (assembleComment_cid rt ts pm p r hp).1]

theorem searchSpecList_batch (es : List JVal) :
    searchSpecList "commentEntityPayload"
      (es.map (fun e => JVal.obj [("payload", .obj [("commentEntityPayload", e)])])) =
      es.reverse := by
  induction es with
  | nil => simp [searchSpecList]
  | cons e rest ih =>
    simp only [List.map_cons, searchSpecList, ih, List.reverse_cons]
    congr 1

theorem searchDict_batchOf (es : List JVal) :
    searchDict (batchOf es) "commentEntityPayload" = es.reverse := by
  rw [searchDict_eq_spec]
  have h := searchSpecList_batch es
  simp only [batchOf, searchSpec, searchSpecEntries, matchesOf, JVal.isObject]
  simpa using h

/-- C8 (as stated, refuted): a batch whose entities occur in the response in the order
`[C3, C2, C1]` gives records in the order `[C3, C2, C1]`, not `[C1, C2, C3]`: `searchDict`
yields the elements of a sequence last first, and the code reverses that once more. -/
theorem processResponse_batch_order_counterexample :
    processResponse sampleRuntime
        (batchOf [sampleEntity "C3", sampleEntity "C2", sampleEntity "C1"]) [] [] =
        .ok ([], [sampleRecord "C3" false, sampleRecord "C2" false, sampleRecord "C1" false]) ∧
      processResponse sampleRuntime
        (batchOf [sampleEntity "C3", sampleEntity "C2", sampleEntity "C1"]) [] [] ≠
        .ok ([], [sampleRecord "C1" false, sampleRecord "C2" false, sampleRecord "C3" false]) := by
  have h : processResponse sampleRuntime
      (batchOf [sampleEntity "C3", sampleEntity "C2", sampleEntity "C1"]) [] [] =
      .ok ([], [sampleRecord "C3" false, sampleRecord "C2" false, sampleRecord "C1" false]) := by
    rfl
  refine ⟨h, ?_⟩
  rw [h]
  intro hc
  injection hc with hc
  injection hc with _ hc
  injection hc with hc _
  have : (sampleRecord "C3" false).cid = (sampleRecord "C1" false).cid := by rw [hc]
  revert this
  decide

/-- C8 (amended): the records of one batch are appended after all earlier records, in the
reverse of the order in which `searchDict` yields the entities; for entities that are the
successive elements of the response's mutation sequence `searchDict` yields them last first,
so the records appear in the order in which the entities occur in the response. -/
theorem processResponse_batch_order (rt : Runtime) (response : JVal) (W W1 : List JVal)
    (comments comments1 : List Comment)
    (h : processResponse rt response W comments = .ok (W1, comments1)) :
    (∃ records, comments1 = comments ++ records ∧
      records.map (fun r => r.cid) =
        ((searchDict response "commentEntityPayload").reverse).map cidOf) ∧
    (∀ es, searchDict (batchOf es) "commentEntityPayload" = es.reverse ∧
      commentPayloadsOf (batchOf es) = es) := by
  obtain ⟨ts, pm, hc⟩ := (processResponse_parts rt response W W1 comments comments1 h).2
  refine ⟨assembleAll_eq rt ts pm _ _ _ hc, ?_⟩
  intro es
  exact ⟨searchDict_batchOf es, by simp [commentPayloadsOf, searchDict_batchOf]⟩

/-- C8 (amended) on a batch appended to an earlier record: the record `c0` stays first and
the records of `[C3, C2, C1]` follow with the identifiers in that order. -/
theorem processResponse_batch_order_witness :
    ∃ records, [sampleRecord "c0" false, sampleRecord "C3" false, sampleRecord "C2" false,
        sampleRecord "C1" false] = [sampleRecord "c0" false] ++ records ∧
      records.map (fun r => r.cid) =
        ((searchDict (batchOf [sampleEntity "C3", sampleEntity "C2", sampleEntity "C1"])
          "commentEntityPayload").reverse).map cidOf :=
  (processResponse_batch_order sampleRuntime
    (batchOf [sampleEntity "C3", sampleEntity "C2", sampleEntity "C1"]) [] []
    [sampleRecord "c0" false]
    [sampleRecord "c0" false, sampleRecord "C3" false, sampleRecord "C2" false,
      sampleRecord "C1" false] (by rfl)).1

theorem includesChars_singleton (c : Char) (l : List Char) :
    includesChars [c] l = true ↔ c ∈ l := by
  induction l with
  | nil => simp [includesChars, startsWithChars]
  | cons x xs ih =>
    simp only [includesChars, startsWithChars, Bool.and_true, Bool.or_eq_true, beq_iff_eq, ih,
      List.mem_cons]

/-- C9: for every comment entity whose identifier is a string, the assembled record carries
that identifier and its reply flag is true exactly when the identifier contains `.`. -/
theorem assembleComment_reply_flag (rt : Runtime) (ts pm : Built) (comment : JVal) (r : Comment)
    (s : String) (h : assembleComment rt ts pm comment = .ok r)
    (hcid : cidOf comment = .str s) :
    r.cid = .str s ∧ (r.reply = true ↔ '.' ∈ s.data) := by
  obtain ⟨h1, h2⟩ := assembleComment_cid rt ts pm comment r h
  rw [hcid] at h1
  rw [h1] at h2
  refine ⟨h1, ?_⟩
  simp only [cidIncludesDot, jsIncludes, Except.ok.injEq] at h2
  rw [← h2]
  exact includesChars_singleton '.' s.data

/-- C9 on the two identifiers of the specification: `UgxAbc.123.456` gives a record with
`reply = true`, `UgxAbc` one with `reply = false`. -/
theorem assembleComment_reply_flag_witness :
    assembleComment sampleRuntime {} {} (sampleEntity "UgxAbc.123.456") =
        .ok (sampleRecord "UgxAbc.123.456" true) ∧
      assembleComment sampleRuntime {} {} (sampleEntity "UgxAbc") =
        .ok (sampleRecord "UgxAbc" false) ∧
      ((sampleRecord "UgxAbc.123.456" true).reply = true ↔ '.' ∈ "UgxAbc.123.456".data) ∧
      ((sampleRecord "UgxAbc" false).reply = true ↔ '.' ∈ "UgxAbc".data) :=
  ⟨by rfl, by rfl,
    (assembleComment_reply_flag sampleRuntime {} {} (sampleEntity "UgxAbc.123.456")
      (sampleRecord "UgxAbc.123.456" true) "UgxAbc.123.456" (by rfl) (by rfl)).2,
    (assembleComment_reply_flag sampleRuntime {} {} (sampleEntity "UgxAbc")
      (sampleRecord "UgxAbc" false) "UgxAbc" (by rfl) (by rfl)).2⟩

/-! ## Theorems: relative-time converter -/

theorem digitChar_spec : ∀ k, k < 10 →
    isDigitChar (Nat.digitChar k) = true ∧ (Nat.digitChar k).toNat - 48 = k := by
  decide

theorem toDigitsCore_spec : ∀ (fuel n : Nat) (ds : List Char), n < fuel →
    ∃ l, Nat.toDigitsCore 10 fuel n ds = l ++ ds ∧ l ≠ [] ∧
      (∀ c ∈ l, isDigitChar c = true) ∧
      (∀ acc, l.foldl (fun a c => a * 10 + (c.toNat - 48)) acc = acc * 10 ^ l.length + n) := by
  intro fuel
  induction fuel with
  | zero => intro n ds h; omega
  | succ f ih =>
    intro n ds h
    have hd := digitChar_spec (n % 10) (Nat.mod_lt _ (by decide))
    by_cases h0 : n / 10 = 0
    · refine ⟨[Nat.digitChar (n % 10)], by simp [Nat.toDigitsCore, h0], by simp, ?_, ?_⟩
      · intro c hc
        simp only [List.mem_singleton] at hc
        rw [hc]; exact hd.1
      · intro acc
        simp only [List.foldl, List.length_singleton, pow_one, hd.2]
        omega
    · obtain ⟨l, hl, _, hdig, hval⟩ := ih (n / 10) (Nat.digitChar (n % 10) :: ds) (by omega)
      refine ⟨l ++ [Nat.digitChar (n % 10)], by simp [Nat.toDigitsCore, h0, hl], by simp, ?_, ?_⟩
      · intro c hc
        rcases List.mem_append.1 hc with hc | hc
        · exact hdig c hc
        · simp only [List.mem_singleton] at hc
          rw [hc]; exact hd.1
      · intro acc
        simp only [List.foldl_append, List.foldl, hval, hd.2, List.length_append,
          List.length_singleton, pow_succ]
        have := Nat.div_add_mod n 10
        nlinarith [Nat.div_add_mod n 10]

theorem decimal_spec (n : Nat) :
    (toString n).data ≠ [] ∧ (∀ c ∈ (toString n).data, isDigitChar c = true) ∧
      digitsValue (toString n).data = n := by
  obtain ⟨l, hl, hne, hdig, hval⟩ := toDigitsCore_spec (n + 1) n [] (Nat.lt_succ_self n)
  have hdata : (toString n).data = l := by
    show (Nat.repr n).data = l
    simp [Nat.repr, Nat.toDigits, hl, List.asString]
  rw [hdata]
  refine ⟨hne, hdig, ?_⟩
  simp [digitsValue, hval]

theorem takeWhile_append_stop (p : Char → Bool) (l r : List Char) (x : Char)
    (hl : ∀ c ∈ l, p c = true) (hx : p x = false) :
    (l ++ x :: r).takeWhile p = l ∧ (l ++ x :: r).dropWhile p = x :: r := by
  induction l with
  | nil => simp [List.takeWhile, List.dropWhile, hx]
  | cons a as ih =>
    have ha : p a = true := hl a (List.mem_cons_self _ _)
    have := ih (fun c hc => hl c (List.mem_cons_of_mem _ hc))
    simp [List.takeWhile, List.dropWhile, ha, this]

theorem takeWhile_all (p : Char → Bool) (l : List Char) (hl : ∀ c ∈ l, p c = true) :
    l.takeWhile p = l := by
  induction l with
  | nil => rfl
  | cons a as ih =>
    have ha : p a = true := hl a (List.mem_cons_self _ _)
    simp [List.takeWhile, ha, ih (fun c hc => hl c (List.mem_cons_of_mem _ hc))]

theorem digit_not_space (c : Char) (h : isDigitChar c = true) : isJsSpace c = false := by
  simp only [isDigitChar, Bool.and_eq_true, decide_eq_true_eq] at h
  simp only [isJsSpace, Bool.or_eq_false_iff, Bool.and_eq_false_imp, decide_eq_false_iff_not,
    decide_eq_true_eq]
  omega

theorem word_not_space (c : Char) (h : isWordChar c = true) : isJsSpace c = false := by
  simp only [isWordChar, isDigitChar, Bool.or_eq_true, Bool.and_eq_true, decide_eq_true_eq] at h
  simp only [isJsSpace, Bool.or_eq_false_iff, Bool.and_eq_false_imp, decide_eq_false_iff_not,
    decide_eq_true_eq]
  omega

/-- The expression matches a phrase `há <digits> <word>` written with single spaces at its
start, and the groups are the digits and the word. -/
theorem matchAt_phrase (ds w : List Char) (hds : ds ≠ []) (hd : ∀ c ∈ ds, isDigitChar c = true)
    (hw : w ≠ []) (hwc : ∀ c ∈ w, isWordChar c = true) :
    regexMatch ('h' :: 'á' :: ' ' :: (ds ++ ' ' :: w)) = some (ds, w) := by
  cases ds with
  | nil => exact absurd rfl hds
  | cons d ds1 =>
    cases w with
    | nil => exact absurd rfl hw
    | cons x w1 =>
      have hsp : isJsSpace ' ' = true := by decide
      have hnd : isDigitChar ' ' = false := by decide
      have hdsp : isJsSpace d = false := digit_not_space d (hd d (List.mem_cons_self _ _))
      have hxsp : isJsSpace x = false := word_not_space x (hwc x (List.mem_cons_self _ _))
      have h1 : (' ' :: (d :: ds1 ++ ' ' :: x :: w1)).dropWhile isJsSpace =
          d :: ds1 ++ ' ' :: x :: w1 := by
        simp [List.dropWhile, hsp, hdsp]
      have h1t : (' ' :: (d :: ds1 ++ ' ' :: x :: w1)).takeWhile isJsSpace = [' '] := by
        simp [List.takeWhile, hsp, hdsp]
      obtain ⟨h2, h3⟩ := takeWhile_append_stop isDigitChar (d :: ds1) (x :: w1) ' ' hd hnd
      have h4 : (' ' :: x :: w1).dropWhile isJsSpace = x :: w1 := by
        simp [List.dropWhile, hsp, hxsp]
      have h4t : (' ' :: x :: w1).takeWhile isJsSpace = [' '] := by
        simp [List.takeWhile, hsp, hxsp]
      have h5 := takeWhile_all isWordChar (x :: w1) hwc
      simp only [regexMatch, matchAt, h1, h1t, h2, h3, h4, h4t, h5]
      simp

theorem unitLetters_spec : ∀ l ∈ unitLetters,
    l.toLower = l ∧ l.toUpper.toLower = l ∧ isWordChar l = true ∧ isWordChar l.toUpper = true := by
  decide

set_option maxRecDepth 4000 in
theorem unitDurations_spec : ∀ p ∈ unitDurations,
    p.1.data ≠ [] ∧ (∀ l ∈ p.1.data, l ∈ unitLetters) ∧ multiplicadorOf p.1.data = p.2 ∧
      1000 ≤ p.2 := by
  decide

theorem caseVariant_spec : ∀ (w u : List Char), (∀ l ∈ u, l ∈ unitLetters) →
    caseVariant w u = true →
    w.map Char.toLower = u ∧ (∀ c ∈ w, isWordChar c = true) ∧ (u ≠ [] → w ≠ []) := by
  intro w
  induction w with
  | nil =>
    intro u _ h
    cases u with
    | nil => simp
    | cons l ls => simp [caseVariant] at h
  | cons c cs ih =>
    intro u hu h
    cases u with
    | nil => simp [caseVariant] at h
    | cons l ls =>
      simp only [caseVariant, Bool.and_eq_true, Bool.or_eq_true, beq_iff_eq] at h
      obtain ⟨hc, hrest⟩ := h
      obtain ⟨i1, i2, _⟩ := ih ls (fun x hx => hu x (List.mem_cons_of_mem _ hx)) hrest
      obtain ⟨l1, l2, l3, l4⟩ := unitLetters_spec l (hu l (List.mem_cons_self _ _))
      refine ⟨?_, ?_, by simp⟩
      · rcases hc with hc | hc <;> simp [hc, l1, l2, i1]
      · intro y hy
        rcases List.mem_cons.1 hy with hy | hy
        · rcases hc with hc | hc <;> simp [hy, hc, l3, l4]
        · exact i2 y hy

set_option exponentiation.threshold 2000 in
theorem infiniteFrom_large : 18446744073709551616 ≤ infiniteFrom := by
  unfold infiniteFrom
  norm_num

/-- C10: at every valid current instant `agora`, for every non-negative integer `n` whose
result is a valid instant and every unit word among segundo(s), minuto(s), hora(s), dia(s),
semana(s), ano(s) in any letter case, `converterDataRelativa("há n <unit>")` is `formatarData`
of the instant `agora - n * d`, with `d` the duration of the unit in milliseconds. -/
theorem converterDataRelativa_units (rt : Runtime) (agora agoraCatch : Int) (n d : Nat)
    (word u : String) (hu : (u, d) ∈ unitDurations)
    (hword : caseVariant word.data u.data = true)
    (hnow : validInstant agora) (hvalid : validInstant (agora - n * d)) :
    converterDataRelativa rt agora agoraCatch (.str ("há " ++ toString n ++ " " ++ word)) =
      formatarData rt (some (agora - n * d)) ∧
    ∃ text, formatarData rt (some (agora - n * d)) = .ok text := by
  obtain ⟨_, hletters, hmul, hd1000⟩ := unitDurations_spec (u, d) hu
  have hune : u.data ≠ [] := (unitDurations_spec (u, d) hu).1
  obtain ⟨hlower, hwc, hwne⟩ := caseVariant_spec word.data u.data hletters hword
  obtain ⟨hdne, hdig, hval⟩ := decimal_spec n
  have hdata : ("há " ++ toString n ++ " " ++ word).data =
      'h' :: 'á' :: ' ' :: ((toString n).data ++ ' ' :: word.data) := by
    simp [String.data_append]
  have hmatch := matchAt_phrase (toString n).data word.data hdne hdig (hwne hune) hwc
  have hsmall : ¬ infiniteFrom ≤ n := by
    obtain ⟨a1, a2⟩ := hnow
    obtain ⟨b1, b2⟩ := hvalid
    simp only [maxTime] at a1 a2 b1 b2
    have hnd : (n : Int) * d ≤ 17280000000000000 := by omega
    have hn : (n : Int) ≤ 17280000000000000 := by
      have hd' : (1 : Int) ≤ d := by exact_mod_cast (by omega : 1 ≤ d)
      nlinarith [Int.natCast_nonneg n]
    have hn2 : n ≤ 17280000000000000 := by exact_mod_cast hn
    have h64 := infiniteFrom_large
    generalize infiniteFrom = bound at h64
    omega
  have hclip : timeClip (agora - n * d) = some (agora - n * d) := if_pos hvalid
  refine ⟨?_, by simp [formatarData]⟩
  simp only [converterDataRelativa, converterTry, hdata, hmatch, hlower, hmul, hval, hsmall,
    if_false, hclip]
  simp [formatarData]

/-- C10 on the phrase of the specification: at the instant 1700000000000 ms the phrase
`há 2 dias` is converted to the formatted date of that instant minus two days. -/
theorem converterDataRelativa_units_witness :
    converterDataRelativa sampleRuntime 1700000000000 1700000000001 (.str "há 2 dias") =
      formatarData sampleRuntime (some (1700000000000 - 2 * 86400000)) :=
  (converterDataRelativa_units sampleRuntime 1700000000000 1700000000001 2 86400000 "dias"
    "dias" (by decide) (by decide) (by simp [validInstant, maxTime])
    (by simp [validInstant, maxTime])).1

/-! ## Theorems: tree search, continued -/

/-- C17: for every tree and key, the values `searchDict` yields are, as a multiset, the values
of the entries with that key reached without passing through the value of another entry with
that key; a matched value is yielded and not entered, the entries after it in the same map are
still searched, and a non-matching value is entered. -/
theorem searchDict_never_descends (T : JVal) (K : String) :
    (Multiset.ofList (searchDict T K) = Multiset.ofList (outerValues K T)) ∧
      (∀ v rest, searchDict (.obj ((K, v) :: rest)) K = v :: searchDict (.obj rest) K) ∧
      (∀ k v rest, k ≠ K →
        searchDict (.obj ((k, v) :: rest)) K = searchDict (.obj rest) K ++ searchDict v K) ∧
      (∀ v inner, searchDict (.obj [(K, .obj [(K, inner)]), ("sibling", .arr [.obj [(K, v)]])]) K
        = (if K = "sibling" then [.obj [(K, inner)], .arr [.obj [(K, v)]]]
            else [.obj [(K, inner)], v])) := by
  refine ⟨?_, ?_, ?_, ?_⟩
  · rw [searchDict_eq_spec]
    exact Multiset.coe_eq_coe.2 (searchSpec_perm_outer K T)
  · intro v rest
    simp [searchDict_eq_spec, searchSpec, matchesOf, searchSpecEntries]
  · intro k v rest hk
    have hv : (if v.isObject then searchSpec K v else []) = searchSpec K v := by
      cases h : v.isObject
      · simp [searchSpec_of_not_isObject K v h]
      · simp
    simp only [searchDict_eq_spec, searchSpec, matchesOf, searchSpecEntries, hk, if_false, hv]
    simp [List.append_assoc]
  · intro v inner
    by_cases hs : K = "sibling"
    · subst hs
      simp [searchDict_eq_spec, searchSpec, matchesOf, searchSpecEntries]
    · have hs2 : ¬ "sibling" = K := fun h => hs h.symm
      simp [searchDict_eq_spec, searchSpec, matchesOf, searchSpecEntries, searchSpecList, hs,
        hs2, JVal.isObject]

/-! ## Theorems: disabled comments -/

theorem searchDict_nil_of_not_containsKey (T : JVal) (K : String)
    (h : containsKey K T = false) : searchDict T K = [] := by
  rw [searchDict_eq_spec]
  exact (searchSpec_nil_iff K T).2 h

theorem commentsRenderer_falsy (data : JVal)
    (h : containsKey "itemSectionRenderer" data = false ∨
      containsKey "continuationItemRenderer"
        (findFirst (searchDict data "itemSectionRenderer")) = false) :
    (commentsRenderer data).truthy = false := by
  unfold commentsRenderer
  rcases h with h | h
  · rw [searchDict_nil_of_not_containsKey data _ h]
    rfl
  · by_cases ht : (findFirst (searchDict data "itemSectionRenderer")).truthy = true
    · simp only [ht, if_true]
      rw [searchDict_nil_of_not_containsKey _ _ h]
      rfl
    · simp only [ht, if_false]
      rfl

/-- C13: when the initial render tree has no `itemSectionRenderer` entry, or the first item
section found has no `continuationItemRenderer` entry, `getCommentsFromUrl` returns the empty
list, raises nothing and makes no request, whatever the config, sort index, language and
transport. -/
theorem getCommentsFromUrl_comments_disabled (rt : Runtime) (world : Transport)
    (ytcfgMatch : Option (Option JVal)) (data : JVal) (sortBy : Int) (language : JVal)
    (fuel : Nat)
    (h : containsKey "itemSectionRenderer" data = false ∨
      containsKey "continuationItemRenderer"
        (findFirst (searchDict data "itemSectionRenderer")) = false) :
    getCommentsFromUrl rt world (.page ytcfgMatch (some (some data))) sortBy language fuel =
      some (.ok [], []) := by
  have hr := commentsRenderer_falsy data h
  unfold getCommentsFromUrl getCommentsTry
  cases ytcfgMatch with
  | none => rfl
  | some m =>
    cases m with
    | none => rfl
    | some ytcfg0 =>
      cases hl : applyLanguage ytcfg0 language with
      | error e => simp [hl]
      | ok ytcfg => simp [hl, hr]

/-- C13 on two trees: the empty tree has no item section, and `sampleDisabledData` has an
item section without a continuation renderer; both give the empty list with no request. -/
theorem getCommentsFromUrl_comments_disabled_witness :
    getCommentsFromUrl sampleRuntime sampleTransport
        (.page (some (some sampleConfig)) (some (some (.obj [])))) 1 .null 10 =
        some (.ok [], []) ∧
      getCommentsFromUrl sampleRuntime sampleTransport
        (.page (some (some sampleConfig)) (some (some sampleDisabledData))) 1 .null 10 =
        some (.ok [], []) :=
  ⟨getCommentsFromUrl_comments_disabled sampleRuntime sampleTransport (some (some sampleConfig))
      (.obj []) 1 .null 10 (Or.inl (by decide)),
    getCommentsFromUrl_comments_disabled sampleRuntime sampleTransport (some (some sampleConfig))
      sampleDisabledData 1 .null 10 (Or.inr (by decide))⟩

/-! ## Theorems: relative-time converter, continued -/

theorem formatarData_some (rt : Runtime) (t : Int) : ∃ text, formatarData rt (some t) = .ok text :=
  ⟨_, rfl⟩

theorem converterDataRelativa_ok (rt : Runtime) (agora agoraCatch : Int) (w : JVal) :
    ∃ text, converterDataRelativa rt agora agoraCatch w = .ok text := by
  unfold converterDataRelativa
  cases h : converterTry rt agora w with
  | ok s => exact ⟨s, rfl⟩
  | error e => exact formatarData_some rt agoraCatch

theorem matchAt_none_of_head (c : Char) (cs : List Char) (h : c ≠ 'h' ∧ c ≠ 'H') :
    matchAt (c :: cs) = none := by
  cases cs with
  | nil => rfl
  | cons a rest => simp [matchAt, h.1, h.2]

theorem regexMatch_none_of_no_h : ∀ cs : List Char, (∀ c ∈ cs, c ≠ 'h' ∧ c ≠ 'H') →
    regexMatch cs = none := by
  intro cs
  induction cs with
  | nil => intro _; rfl
  | cons c rest ih =>
    intro h
    simp only [regexMatch, matchAt_none_of_head c rest (h c (List.mem_cons_self _ _))]
    exact ih (fun x hx => h x (List.mem_cons_of_mem _ hx))

/-- C12: on an input that the expression does not match, `converterDataRelativa` returns
`formatarData` of the current instant (the instant read on line 311 for a string, the one
read in the `catch` of line 345 for a value that is not a string), and on no input at all
does it raise.  A string without the letter `h` is never matched. -/
theorem converterDataRelativa_fallback (rt : Runtime) (agora agoraCatch : Int) (v : JVal)
    (hno : ∀ s, v = .str s → regexMatch s.data = none) :
    ((∀ s, v = .str s →
        converterDataRelativa rt agora agoraCatch v = formatarData rt (some agora)) ∧
      ((∀ s, v ≠ .str s) →
        converterDataRelativa rt agora agoraCatch v = formatarData rt (some agoraCatch))) ∧
      (∀ w, ∃ text, converterDataRelativa rt agora agoraCatch w = .ok text) ∧
      (∀ s : String, (∀ c ∈ s.data, c ≠ 'h' ∧ c ≠ 'H') → regexMatch s.data = none) := by
  refine ⟨⟨?_, ?_⟩, converterDataRelativa_ok rt agora agoraCatch,
    fun s hs => regexMatch_none_of_no_h s.data hs⟩
  · intro s hs
    subst hs
    simp [converterDataRelativa, converterTry, hno s rfl, formatarData]
  · intro hs
    cases v with
    | str s => exact absurd rfl (hs s)
    | undefined => rfl
    | null => rfl
    | bool b => rfl
    | num n => rfl
    | arr xs => rfl
    | obj es => rfl

/-- C12 on the empty string, a phrase in another language and `null`: none is matched, and
each gives `formatarData` of the instant read. -/
theorem converterDataRelativa_fallback_witness :
    converterDataRelativa sampleRuntime 1700000000000 1700000000001 (.str "") =
        formatarData sampleRuntime (some 1700000000000) ∧
      converterDataRelativa sampleRuntime 1700000000000 1700000000001 (.str "2 days ago") =
        formatarData sampleRuntime (some 1700000000000) ∧
      converterDataRelativa sampleRuntime 1700000000000 1700000000001 .null =
        formatarData sampleRuntime (some 1700000000001) :=
  ⟨(converterDataRelativa_fallback sampleRuntime 1700000000000 1700000000001 (.str "")
      (fun s hs => by cases hs; rfl)).1.1 "" rfl,
    (converterDataRelativa_fallback sampleRuntime 1700000000000 1700000000001
      (.str "2 days ago") (fun s hs => by cases hs; rfl)).1.1 "2 days ago" rfl,
    (converterDataRelativa_fallback sampleRuntime 1700000000000 1700000000001 .null
      (fun s hs => by cases hs)).1.2 (fun s hs => by cases hs)⟩

theorem converterDataRelativa_of_match (rt : Runtime) (agora agoraCatch : Int) (s : String)
    (ds w : List Char) (hm : regexMatch s.data = some (ds, w))
    (hq : digitsValue ds < 18446744073709551616)
    (hv : validInstant (agora - digitsValue ds * multiplicadorOf (w.map Char.toLower))) :
    converterDataRelativa rt agora agoraCatch (.str s) =
      formatarData rt (some (agora - digitsValue ds * multiplicadorOf (w.map Char.toLower))) := by
  have hsmall : ¬ infiniteFrom ≤ digitsValue ds := by
    have h64 := infiniteFrom_large
    generalize infiniteFrom = bound at h64
    omega
  have hclip : timeClip (agora - digitsValue ds * multiplicadorOf (w.map Char.toLower)) =
      some (agora - digitsValue ds * multiplicadorOf (w.map Char.toLower)) := if_pos hv
  simp only [converterDataRelativa, converterTry, hm, hsmall, if_false, hclip]
  simp [formatarData]

/-- The expression on a phrase `há <digits> <word><tail>` where the tail starts with a
character outside `\w`: the second group stops before the tail. -/
theorem matchAt_phrase_tail (ds w : List Char) (x : Char) (tail : List Char) (hds : ds ≠ [])
    (hd : ∀ c ∈ ds, isDigitChar c = true) (hw : w ≠ []) (hwc : ∀ c ∈ w, isWordChar c = true)
    (hx : isWordChar x = false) :
    regexMatch ('h' :: 'á' :: ' ' :: (ds ++ ' ' :: (w ++ x :: tail))) = some (ds, w) := by
  cases ds with
  | nil => exact absurd rfl hds
  | cons d ds1 =>
    cases w with
    | nil => exact absurd rfl hw
    | cons y w1 =>
      have hsp : isJsSpace ' ' = true := by decide
      have hnd : isDigitChar ' ' = false := by decide
      have hdsp : isJsSpace d = false := digit_not_space d (hd d (List.mem_cons_self _ _))
      have hysp : isJsSpace y = false := word_not_space y (hwc y (List.mem_cons_self _ _))
      have h1 : (' ' :: (d :: ds1 ++ ' ' :: (y :: w1 ++ x :: tail))).dropWhile isJsSpace =
          d :: ds1 ++ ' ' :: (y :: w1 ++ x :: tail) := by
        simp [List.dropWhile, hsp, hdsp]
      have h1t : (' ' :: (d :: ds1 ++ ' ' :: (y :: w1 ++ x :: tail))).takeWhile isJsSpace =
          [' '] := by
        simp [List.takeWhile, hsp, hdsp]
      obtain ⟨h2, h3⟩ :=
        takeWhile_append_stop isDigitChar (d :: ds1) (y :: w1 ++ x :: tail) ' ' hd hnd
      have h4 : (' ' :: (y :: w1 ++ x :: tail)).dropWhile isJsSpace = y :: w1 ++ x :: tail := by
        simp [List.dropWhile, hsp, hysp]
      have h4t : (' ' :: (y :: w1 ++ x :: tail)).takeWhile isJsSpace = [' '] := by
        simp [List.takeWhile, hsp, hysp]
      obtain ⟨h5, _⟩ := takeWhile_append_stop isWordChar (y :: w1) tail x hwc hx
      simp only [regexMatch, matchAt, h1, h1t, h2, h3, h4, h4t, h5]
      simp

/-- The singular month phrase for every count: the second group is `m`, no multiplier is
selected, and the result is the formatted current instant. -/
theorem converterDataRelativa_mes (rt : Runtime) (agora agoraCatch : Int) (n : Nat)
    (hn : n < 18446744073709551616) (hnow : validInstant agora) :
    converterDataRelativa rt agora agoraCatch (.str ("há " ++ toString n ++ " mês")) =
      formatarData rt (some agora) := by
  obtain ⟨hdne, hdig, hval⟩ := decimal_spec n
  have hdata : ("há " ++ toString n ++ " mês").data =
      'h' :: 'á' :: ' ' :: ((toString n).data ++ ' ' :: (['m'] ++ 'ê' :: ['s'])) := by
    simp [String.data_append]
  have hmatch := matchAt_phrase_tail (toString n).data ['m'] 'ê' ['s'] hdne hdig (by simp)
    (by decide) (by decide)
  rw [← hdata] at hmatch
  have hmul : multiplicadorOf (['m'].map Char.toLower) = 0 := by rfl
  have h := converterDataRelativa_of_match rt agora agoraCatch _ _ _ hmatch
    (by rw [hval]; exact hn) (by rw [hval, hmul]; simpa using hnow)
  rw [h, hval, hmul]
  simp

/-- C11 (the code at the failing input): on `há 1 mês` the expression captures only `m`,
since `ê` is outside `\w`; no branch of the unit chain applies, the multiplier stays 0 and the
result is the formatted current instant, not the instant 30 days earlier.  The plural
`há 2 meses` is converted with the 30-day multiplier. -/
theorem converterDataRelativa_singular_month (rt : Runtime) :
    regexMatch "há 1 mês".data = some (['1'], ['m']) ∧
      multiplicadorOf ['m'] = 0 ∧
      converterDataRelativa rt 1700000000000 1700000000001 (.str "há 1 mês") =
        formatarData rt (some 1700000000000) ∧
      converterDataRelativa instantRuntime 1700000000000 1700000000001 (.str "há 1 mês") =
        .ok "1700000000000" ∧
      formatarData instantRuntime (some (1700000000000 - 1 * (30 * 86400000))) =
        .ok "1697408000000" ∧
      converterDataRelativa rt 1700000000000 1700000000001 (.str "há 2 meses") =
        formatarData rt (some (1700000000000 - 2 * (30 * 86400000))) := by
  have h1 := converterDataRelativa_mes rt 1700000000000 1700000000001 1 (by decide)
    (by simp [validInstant, maxTime])
  have h1i := converterDataRelativa_mes instantRuntime 1700000000000 1700000000001 1 (by decide)
    (by simp [validInstant, maxTime])
  have h2 := converterDataRelativa_of_match rt 1700000000000 1700000000001 "há 2 meses"
    ['2'] ['m', 'e', 's', 'e', 's'] (by rfl) (by decide)
    (by
      have hm : multiplicadorOf (['m', 'e', 's', 'e', 's'].map Char.toLower) = 2592000000 := by
        rfl
      have hd : digitsValue ['2'] = 2 := by rfl
      rw [hm, hd]
      simp [validInstant, maxTime])
  have hm : multiplicadorOf (['m', 'e', 's', 'e', 's'].map Char.toLower) = 2592000000 := by rfl
  have hd : digitsValue ['2'] = 2 := by rfl
  rw [hm, hd] at h2
  refine ⟨by rfl, by rfl, h1, ?_, by rfl, ?_⟩
  · rw [show ("há 1 mês" : String) = "há " ++ toString 1 ++ " mês" by decide, h1i]
    rfl
  · rw [h2]
    norm_num

theorem assembleComment_time_parsed (rt : Runtime) (ts pm : Built) (comment : JVal) (r : Comment)
    (h : assembleComment rt ts pm comment = .ok r) :
    r.time_parsed = timeParsedOf rt r.time := by
  unfold assembleComment at h
  obtain ⟨properties, _, h⟩ := except_bind_ok _ _ _ h
  obtain ⟨cid, _, h⟩ := except_bind_ok _ _ _ h
  obtain ⟨author, _, h⟩ := except_bind_ok _ _ _ h
  obtain ⟨toolbar, _, h⟩ := except_bind_ok _ _ _ h
  obtain ⟨stateKey, _, h⟩ := except_bind_ok _ _ _ h
  obtain ⟨stateName, _, h⟩ := except_bind_ok _ _ _ h
  obtain ⟨content, _, h⟩ := except_bind_ok _ _ _ h
  obtain ⟨text, _, h⟩ := except_bind_ok _ _ _ h
  obtain ⟨time, _, h⟩ := except_bind_ok _ _ _ h
  obtain ⟨displayName, _, h⟩ := except_bind_ok _ _ _ h
  obtain ⟨channel, _, h⟩ := except_bind_ok _ _ _ h
  obtain ⟨likeCount, _, h⟩ := except_bind_ok _ _ _ h
  obtain ⟨votes, _, h⟩ := except_bind_ok _ _ _ h
  obtain ⟨replies, _, h⟩ := except_bind_ok _ _ _ h
  obtain ⟨photo, _, h⟩ := except_bind_ok _ _ _ h
  obtain ⟨reply, _, h⟩ := except_bind_ok _ _ _ h
  obtain ⟨key, hkey, h⟩ := except_bind_ok _ _ _ h
  cases h
  rfl

/-- C18 (the code at the failing input): for a string `publishedTime` the `try` block never
throws, so the field `time_parsed` is always set; when the date does not parse it is set to
`NaN`.  The entity `sampleEntity "c0"` (time `há 2 dias`, which the parser rejects) gives a
record whose `time_parsed` is present and `NaN`, not absent. -/
theorem assembleComment_time_parsed_present (rt : Runtime) (s : String) :
    assembleComment sampleRuntime {} {} (sampleEntity "c0") = .ok (sampleRecord "c0" false) ∧
      sampleRuntime.dateParse "há 2 dias" = none ∧
      (sampleRecord "c0" false).time_parsed = some none ∧
      (sampleRecord "c0" false).time_parsed ≠ none ∧
      timeParsedOf rt (.str s) =
        some (rt.dateParse (String.mk (jsTrimChars (s.data.takeWhile (fun c => c ≠ '('))))) ∧
      timeParsedOf rt (.str s) ≠ none := by
  refine ⟨by rfl, by rfl, by rfl, by decide, by rfl, ?_⟩
  simp [timeParsedOf]

/-! ## Theorems: malformed entities and raised errors -/

theorem getProp_ok_not_nullish (v : JVal) (name : String) (x : JVal)
    (h : getProp v name = .ok x) : v.isNullish = false := by
  cases v <;> simp [getProp] at h <;> rfl

theorem assembleComment_ok_wellFormed (rt : Runtime) (ts pm : Built) (comment : JVal)
    (r : Comment) (h : assembleComment rt ts pm comment = .ok r) :
    missingMandatory comment = false := by
  unfold assembleComment at h
  obtain ⟨properties, hprop, h⟩ := except_bind_ok _ _ _ h
  obtain ⟨cid, hcid, h⟩ := except_bind_ok _ _ _ h
  obtain ⟨author, hauthor, h⟩ := except_bind_ok _ _ _ h
  obtain ⟨toolbar, _, h⟩ := except_bind_ok _ _ _ h
  obtain ⟨stateKey, _, h⟩ := except_bind_ok _ _ _ h
  obtain ⟨stateName, _, h⟩ := except_bind_ok _ _ _ h
  obtain ⟨content, _, h⟩ := except_bind_ok _ _ _ h
  obtain ⟨text, _, h⟩ := except_bind_ok _ _ _ h
  obtain ⟨time, _, h⟩ := except_bind_ok _ _ _ h
  obtain ⟨displayName, hname, h⟩ := except_bind_ok _ _ _ h
  have h1 := getProp_ok_not_nullish _ _ _ hprop
  have h2 := getProp_ok_not_nullish _ _ _ hcid
  have h3 := getProp_ok_not_nullish _ _ _ hname
  rw [getProp_eq_optProp _ _ _ hprop] at h2
  rw [getProp_eq_optProp _ _ _ hauthor] at h3
  simp [missingMandatory, h1, h2, h3]

theorem assembleAll_error_of_malformed (rt : Runtime) (ts pm : Built) :
    ∀ (payloads : List JVal) (comments : List Comment),
      (∃ p ∈ payloads, missingMandatory p = true) →
      ∃ e, assembleAll rt ts pm payloads comments = .error e := by
  intro payloads
  induction payloads with
  | nil => intro comments h; obtain ⟨p, hp, _⟩ := h; cases hp
  | cons q rest ih =>
    intro comments h
    simp only [assembleAll]
    cases hq : assembleComment rt ts pm q with
    | error e => exact ⟨e, rfl⟩
    | ok r =>
      have hwf := assembleComment_ok_wellFormed rt ts pm q r hq
      obtain ⟨p, hp, hbad⟩ := h
      rcases List.mem_cons.1 hp with hp | hp
      · subst hp
        rw [hwf] at hbad
        cases hbad
      · exact ih _ ⟨p, hp, hbad⟩

theorem processResponse_error_of_malformed (rt : Runtime) (response : JVal) (W : List JVal)
    (comments : List Comment)
    (hbad : ∃ p ∈ commentPayloadsOf response, missingMandatory p = true) :
    ∃ e, processResponse rt response W comments = .error e := by
  cases h : processResponse rt response W comments with
  | error e => exact ⟨e, rfl⟩
  | ok res =>
    obtain ⟨W1, comments1⟩ := res
    obtain ⟨ts, pm, hc⟩ := (processResponse_parts rt response W W1 comments comments1 h).2
    obtain ⟨e, he⟩ := assembleAll_error_of_malformed rt ts pm _ comments hbad
    rw [he] at hc
    cases hc

/-- C14 (as stated, refuted): the first page gives the record `c0`; the second batch holds
the well-formed entity `c1` and an entity without `author`.  The result is the empty list:
the records of `c0` and `c1` are not in it. -/
theorem getCommentsFromUrl_malformed_counterexample :
    assembleComment sampleRuntime {} {} (sampleEntity "c1") = .ok (sampleRecord "c1" false) ∧
      missingMandatory sampleMalformedEntity = true ∧
      commentPayloadsOf (batchOf [sampleEntity "c1", sampleMalformedEntity]) =
        [sampleEntity "c1", sampleMalformedEntity] ∧
      getCommentsFromUrl sampleRuntime malformedTransport
        (.page (some (some sampleConfig)) (some (some sampleData))) 1 .null 10 =
        some (.ok [], [sampleRequest "recent", sampleRequest "B"]) := by
  refine ⟨by rfl, by rfl, by rfl, by rfl⟩

/-- C14 (amended): when a response batch holds a malformed entity, the iteration that
processes it raises, whatever records were collected before; the loop ends with that
exception, and the `catch` of `getCommentsFromUrl` turns every exception of the `try` block
into the empty list: no record of that batch or of an earlier one is returned, and nothing is
raised to the caller. -/
theorem paginate_malformed_entity_aborts (rt : Runtime) (world : Transport)
    (ytcfg continuation response : JVal) (rest : List JVal) (comments : List Comment)
    (log log1 : List Request) (fuel : Nat)
    (hreq : ajaxRequest world continuation ytcfg log = .ok (response, log1))
    (htruthy : response.truthy = true)
    (hbad : ∃ p ∈ commentPayloadsOf response, missingMandatory p = true) :
    (∃ e, paginate rt world ytcfg (fuel + 1) (continuation :: rest) comments log =
        some (.error e, log1)) ∧
      (∀ fetched sortBy language fuel2 e log2,
        getCommentsTry rt world fetched sortBy language fuel2 = some (.error e, log2) →
        getCommentsFromUrl rt world fetched sortBy language fuel2 = some (.ok [], log2)) := by
  constructor
  · obtain ⟨e, he⟩ := processResponse_error_of_malformed rt response rest comments hbad
    exact ⟨e, by simp [paginate, hreq, htruthy, he]⟩
  · intro fetched sortBy language fuel2 e log2 h
    simp [getCommentsFromUrl, h]

/-- C14 (amended) on the malformed batch: with the record `c0` already collected, the
iteration for token `B` raises, and the run as a whole returns the empty list. -/
theorem paginate_malformed_entity_aborts_witness :
    (∃ e, paginate sampleRuntime malformedTransport sampleConfig 5
        [sampleEndpoint "B", sampleEndpoint "A"] [sampleRecord "c0" false]
        [sampleRequest "recent"] =
        some (.error e, [sampleRequest "recent", sampleRequest "B"])) ∧
      getCommentsFromUrl sampleRuntime malformedTransport
        (.page (some (some sampleConfig)) (some (some sampleData))) 1 .null 10 =
        some (.ok [], [sampleRequest "recent", sampleRequest "B"]) :=
  ⟨(paginate_malformed_entity_aborts sampleRuntime malformedTransport sampleConfig
      (sampleEndpoint "B") (batchOf [sampleEntity "c1", sampleMalformedEntity])
      [sampleEndpoint "A"] [sampleRecord "c0" false] [sampleRequest "recent"]
      [sampleRequest "recent", sampleRequest "B"] 4 (by rfl) (by rfl)
      ⟨sampleMalformedEntity, by decide, by rfl⟩).1, by rfl⟩

theorem paginate_endless : ∀ (fuel : Nat) (token : String) (comments : List Comment)
    (log : List Request),
    paginate sampleRuntime endlessTransport sampleConfig fuel [sampleEndpoint token] comments
      log = none := by
  intro fuel
  induction fuel with
  | zero => intro token comments log; rfl
  | succ n ih =>
    intro token comments log
    have hreq : ajaxRequest endlessTransport (sampleEndpoint token) sampleConfig log =
        .ok (sampleEndlessPage, log ++ [sampleRequest token]) := by rfl
    have hproc : processResponse sampleRuntime sampleEndlessPage [] comments =
        .ok ([sampleEndpoint "next"], comments) := by rfl
    have htruthy : sampleEndlessPage.truthy = true := by rfl
    simp only [paginate, hreq, htruthy, if_true, hproc]
    exact ih "next" comments _

theorem paginate_fuel_mono (rt : Runtime) (world : Transport) (ytcfg : JVal) :
    ∀ (fuel k : Nat) (continuations : List JVal) (comments : List Comment) (log : List Request)
      (r : Except JsError (List Comment) × List Request),
      paginate rt world ytcfg fuel continuations comments log = some r →
      paginate rt world ytcfg (fuel + k) continuations comments log = some r := by
  intro fuel
  induction fuel with
  | zero =>
    intro k continuations comments log r h
    cases continuations with
    | nil =>
      cases k <;> simpa [paginate] using h
    | cons c rest => simp [paginate] at h
  | succ n ih =>
    intro k continuations comments log r h
    cases continuations with
    | nil =>
      have e : n + 1 + k = (n + k) + 1 := by omega
      rw [e]
      simpa [paginate] using h
    | cons c rest =>
      have e : n + 1 + k = (n + k) + 1 := by omega
      rw [e]
      simp only [paginate] at h ⊢
      cases hreq : ajaxRequest world c ytcfg log with
      | error err => simpa [hreq] using h
      | ok res =>
        obtain ⟨response, log1⟩ := res
        simp only [hreq] at h ⊢
        by_cases ht : response.truthy = true
        · simp only [ht, if_true] at h ⊢
          cases hp : processResponse rt response rest comments with
          | error err => simpa [hp] using h
          | ok res2 =>
            obtain ⟨W1, comments1⟩ := res2
            simp only [hp] at h ⊢
            exact ih k _ _ _ _ h
        · simpa [ht] using h

theorem getCommentsTry_fuel_mono (rt : Runtime) (world : Transport) (fetched : Fetched)
    (sortBy : Int) (language : JVal) (fuel k : Nat)
    (r : Except JsError (List Comment) × List Request)
    (h : getCommentsTry rt world fetched sortBy language fuel = some r) :
    getCommentsTry rt world fetched sortBy language (fuel + k) = some r := by
  unfold getCommentsTry at h ⊢
  cases fetched with
  | failed e => exact h
  | page cm dm =>
    cases cm with
    | none => exact h
    | some m =>
      cases m with
      | none => exact h
      | some ytcfg0 =>
        simp only at h ⊢
        cases hl : applyLanguage ytcfg0 language with
        | error e => simpa [hl] using h
        | ok ytcfg =>
          simp only [hl] at h ⊢
          cases dm with
          | none => exact h
          | some d =>
            cases d with
            | none => exact h
            | some data =>
              simp only at h ⊢
              by_cases hr : (commentsRenderer data).truthy = true
              · simp only [hr, if_true] at h ⊢
                cases hs : resolveSortMenu world ytcfg data [] with
                | error e => simpa [hs] using h
                | ok res =>
                  obtain ⟨sortMenu, log⟩ := res
                  simp only [hs] at h ⊢
                  cases ho : selectOrdering rt sortMenu sortBy with
                  | error e => simpa [ho] using h
                  | ok endpoint =>
                    simp only [ho] at h ⊢
                    exact paginate_fuel_mono rt world ytcfg fuel k _ _ _ r h
              · simpa [hr] using h

/-- C20 (as stated, refuted): against a transport that answers every POST with a page
carrying one more continuation token the work list never empties: there is no number of
iterations after which the run has ended, so `getCommentsFromUrl` returns no list. -/
theorem getCommentsFromUrl_endless_counterexample :
    ¬ ∃ fuel result, getCommentsFromUrl sampleRuntime endlessTransport
      (.page (some (some sampleConfig)) (some (some sampleData))) 1 .null fuel = some result := by
  rintro ⟨fuel, result, hres⟩
  have h : getCommentsTry sampleRuntime endlessTransport
      (.page (some (some sampleConfig)) (some (some sampleData))) 1 .null fuel =
      paginate sampleRuntime endlessTransport sampleConfig fuel [sampleEndpoint "recent"] [] [] := by
    rfl
  simp [getCommentsFromUrl, h, paginate_endless] at hres

/-- C20 (amended): for every page, sort index, language and transport, `getCommentsFromUrl`
raises nothing to its caller; whenever the run ends it returns a list, the list of the `try`
block when nothing was raised and the empty list when any step raised, and the result of a run
that has ended does not change when more iterations are allowed.  The run ends unless the
`try` block itself does not. -/
theorem getCommentsFromUrl_never_raises (rt : Runtime) (world : Transport) (fetched : Fetched)
    (sortBy : Int) (language : JVal) (fuel : Nat) :
    (∀ e log, getCommentsFromUrl rt world fetched sortBy language fuel ≠ some (.error e, log)) ∧
      (∀ e log, getCommentsTry rt world fetched sortBy language fuel = some (.error e, log) →
        getCommentsFromUrl rt world fetched sortBy language fuel = some (.ok [], log)) ∧
      (∀ l log, getCommentsTry rt world fetched sortBy language fuel = some (.ok l, log) →
        getCommentsFromUrl rt world fetched sortBy language fuel = some (.ok l, log)) ∧
      (getCommentsFromUrl rt world fetched sortBy language fuel = none ↔
        getCommentsTry rt world fetched sortBy language fuel = none) ∧
      (∀ r k, getCommentsFromUrl rt world fetched sortBy language fuel = some r →
        getCommentsFromUrl rt world fetched sortBy language (fuel + k) = some r) := by
  refine ⟨?_, ?_, ?_, ?_, ?_⟩
  · intro e log
    unfold getCommentsFromUrl
    cases h : getCommentsTry rt world fetched sortBy language fuel with
    | none => simp
    | some r =>
      obtain ⟨res, lg⟩ := r
      cases res <;> simp
  · intro e log h
    simp [getCommentsFromUrl, h]
  · intro l log h
    simp [getCommentsFromUrl, h]
  · unfold getCommentsFromUrl
    cases h : getCommentsTry rt world fetched sortBy language fuel with
    | none => simp
    | some r =>
      obtain ⟨res, lg⟩ := r
      cases res <;> simp
  · intro r k h
    unfold getCommentsFromUrl at h ⊢
    cases ht : getCommentsTry rt world fetched sortBy language fuel with
    | none => simp [ht] at h
    | some r2 =>
      rw [getCommentsTry_fuel_mono rt world fetched sortBy language fuel k r2 ht]
      rw [ht] at h
      exact h

/-- C20 (amended) on runs that raise: the ordering error of `sortBy = 2` and the TypeError of
the malformed batch both end in the empty list. -/
theorem getCommentsFromUrl_never_raises_witness :
    getCommentsFromUrl sampleRuntime sampleTransport
        (.page (some (some sampleConfig)) (some (some sampleData))) 2 .null 10 =
        some (.ok [], []) ∧
      getCommentsFromUrl sampleRuntime sampleTransport (.failed .transportError) 1 .null 10 =
        some (.ok [], []) :=
  ⟨(getCommentsFromUrl_never_raises sampleRuntime sampleTransport
      (.page (some (some sampleConfig)) (some (some sampleData))) 2 .null 10).2.1
      .orderingError [] (by rfl),
    (getCommentsFromUrl_never_raises sampleRuntime sampleTransport (.failed .transportError)
      1 .null 10).2.1 .transportError [] (by rfl)⟩

/-! ## Theorems: identifiers of the returned records -/

theorem deliveredIds_append (world : Transport) : ∀ (a start b : Nat),
    deliveredIds world start (a + b) =
      deliveredIds world start a ++ deliveredIds world (start + a) b := by
  intro a
  induction a with
  | zero => intro start b; simp [deliveredIds]
  | succ n ih =>
    intro start b
    have e : n + 1 + b = (n + b) + 1 := by omega
    rw [e]
    simp only [deliveredIds, ih, List.append_assoc]
    rw [show start + 1 + n = start + (n + 1) by omega]

theorem ajaxAttempts_ids (world : Transport) (payload : JVal × JVal × JVal) (ytcfg : JVal) :
    ∀ (r : Nat) (log : List Request),
      log.length ≤ (ajaxAttempts world payload ytcfg r log).2.length ∧
      resultIds (ajaxAttempts world payload ytcfg r log).1 =
        deliveredIds world log.length
          ((ajaxAttempts world payload ytcfg r log).2.length - log.length) := by
  intro r
  induction r with
  | zero =>
    intro log
    simp only [ajaxAttempts, Nat.sub_self, deliveredIds, le_refl, true_and]
    rfl
  | succ n ih =>
    intro log
    simp only [ajaxAttempts]
    cases hk : getProp ytcfg "INNERTUBE_API_KEY" with
    | error e => exact ih log
    | ok key =>
      simp only
      have hlen : (log ++ [Request.mk payload.1 payload.2.1 payload.2.2 key]).length =
          log.length + 1 := by simp
      have hnext : ∀ o, world log.length = o → outcomeIds o = [] →
          log.length ≤ (ajaxAttempts world payload ytcfg n
            (log ++ [Request.mk payload.1 payload.2.1 payload.2.2 key])).2.length ∧
          resultIds (ajaxAttempts world payload ytcfg n
            (log ++ [Request.mk payload.1 payload.2.1 payload.2.2 key])).1 =
            deliveredIds world log.length
              ((ajaxAttempts world payload ytcfg n
                (log ++ [Request.mk payload.1 payload.2.1 payload.2.2 key])).2.length -
                log.length) := by
        intro o ho hids
        obtain ⟨i1, i2⟩ := ih (log ++ [Request.mk payload.1 payload.2.1 payload.2.2 key])
        rw [hlen] at i1 i2
        refine ⟨by omega, ?_⟩
        rw [i2]
        have e : (ajaxAttempts world payload ytcfg n
            (log ++ [Request.mk payload.1 payload.2.1 payload.2.2 key])).2.length - log.length =
            1 + ((ajaxAttempts world payload ytcfg n
              (log ++ [Request.mk payload.1 payload.2.1 payload.2.2 key])).2.length -
              (log.length + 1)) := by omega
        rw [e, deliveredIds_append]
        simp [deliveredIds, ho, hids]
      cases ho : world log.length with
      | rejected => exact hnext _ ho rfl
      | response status data =>
        simp only
        by_cases h200 : status = 200
        · simp only [h200, if_true, hlen]
          refine ⟨by omega, ?_⟩
          rw [show log.length + 1 - log.length = 1 by omega]
          simp [deliveredIds, ho, h200, outcomeIds, resultIds]
        · simp only [h200, if_false]
          by_cases h4 : status = 403 ∨ status = 413
          · simp only [h4, if_true, hlen]
            refine ⟨by omega, ?_⟩
            rw [show log.length + 1 - log.length = 1 by omega]
            simp only [deliveredIds, ho, outcomeIds, h200, false_and, if_false, List.append_nil]
            rfl
          · simp only [h4, if_false]
            exact hnext _ ho (by simp [outcomeIds, h200])

theorem processResponse_ids (rt : Runtime) (response : JVal) (W W1 : List JVal)
    (comments comments1 : List Comment)
    (h : processResponse rt response W comments = .ok (W1, comments1)) :
    comments1.map (fun r => r.cid) = comments.map (fun r => r.cid) ++ entityIds response := by
  obtain ⟨ts, pm, hc⟩ := (processResponse_parts rt response W W1 comments comments1 h).2
  obtain ⟨records, h1, h2⟩ := assembleAll_eq rt ts pm _ _ _ hc
  rw [h1, List.map_append, h2]
  rfl

/-- The identifiers of the records a completed pagination loop returns are those already
collected followed by the identifiers delivered by the outcomes it consumed. -/
theorem paginate_ids (rt : Runtime) (world : Transport) (ytcfg : JVal) :
    ∀ (fuel : Nat) (continuations : List JVal) (comments out : List Comment)
      (log log1 : List Request),
      paginate rt world ytcfg fuel continuations comments log = some (.ok out, log1) →
      log.length ≤ log1.length ∧
        out.map (fun r => r.cid) =
          comments.map (fun r => r.cid) ++
            deliveredIds world log.length (log1.length - log.length) := by
  intro fuel
  induction fuel with
  | zero =>
    intro continuations comments out log log1 h
    cases continuations with
    | nil =>
      simp only [paginate, Option.some.injEq, Prod.mk.injEq, Except.ok.injEq] at h
      obtain ⟨h1, h2⟩ := h
      subst h1; subst h2
      simp [deliveredIds]
    | cons c rest => simp [paginate] at h
  | succ n ih =>
    intro continuations comments out log log1 h
    cases continuations with
    | nil =>
      simp only [paginate, Option.some.injEq, Prod.mk.injEq, Except.ok.injEq] at h
      obtain ⟨h1, h2⟩ := h
      subst h1; subst h2
      simp [deliveredIds]
    | cons c rest =>
      simp only [paginate] at h
      cases hreq : ajaxRequest world c ytcfg log with
      | error e => simp [hreq] at h
      | ok res =>
        obtain ⟨response, logA⟩ := res
        simp only [hreq] at h
        have hatt : log.length ≤ logA.length ∧
            resultIds response = deliveredIds world log.length (logA.length - log.length) := by
          unfold ajaxRequest at hreq
          cases hp : ajaxPayload c ytcfg with
          | error e => simp [hp] at hreq
          | ok payload =>
            simp only [hp, Except.ok.injEq] at hreq
            have := ajaxAttempts_ids world payload ytcfg 5 log
            rw [hreq] at this
            exact this
        obtain ⟨hle, hids⟩ := hatt
        by_cases ht : response.truthy = true
        · simp only [ht, if_true] at h
          cases hp : processResponse rt response rest comments with
          | error e => simp [hp] at h
          | ok res2 =>
            obtain ⟨W1, comments1⟩ := res2
            simp only [hp] at h
            obtain ⟨i1, i2⟩ := ih _ _ _ _ _ h
            refine ⟨by omega, ?_⟩
            rw [i2, processResponse_ids rt response rest W1 comments comments1 hp]
            have e : log1.length - log.length =
                (logA.length - log.length) + (log1.length - logA.length) := by omega
            rw [e, deliveredIds_append, ← hids]
            simp only [resultIds, ht, if_true, List.append_assoc]
            rw [show log.length + (logA.length - log.length) = logA.length by omega]
        · simp only [ht, if_false, Option.some.injEq, Prod.mk.injEq, Except.ok.injEq,
            Bool.false_eq_true] at h
          obtain ⟨h1, h2⟩ := h
          subst h1; subst h2
          refine ⟨hle, ?_⟩
          rw [← hids]
          simp [resultIds, ht]

theorem getCommentsTry_ids (rt : Runtime) (world : Transport) (fetched : Fetched)
    (sortBy : Int) (language : JVal) (fuel : Nat) (out : List Comment) (log1 : List Request)
    (h : getCommentsTry rt world fetched sortBy language fuel = some (.ok out, log1)) :
    out = [] ∨ ∃ start, start ≤ log1.length ∧
      out.map (fun r => r.cid) = deliveredIds world start (log1.length - start) := by
  unfold getCommentsTry at h
  cases fetched with
  | failed e => simp at h
  | page cm dm =>
    cases cm with
    | none => simp at h; exact Or.inl h.1
    | some m =>
      cases m with
      | none => simp at h
      | some ytcfg0 =>
        simp only at h
        cases hl : applyLanguage ytcfg0 language with
        | error e => simp [hl] at h
        | ok ytcfg =>
          simp only [hl] at h
          cases dm with
          | none => simp at h; exact Or.inl h.1
          | some d =>
            cases d with
            | none => simp at h
            | some data =>
              simp only at h
              by_cases hr : (commentsRenderer data).truthy = true
              · simp only [hr, if_true] at h
                cases hs : resolveSortMenu world ytcfg data [] with
                | error e => simp [hs] at h
                | ok res =>
                  obtain ⟨sortMenu, log⟩ := res
                  simp only [hs] at h
                  cases ho : selectOrdering rt sortMenu sortBy with
                  | error e => simp [ho] at h
                  | ok endpoint =>
                    simp only [ho] at h
                    obtain ⟨i1, i2⟩ := paginate_ids rt world ytcfg fuel _ _ _ _ _ h
                    exact Or.inr ⟨log.length, i1, by simpa using i2⟩
              · simp [hr] at h
                exact Or.inl h.1

/-- C16 (as stated, refuted): the first page delivers the entity `c0` and the second page
delivers it again; the run returns two records with the identifier `c0`. -/
theorem getCommentsFromUrl_duplicate_counterexample :
    getCommentsFromUrl sampleRuntime duplicateTransport
        (.page (some (some sampleConfig)) (some (some sampleData))) 1 .null 10 =
        some (.ok [sampleRecord "c0" false, sampleRecord "c0" false],
          [sampleRequest "recent", sampleRequest "B", sampleRequest "A"]) ∧
      ¬ ([sampleRecord "c0" false, sampleRecord "c0" false].map (fun r => r.cid)).Nodup := by
  refine ⟨by rfl, by decide⟩

/-- C16 (amended): the identifiers of the records a run returns are, in order and with
multiplicity, the identifiers of the comment entities delivered by the responses the
pagination loop processed (`start` requests are made before the loop, for the sort menu);
nothing is compared or removed, so they are pairwise distinct exactly when the delivered
identifiers are.  A run that raised returns no record. -/
theorem getCommentsFromUrl_identifiers (rt : Runtime) (world : Transport) (fetched : Fetched)
    (sortBy : Int) (language : JVal) (fuel : Nat) (out : List Comment) (log1 : List Request)
    (h : getCommentsFromUrl rt world fetched sortBy language fuel = some (.ok out, log1)) :
    (out = [] ∨ ∃ start, start ≤ log1.length ∧
      out.map (fun r => r.cid) = deliveredIds world start (log1.length - start) ∧
      ((out.map (fun r => r.cid)).Nodup ↔
        (deliveredIds world start (log1.length - start)).Nodup)) ∧
    (∀ ytcfg continuations log fuel2 out2 log2,
      paginate rt world ytcfg fuel2 continuations [] log = some (.ok out2, log2) →
      out2.map (fun r => r.cid) = deliveredIds world log.length (log2.length - log.length)) := by
  constructor
  · unfold getCommentsFromUrl at h
    cases ht : getCommentsTry rt world fetched sortBy language fuel with
    | none => simp [ht] at h
    | some r =>
      obtain ⟨res, lg⟩ := r
      cases res with
      | error e =>
        simp [ht] at h
        exact Or.inl h.1
      | ok l =>
        simp only [ht, Option.some.injEq, Prod.mk.injEq, Except.ok.injEq] at h
        obtain ⟨h1, h2⟩ := h
        subst h1; subst h2
        rcases getCommentsTry_ids rt world fetched sortBy language fuel _ _ ht with h0 | h0
        · exact Or.inl h0
        · obtain ⟨start, hs, hids⟩ := h0
          exact Or.inr ⟨start, hs, hids, by rw [hids]⟩
  · intro ytcfg continuations log fuel2 out2 log2 hp
    have := (paginate_ids rt world ytcfg fuel2 continuations [] out2 log log2 hp).2
    simpa using this

/-- C16 (amended) on the run that receives `c0` twice: the returned identifiers are the
delivered ones, `c0` and then `c0` again. -/
theorem getCommentsFromUrl_identifiers_witness :
    deliveredIds duplicateTransport 0 3 = [.str "c0", .str "c0"] ∧
      [sampleRecord "c0" false, sampleRecord "c0" false].map (fun r => r.cid) =
        deliveredIds duplicateTransport 0 (3 - 0) :=
  ⟨by rfl,
    (getCommentsFromUrl_identifiers sampleRuntime duplicateTransport
      (.page (some (some sampleConfig)) (some (some sampleData))) 1 .null 10
      [sampleRecord "c0" false, sampleRecord "c0" false]
      [sampleRequest "recent", sampleRequest "B", sampleRequest "A"] (by rfl)).2
      sampleConfig [sampleEndpoint "recent"] [] 10
      [sampleRecord "c0" false, sampleRecord "c0" false]
      [sampleRequest "recent", sampleRequest "B", sampleRequest "A"] (by rfl)⟩

/-! ## Theorems: public entry point -/

theorem converterDataRelativa_eq_dataOf (rt : Runtime) (clock : Clock) (i : Nat)
    (comment : Comment) :
    converterDataRelativa rt (clock i).1 (clock i).2 comment.time =
      .ok (dataOf rt clock i comment) := by
  obtain ⟨text, h⟩ := converterDataRelativa_ok rt (clock i).1 (clock i).2 comment.time
  simp [dataOf, h]

theorem mapComentarios_eq (rt : Runtime) (clock : Clock) :
    ∀ (L : List Comment) (i : Nat), mapComentarios rt clock i L = .ok (projecoes rt clock i L) := by
  intro L
  induction L with
  | nil => intro i; rfl
  | cons c rest ih =>
    intro i
    simp only [mapComentarios, converterDataRelativa_eq_dataOf, ih, projecoes, projecao]

theorem projecoes_length (rt : Runtime) (clock : Clock) :
    ∀ (L : List Comment) (i : Nat), (projecoes rt clock i L).length = L.length := by
  intro L
  induction L with
  | nil => intro i; rfl
  | cons c rest ih => intro i; simp [projecoes, ih]

/-- C15: for every limit `limite ≥ 0` and every list `L` returned by the pipeline,
`obterComentarios` returns the first `min limite n` projections of `L`, in order, so never
more than `limite`; each is the projection `{cid, user, text, time, data, respostas}` of its
record, with `data` the result of `converterDataRelativa` on the record's `time`. -/
theorem obterComentarios_limit (rt : Runtime) (world : Transport) (clock : Clock)
    (fetch : Bool → JVal → Fetched) (video : JVal) (opcoes : Opcoes) (fuel : Nat)
    (limite : Nat) (ehUrl : Bool) (L : List Comment) (log : List Request)
    (hlimite : opcoes.limite = some (limite : Int))
    (hvideo : video.truthy = true) (hurl : ehUrlOf video = .ok ehUrl)
    (hL : getCommentsFromUrl rt world (fetch ehUrl video) (opcoes.ordenacao.getD SORT_BY_RECENT)
      (opcoes.idioma.getD (.str "pt")) fuel = some (.ok L, log)) :
    obterComentarios rt world clock fetch video opcoes fuel =
        some (.ok ((projecoes rt clock 0 L).take limite), log) ∧
      ((projecoes rt clock 0 L).take limite).length = min limite L.length ∧
      ((projecoes rt clock 0 L).take limite).length ≤ limite ∧
      (∀ i c, converterDataRelativa rt (clock i).1 (clock i).2 c.time =
        .ok (projecao rt clock i c).data) := by
  have hslice : jsSlice (projecoes rt clock 0 L) (limite : Int) =
      (projecoes rt clock 0 L).take limite := by
    simp [jsSlice]
  refine ⟨?_, by simp [projecoes_length], by simp, ?_⟩
  · unfold obterComentarios
    cases ehUrl with
    | true =>
      simp [hvideo, hurl, getCommentsFromUrlAsJson, hL, hlimite, mapComentarios_eq, hslice]
    | false =>
      simp [hvideo, hurl, getCommentsAsJson, hL, hlimite, mapComentarios_eq, hslice]
  · intro i c
    exact converterDataRelativa_eq_dataOf rt clock i c

/-- C15 on the sample run (records `c0` and `c1`) with `limite = 1`, then `limite = 0`: one
projection is returned, then none. -/
theorem obterComentarios_limit_witness :
    obterComentarios sampleRuntime sampleTransport sampleClock
        (fun _ _ => .page (some (some sampleConfig)) (some (some sampleData)))
        (.str "wctcZbWvpoY") { limite := some 1 } 10 =
        some (.ok ((projecoes sampleRuntime sampleClock 0
          [sampleRecord "c0" false, sampleRecord "c1" false]).take 1),
          (sampleRequestPt "recent" :: List.replicate 5 (sampleRequestPt "B") ++
        [sampleRequestPt "A"])) ∧
      (projecoes sampleRuntime sampleClock 0
          [sampleRecord "c0" false, sampleRecord "c1" false]).take 1 =
        [{ cid := .str "c0", user := .str "@user", text := .str "text",
           time := .str "há 2 dias", data := "01-01-2025", respostas := .str "0" }] ∧
      obterComentarios sampleRuntime sampleTransport sampleClock
        (fun _ _ => .page (some (some sampleConfig)) (some (some sampleData)))
        (.str "wctcZbWvpoY") { limite := some 0 } 10 =
        some (.ok [], (sampleRequestPt "recent" :: List.replicate 5 (sampleRequestPt "B") ++
        [sampleRequestPt "A"])) :=
  ⟨(obterComentarios_limit sampleRuntime sampleTransport sampleClock
      (fun _ _ => .page (some (some sampleConfig)) (some (some sampleData)))
      (.str "wctcZbWvpoY") { limite := some 1 } 10 1 false
      [sampleRecord "c0" false, sampleRecord "c1" false]
      (sampleRequestPt "recent" :: List.replicate 5 (sampleRequestPt "B") ++
        [sampleRequestPt "A"])
      rfl (by rfl) (by rfl) (by rfl)).1,
    by
      set_option exponentiation.threshold 2000 in
      rfl,
    (obterComentarios_limit sampleRuntime sampleTransport sampleClock
      (fun _ _ => .page (some (some sampleConfig)) (some (some sampleData)))
      (.str "wctcZbWvpoY") { limite := some 0 } 10 0 false
      [sampleRecord "c0" false, sampleRecord "c1" false]
      (sampleRequestPt "recent" :: List.replicate 5 (sampleRequestPt "B") ++
        [sampleRequestPt "A"])
      rfl (by rfl) (by rfl) (by rfl)).1⟩

/-! ## Theorems: paid overlay -/

theorem hasKey_iff_mem (d : Dict) (k : String) :
    hasKey d k = true ↔ k ∈ d.map Prod.fst := by
  induction d with
  | nil => simp [hasKey]
  | cons e rest ih =>
    obtain ⟨a, v⟩ := e
    simp only [hasKey, Bool.or_eq_true, decide_eq_true_eq, ih, List.map_cons, List.mem_cons]
    constructor
    · rintro (h | h)
      · exact Or.inl h.symm
      · exact Or.inr h
    · rintro (h | h)
      · exact Or.inl h.symm
      · exact Or.inr h

theorem lookupKey_of_mem (d : Dict) (k : String) (v : JVal) (hn : (d.map Prod.fst).Nodup)
    (hm : (k, v) ∈ d) : lookupKey d k = v := by
  induction d with
  | nil => cases hm
  | cons e rest ih =>
    obtain ⟨a, w⟩ := e
    simp only [List.map_cons, List.nodup_cons] at hn
    rcases List.mem_cons.1 hm with h | h
    · injection h with h1 h2
      subst h1; subst h2
      simp [lookupKey]
    · have hne : a ≠ k := by
        intro hak
        apply hn.1
        rw [hak]
        exact List.mem_map.2 ⟨(k, v), h, rfl⟩
      simp only [lookupKey, hne, if_false]
      exact ih hn.2 h

theorem mem_of_hasKey (d : Dict) (k : String) (h : hasKey d k = true) :
    (k, lookupKey d k) ∈ d := by
  induction d with
  | nil => simp [hasKey] at h
  | cons e rest ih =>
    obtain ⟨a, w⟩ := e
    by_cases hak : a = k
    · subst hak
      simp [lookupKey]
    · simp only [hasKey, hak, decide_False, Bool.false_or] at h
      simp only [lookupKey, hak, if_false, List.mem_cons]
      exact Or.inr (ih h)

theorem hasKey_setKey (d : Dict) (k c : String) (v : JVal) :
    hasKey (setKey d k v) c = true ↔ k = c ∨ hasKey d c = true := by
  induction d with
  | nil => simp [setKey, hasKey]
  | cons e rest ih =>
    obtain ⟨a, w⟩ := e
    by_cases hak : a = k
    · subst hak
      simp only [setKey, if_true, hasKey, Bool.or_eq_true, decide_eq_true_eq]
      tauto
    · simp only [setKey, hak, if_false, hasKey, Bool.or_eq_true, decide_eq_true_eq, ih]
      tauto

theorem lookupKey_setKey_self (d : Dict) (k : String) (v : JVal) :
    lookupKey (setKey d k v) k = v := by
  induction d with
  | nil => simp [setKey, lookupKey]
  | cons e rest ih =>
    obtain ⟨a, w⟩ := e
    by_cases hak : a = k
    · subst hak
      simp [setKey, lookupKey]
    · simp [setKey, lookupKey, hak, ih]

theorem lookupKey_setKey_ne (d : Dict) (k c : String) (v : JVal) (h : k ≠ c) :
    lookupKey (setKey d k v) c = lookupKey d c := by
  induction d with
  | nil => simp [setKey, lookupKey, h]
  | cons e rest ih =>
    obtain ⟨a, w⟩ := e
    by_cases hak : a = k
    · subst hak
      simp [setKey, lookupKey, h]
    · by_cases hac : a = c
      · subst hac
        simp [setKey, lookupKey, hak]
      · simp [setKey, lookupKey, hak, hac, ih]

theorem hasKey_setAll : ∀ (kvs : List (String × JVal)) (d : Dict) (c : String),
    hasKey (setAll d kvs) c = true ↔ hasKey d c = true ∨ c ∈ kvs.map Prod.fst := by
  intro kvs
  induction kvs with
  | nil => intro d c; simp [setAll]
  | cons e rest ih =>
    intro d c
    obtain ⟨k, v⟩ := e
    simp only [setAll, ih, hasKey_setKey, List.map_cons, List.mem_cons]
    constructor
    · rintro ((h | h) | h)
      · exact Or.inr (Or.inl h.symm)
      · exact Or.inl h
      · exact Or.inr (Or.inr h)
    · rintro (h | h | h)
      · exact Or.inl (Or.inr h)
      · exact Or.inl (Or.inl h.symm)
      · exact Or.inr h

theorem lookupKey_setAll_not_mem : ∀ (kvs : List (String × JVal)) (d : Dict) (c : String),
    c ∉ kvs.map Prod.fst → lookupKey (setAll d kvs) c = lookupKey d c := by
  intro kvs
  induction kvs with
  | nil => intro d c _; rfl
  | cons e rest ih =>
    intro d c h
    obtain ⟨k, v⟩ := e
    simp only [List.map_cons, List.mem_cons, not_or] at h
    simp only [setAll]
    rw [ih _ _ h.2, lookupKey_setKey_ne _ _ _ _ (fun hk => h.1 hk.symm)]

theorem lookupKey_setAll_unique : ∀ (kvs : List (String × JVal)) (d : Dict) (c : String)
    (v : JVal), c ∈ kvs.map Prod.fst → (∀ w, (c, w) ∈ kvs → w = v) →
    lookupKey (setAll d kvs) c = v := by
  intro kvs
  induction kvs with
  | nil => intro d c v h _; cases h
  | cons e rest ih =>
    intro d c v hmem huniq
    obtain ⟨k, w⟩ := e
    simp only [setAll]
    by_cases hrest : c ∈ rest.map Prod.fst
    · exact ih _ _ _ hrest (fun x hx => huniq x (List.mem_cons_of_mem _ hx))
    · rw [lookupKey_setAll_not_mem _ _ _ hrest]
      simp only [List.map_cons, List.mem_cons] at hmem
      rcases hmem with h | h
      · subst h
        rw [lookupKey_setKey_self]
        exact huniq w (List.mem_cons_self _ _)
      · exact absurd h hrest

theorem setKey_of_not_hasKey (d : Dict) (k : String) (v : JVal) (h : hasKey d k = false) :
    setKey d k v = d ++ [(k, v)] := by
  induction d with
  | nil => rfl
  | cons e rest ih =>
    obtain ⟨a, w⟩ := e
    simp only [hasKey, Bool.or_eq_false_iff, decide_eq_false_iff_not] at h
    simp [setKey, h.1, ih h.2]

theorem setAll_eq_append : ∀ (kvs : List (String × JVal)) (d : Dict),
    (d.map Prod.fst ++ kvs.map Prod.fst).Nodup → setAll d kvs = d ++ kvs := by
  intro kvs
  induction kvs with
  | nil => intro d _; simp [setAll]
  | cons e rest ih =>
    intro d hn
    obtain ⟨k, v⟩ := e
    have hk : hasKey d k = false := by
      cases hh : hasKey d k with
      | false => rfl
      | true =>
        exfalso
        have hm := (hasKey_iff_mem d k).1 hh
        have hdis := (List.nodup_append.1 hn).2.2
        exact hdis hm (by simp)
    simp only [setAll, setKey_of_not_hasKey d k v hk]
    rw [ih (d ++ [(k, v)]) (by simpa [List.append_assoc] using hn)]
    simp

theorem mem_insertIndexed (e x : Nat × String × JVal) (l : List (Nat × String × JVal)) :
    x ∈ insertIndexed e l ↔ x = e ∨ x ∈ l := by
  induction l with
  | nil => simp [insertIndexed]
  | cons f rest ih =>
    by_cases h : e.1 ≤ f.1
    · simp [insertIndexed, h]
    · simp only [insertIndexed, h, if_false, List.mem_cons, ih]
      tauto

theorem mem_indexedEntries (d : Dict) (n : Nat) (k : String) (v : JVal) :
    (n, k, v) ∈ indexedEntries d ↔ (k, v) ∈ d ∧ arrayIndex k = some n := by
  induction d with
  | nil => simp [indexedEntries]
  | cons e rest ih =>
    obtain ⟨a, w⟩ := e
    cases ha : arrayIndex a with
    | none =>
      simp only [indexedEntries, ha, ih, List.mem_cons, Prod.mk.injEq]
      constructor
      · rintro ⟨h1, h2⟩
        exact ⟨Or.inr h1, h2⟩
      · rintro ⟨h1 | h1, h2⟩
        · rw [h1.1, ha] at h2
          cases h2
        · exact ⟨h1, h2⟩
    | some m =>
      simp only [indexedEntries, ha, mem_insertIndexed, ih, List.mem_cons, Prod.mk.injEq]
      constructor
      · rintro (⟨h1, h2, h3⟩ | ⟨h1, h2⟩)
        · exact ⟨Or.inl ⟨h2, h3⟩, by rw [h2, ha, h1]⟩
        · exact ⟨Or.inr h1, h2⟩
      · rintro ⟨h1 | h1, h2⟩
        · rw [h1.1, ha] at h2
          injection h2 with h2
          exact Or.inl ⟨h2.symm, h1.1, h1.2⟩
        · exact Or.inr ⟨h1, h2⟩

/-- The entries of a built object are the same pairs in whatever order `Object.entries`
lists them. -/
theorem mem_objectEntries (d : Dict) (k : String) (v : JVal) :
    (k, v) ∈ objectEntries d ↔ (k, v) ∈ d := by
  simp only [objectEntries, List.mem_append, List.mem_map, List.mem_filter,
    Option.isNone_iff_eq_none]
  constructor
  · rintro (⟨⟨n, a, w⟩, h1, h2⟩ | ⟨h1, _⟩)
    · simp only at h2
      injection h2 with h2 h3
      subst h2; subst h3
      exact ((mem_indexedEntries d n a w).1 h1).1
    · exact h1
  · intro h
    rcases Option.eq_none_or_eq_some (arrayIndex k) with ha | ⟨n, ha⟩
    · exact Or.inr ⟨h, ha⟩
    · exact Or.inl ⟨(n, k, v), (mem_indexedEntries d n k v).2 ⟨h, ha⟩, rfl⟩

theorem mem_mappedPairs (sk : Dict) : ∀ (entries : List (String × JVal)) (c : String)
    (t : JVal), (c, t) ∈ mappedPairs sk entries ↔
      ∃ k, (k, t) ∈ entries ∧ hasKey sk k = true ∧ jsToString (lookupKey sk k) = c := by
  intro entries
  induction entries with
  | nil => intro c t; simp [mappedPairs]
  | cons e rest ih =>
    intro c t
    obtain ⟨a, w⟩ := e
    by_cases ha : hasKey sk a = true
    · simp only [mappedPairs, ha, if_true, List.mem_cons, Prod.mk.injEq, ih]
      constructor
      · rintro (⟨h1, h2⟩ | ⟨k, h1, h2, h3⟩)
        · exact ⟨a, Or.inl ⟨rfl, h2⟩, ha, h1.symm⟩
        · exact ⟨k, Or.inr h1, h2, h3⟩
      · rintro ⟨k, h1 | h1, h2, h3⟩
        · exact Or.inl ⟨by rw [← h3, h1.1], h1.2⟩
        · exact Or.inr ⟨k, h1, h2, h3⟩
    · simp only [mappedPairs, ha, if_false, List.mem_cons, Prod.mk.injEq, ih,
        Bool.false_eq_true]
      constructor
      · rintro ⟨k, h1, h2, h3⟩
        exact ⟨k, Or.inr h1, h2, h3⟩
      · rintro ⟨k, h1 | h1, h2, h3⟩
        · rw [h1.1] at h2
          exact absurd h2 ha
        · exact ⟨k, h1, h2, h3⟩

theorem toPropertyKey_ok (v : JVal) (name : String) (h : toPropertyKey v = .ok name) :
    name = jsToString v := by
  unfold toPropertyKey at h
  by_cases hs : stringable v = true
  · simp only [hs, if_true, Except.ok.injEq] at h
    exact h.symm
  · simp [hs] at h

theorem proto_name_mem : "__proto__" ∈ objectPrototypeNames := by decide

theorem ne_proto_of_not_mem (name : String) (h : name ∉ objectPrototypeNames) :
    name ≠ "__proto__" := by
  intro hn
  apply h
  rw [hn]
  exact proto_name_mem

theorem setMember_of_ne (o : Built) (name : String) (v : JVal) (h : name ≠ "__proto__") :
    setMember o name v = { o with own := setKey o.own name v } := by
  unfold setMember
  by_cases hk : hasKey o.own name = true
  · simp [hk]
  · simp [hk, h]

/-- On an object whose prototype is still `Object.prototype`, a name that `Object.prototype`
does not hold is found exactly when it is an own entry. -/
theorem findMember_plain (o : Built) (name : String) (hp : o.proto = .objectPrototype)
    (hn : name ∉ objectPrototypeNames) :
    findMember o name =
      if hasKey o.own name then some (.val (lookupKey o.own name)) else none := by
  unfold findMember
  simp [hp, objectMember, ne_proto_of_not_mem name hn, hn]

/-- On an object whose prototype is still `Object.prototype`, a name that is not an own
entry gives the member of `Object.prototype`. -/
theorem findMember_inherited (o : Built) (name : String) (hp : o.proto = .objectPrototype)
    (hk : hasKey o.own name = false) :
    findMember o name = objectMember .objectPrototype name := by
  unfold findMember
  simp [hp, hk]

theorem objectMember_isSome (proto : Member) (name : String) (h : name ∈ objectPrototypeNames) :
    objectMember proto name ≠ none := by
  unfold objectMember
  by_cases hn : name = "__proto__"
  · simp [hn]
  · simp [hn, h]

theorem mapPayments_eq (sk : Built) (hsk : sk.proto = .objectPrototype) :
    ∀ (entries : List (String × JVal)) (acc pm : Built),
      mapPayments sk entries acc = .ok pm →
      (∀ e ∈ entries, e.1 ∉ objectPrototypeNames) →
      (∀ e ∈ mappedPairs sk.own entries, e.1 ≠ "__proto__") →
      pm = { acc with own := setAll acc.own (mappedPairs sk.own entries) } := by
  intro entries
  induction entries with
  | nil =>
    intro acc pm h _ _
    simp only [mapPayments, Except.ok.injEq] at h
    simp [← h, mappedPairs, setAll]
  | cons e rest ih =>
    intro acc pm h hkeys hids
    obtain ⟨a, w⟩ := e
    have ha : a ∉ objectPrototypeNames := hkeys (a, w) (List.mem_cons_self _ _)
    have hrest : ∀ e ∈ rest, e.1 ∉ objectPrototypeNames :=
      fun e he => hkeys e (List.mem_cons_of_mem _ he)
    have hfind := findMember_plain sk a hsk ha
    simp only [mapPayments, hasMember, readMember, hfind] at h
    by_cases hk : hasKey sk.own a = true
    · simp only [hk, if_true, Option.isSome_some, Option.getD_some, Member.toKey] at h
      cases htk : toPropertyKey (lookupKey sk.own a) with
      | error e => simp [htk] at h
      | ok name =>
        simp only [htk] at h
        have hname := toPropertyKey_ok _ _ htk
        have hmp : mappedPairs sk.own ((a, w) :: rest) =
            (jsToString (lookupKey sk.own a), w) :: mappedPairs sk.own rest := by
          simp [mappedPairs, hk]
        rw [hmp] at hids ⊢
        have hne : name ≠ "__proto__" := by
          rw [hname]
          exact hids _ (List.mem_cons_self _ _)
        rw [setMember_of_ne _ _ _ hne] at h
        rw [ih _ _ h hrest (fun e he => hids e (List.mem_cons_of_mem _ he))]
        simp [setAll, hname]
    · have hmp : mappedPairs sk.own ((a, w) :: rest) = mappedPairs sk.own rest := by
        simp [mappedPairs, hk]
      rw [hmp] at hids ⊢
      simp only [hk, Bool.false_eq_true, if_false, Option.isSome_none] at h
      exact ih _ _ h hrest hids

theorem collectPayments_eq : ∀ (payloads : List JVal) (acc payments : Built),
    collectPayments payloads acc = .ok payments →
    (∀ p ∈ payloads.filter hasChip, chipKey p ≠ "__proto__") →
    payments = { acc with
      own := setAll acc.own ((payloads.filter hasChip).map (fun p => (chipKey p, chipText p))) } := by
  intro payloads
  induction payloads with
  | nil =>
    intro acc payments h _
    simp only [collectPayments, Except.ok.injEq] at h
    simp [setAll, ← h]
  | cons p rest ih =>
    intro acc payments h hne
    simp only [collectPayments] at h
    cases p with
    | obj es =>
      simp only [jsIn] at h
      cases hk : hasKey es "pdgCommentChip" with
      | false =>
        simp only [hk] at h
        have hc : hasChip (.obj es) = false := by simp [hasChip, hk]
        simp only [List.filter, hc] at hne ⊢
        exact ih _ _ h hne
      | true =>
        simp only [hk, getProp] at h
        have hc : hasChip (.obj es) = true := by simp [hasChip, hk]
        simp only [List.filter, hc, List.map_cons, setAll] at hne ⊢
        cases htk : toPropertyKey (lookupKey es "key") with
        | error e => simp [htk] at h
        | ok name =>
          simp only [htk] at h
          have hname : name = chipKey (.obj es) := toPropertyKey_ok _ _ htk
          have hn1 : name ≠ "__proto__" := by
            rw [hname]
            exact hne _ (List.mem_cons_self _ _)
          rw [setMember_of_ne _ _ _ hn1] at h
          rw [ih _ _ h (fun q hq => hne q (List.mem_cons_of_mem _ hq))]
          simp only [hname, chipText]
    | arr xs =>
      simp only [jsIn] at h
      have hc : hasChip (.arr xs) = false := rfl
      simp only [List.filter, hc] at hne ⊢
      exact ih _ _ h hne
    | undefined => simp [jsIn] at h
    | null => simp [jsIn] at h
    | bool b => simp [jsIn] at h
    | num n => simp [jsIn] at h
    | str s => simp [jsIn] at h

theorem viewModelsOf_eq : ∀ (vs ms : List JVal), viewModelsOf vs = .ok ms →
    ms = vs.map (fun v => optProp v "commentViewModel") := by
  intro vs
  induction vs with
  | nil => intro ms h; simp [viewModelsOf] at h; simp [h]
  | cons v rest ih =>
    intro ms h
    simp only [viewModelsOf] at h
    cases hv : getProp v "commentViewModel" with
    | error e => simp [hv] at h
    | ok inner =>
      simp only [hv] at h
      cases hr : viewModelsOf rest with
      | error e => simp [hr] at h
      | ok inners =>
        simp only [hr, Except.ok.injEq] at h
        rw [← h, List.map_cons, ← ih _ hr, ← getProp_eq_optProp _ _ _ hv]

theorem withSurfaceKey_eq : ∀ (ms kept : List JVal), withSurfaceKey ms = .ok kept →
    kept = ms.filter hasSurfaceKey := by
  intro ms
  induction ms with
  | nil => intro kept h; simp [withSurfaceKey] at h; simp [h]
  | cons vm rest ih =>
    intro kept h
    simp only [withSurfaceKey] at h
    cases hv : jsIn "commentSurfaceKey" vm with
    | error e => simp [hv] at h
    | ok keep =>
      simp only [hv] at h
      cases hr : withSurfaceKey rest with
      | error e => simp [hr] at h
      | ok kept1 =>
        simp only [hr, Except.ok.injEq] at h
        have hkeep : hasSurfaceKey vm = keep := by
          cases vm <;> simp [jsIn] at hv <;> simp [hasSurfaceKey, hv]
        rw [← h, List.filter, hkeep, ← ih _ hr]
        cases keep <;> rfl

theorem reduceSurfaceKeys_eq : ∀ (kept : List JVal) (acc sk : Built),
    reduceSurfaceKeys kept acc = .ok sk →
    (∀ vm ∈ kept, vmKey vm ≠ "__proto__") →
    sk = { acc with
      own := setAll acc.own (kept.map (fun vm => (vmKey vm, optProp vm "commentId"))) } := by
  intro kept
  induction kept with
  | nil =>
    intro acc sk h _
    simp only [reduceSurfaceKeys, Except.ok.injEq] at h
    simp [setAll, ← h]
  | cons vm rest ih =>
    intro acc sk h hne
    simp only [reduceSurfaceKeys] at h
    cases h1 : getProp vm "commentSurfaceKey" with
    | error e => simp [h1] at h
    | ok surfaceKey =>
      cases h2 : getProp vm "commentId" with
      | error e => simp [h1, h2] at h
      | ok commentId =>
        simp only [h1, h2] at h
        cases htk : toPropertyKey surfaceKey with
        | error e => simp [htk] at h
        | ok name =>
          simp only [htk] at h
          have hname : name = vmKey vm := by
            rw [toPropertyKey_ok _ _ htk, vmKey, ← getProp_eq_optProp _ _ _ h1]
          have hn1 : name ≠ "__proto__" := by
            rw [hname]
            exact hne _ (List.mem_cons_self _ _)
          rw [setMember_of_ne _ _ _ hn1] at h
          rw [ih _ _ h (fun q hq => hne q (List.mem_cons_of_mem _ hq)), List.map_cons, setAll,
            hname, ← getProp_eq_optProp _ _ _ h2]

theorem surfaceKeysOf_eq (response : JVal) (payments sk : Built)
    (h : surfaceKeysOf response payments = .ok sk)
    (hne : ∀ vm ∈ viewModels response, vmKey vm ≠ "__proto__") :
    sk.proto = .objectPrototype ∧
      sk.own = if payments.own.isEmpty then []
        else setAll [] ((viewModels response).map (fun vm => (vmKey vm, optProp vm "commentId"))) := by
  unfold surfaceKeysOf at h
  by_cases he : payments.own.isEmpty = true
  · simp only [he, if_true, Except.ok.injEq] at h
    simp [he, ← h]
  · simp only [he, if_false, Bool.false_eq_true] at h ⊢
    cases h1 : viewModelsOf (searchDict response "commentViewModel") with
    | error e => simp [h1] at h
    | ok ms =>
      simp only [h1] at h
      cases h2 : withSurfaceKey ms with
      | error e => simp [h2] at h
      | ok kept =>
        simp only [h2] at h
        have hkept : kept = viewModels response := by
          rw [withSurfaceKey_eq _ _ h2, viewModelsOf_eq _ _ h1]
          rfl
        rw [hkept] at h
        rw [reduceSurfaceKeys_eq _ _ _ h hne]
        exact ⟨rfl, rfl⟩

theorem assembleComment_paid (rt : Runtime) (ts pm : Built) (comment : JVal) (r : Comment)
    (h : assembleComment rt ts pm comment = .ok r) :
    r.paid = findMember pm (jsToString r.cid) := by
  unfold assembleComment at h
  obtain ⟨properties, _, h⟩ := except_bind_ok _ _ _ h
  obtain ⟨cid, _, h⟩ := except_bind_ok _ _ _ h
  obtain ⟨author, _, h⟩ := except_bind_ok _ _ _ h
  obtain ⟨toolbar, _, h⟩ := except_bind_ok _ _ _ h
  obtain ⟨stateKey, _, h⟩ := except_bind_ok _ _ _ h
  obtain ⟨stateName, _, h⟩ := except_bind_ok _ _ _ h
  obtain ⟨content, _, h⟩ := except_bind_ok _ _ _ h
  obtain ⟨text, _, h⟩ := except_bind_ok _ _ _ h
  obtain ⟨time, _, h⟩ := except_bind_ok _ _ _ h
  obtain ⟨displayName, _, h⟩ := except_bind_ok _ _ _ h
  obtain ⟨channel, _, h⟩ := except_bind_ok _ _ _ h
  obtain ⟨likeCount, _, h⟩ := except_bind_ok _ _ _ h
  obtain ⟨votes, _, h⟩ := except_bind_ok _ _ _ h
  obtain ⟨replies, _, h⟩ := except_bind_ok _ _ _ h
  obtain ⟨photo, _, h⟩ := except_bind_ok _ _ _ h
  obtain ⟨reply, _, h⟩ := except_bind_ok _ _ _ h
  obtain ⟨key, hkey, h⟩ := except_bind_ok _ _ _ h
  cases h
  have hk := toPropertyKey_ok _ _ hkey
  subst hk
  simp only [hasMember, readMember]
  cases findMember pm (jsToString cid) <;> rfl

theorem assembleAll_records (rt : Runtime) (ts pm : Built) :
    ∀ (payloads : List JVal) (comments comments1 : List Comment),
      assembleAll rt ts pm payloads comments = .ok comments1 →
      ∃ records, comments1 = comments ++ records ∧
        ∀ r ∈ records, ∃ p ∈ payloads, assembleComment rt ts pm p = .ok r := by
  intro payloads
  induction payloads with
  | nil =>
    intro comments comments1 h
    simp [assembleAll] at h
    exact ⟨[], by simp [h], by simp⟩
  | cons p rest ih =>
    intro comments comments1 h
    simp only [assembleAll] at h
    cases hp : assembleComment rt ts pm p with
    | error e => simp [hp] at h
    | ok r =>
      simp only [hp] at h
      obtain ⟨records, h1, h2⟩ := ih _ _ h
      refine ⟨r :: records, by simp [h1], ?_⟩
      intro x hx
      rcases List.mem_cons.1 hx with hx | hx
      · exact ⟨p, List.mem_cons_self _ _, by rw [hx]; exact hp⟩
      · obtain ⟨q, hq, hqa⟩ := h2 x hx
        exact ⟨q, List.mem_cons_of_mem _ hq, hqa⟩

theorem processResponse_paid_parts (rt : Runtime) (response : JVal) (W W1 : List JVal)
    (comments comments1 : List Comment)
    (h : processResponse rt response W comments = .ok (W1, comments1)) :
    ∃ payments sk pm ts,
      collectPayments (searchDict response "commentSurfaceEntityPayload") {} = .ok payments ∧
      surfaceKeysOf response payments = .ok sk ∧
      mapPayments sk (objectEntries payments.own) {} = .ok pm ∧
      assembleAll rt ts pm (commentPayloadsOf response) comments = .ok comments1 := by
  unfold processResponse at h
  split at h
  · split at h <;> cases h
  obtain ⟨continuations1, _, h⟩ := except_bind_ok _ _ _ h
  obtain ⟨payments, hpay, h⟩ := except_bind_ok _ _ _ h
  obtain ⟨surfaceKeys, hsk, h⟩ := except_bind_ok _ _ _ h
  obtain ⟨paymentsMapped, hpm, h⟩ := except_bind_ok _ _ _ h
  obtain ⟨toolbarStates, _, h⟩ := except_bind_ok _ _ _ h
  obtain ⟨comments2, hc, h⟩ := except_bind_ok _ _ _ h
  cases h
  exact ⟨payments, surfaceKeys, paymentsMapped, toolbarStates, hpay, hsk, hpm, hc⟩

/-- The pairs the loop of lines 202-207 assigns, for a response with the one-to-one
correspondence: the identifier `c` is assigned the text `x` exactly when a paid chip and a
view model share a surface key, the view model carries `c` and `x` is the chip's text. -/
theorem mappedPairs_spec (response : JVal) (payments sk : Dict)
    (hpay : payments = setAll [] ((chipPayloads response).map (fun p => (chipKey p, chipText p))))
    (hsk : sk = if payments.isEmpty then []
      else setAll [] ((viewModels response).map (fun vm => (vmKey vm, optProp vm "commentId"))))
    (h11 : oneToOne response) (c : String) (x : JVal) :
    (c, x) ∈ mappedPairs sk (objectEntries payments) ↔
      ∃ p ∈ chipPayloads response, ∃ vm ∈ viewModels response,
        chipKey p = vmKey vm ∧ vmId vm = c ∧ x = chipText p := by
  obtain ⟨hchips, hvmk, hvmi⟩ := h11
  have hpayments : payments = (chipPayloads response).map (fun p => (chipKey p, chipText p)) := by
    rw [hpay, setAll_eq_append]
    · rfl
    · simpa [List.map_map, Function.comp_def, chipPayloads] using hchips
  have hF1 : ∀ k x, (k, x) ∈ payments ↔
      ∃ p ∈ chipPayloads response, chipKey p = k ∧ chipText p = x := by
    intro k x
    rw [hpayments]
    simp [List.mem_map]
  have hsk1 : ∀ k x, (k, x) ∈ payments →
      sk = (viewModels response).map (fun vm => (vmKey vm, optProp vm "commentId")) := by
    intro k x hm
    have hne : payments.isEmpty = false := by
      cases payments with
      | nil => cases hm
      | cons _ _ => rfl
    rw [hsk, hne, setAll_eq_append]
    · rfl
    · simpa [List.map_map, Function.comp_def] using hvmk
  have hskn : ((viewModels response).map (fun vm => (vmKey vm, optProp vm "commentId"))).map
      Prod.fst = (viewModels response).map vmKey := by
    simp [List.map_map, Function.comp_def]
  rw [mem_mappedPairs]
  constructor
  · rintro ⟨k, hk, hhas, hid⟩
    rw [mem_objectEntries] at hk
    have hskeq := hsk1 k x hk
    obtain ⟨p, hp, hpk, hpx⟩ := (hF1 k x).1 hk
    have hkm := (hasKey_iff_mem sk k).1 hhas
    rw [hskeq, hskn] at hkm
    obtain ⟨vm, hvm, hvk⟩ := List.mem_map.1 hkm
    have hlook : lookupKey sk k = optProp vm "commentId" := by
      rw [hskeq]
      apply lookupKey_of_mem
      · rw [hskn]; exact hvmk
      · exact List.mem_map.2 ⟨vm, hvm, by rw [hvk]⟩
    refine ⟨p, hp, vm, hvm, by rw [hpk, hvk], ?_, hpx.symm⟩
    rw [← hid, hlook]
    rfl
  · rintro ⟨p, hp, vm, hvm, hkk, hid, hx⟩
    have hk : (chipKey p, x) ∈ payments := (hF1 _ _).2 ⟨p, hp, rfl, hx.symm⟩
    have hskeq := hsk1 _ _ hk
    have hmem : (vmKey vm, optProp vm "commentId") ∈ sk := by
      rw [hskeq]
      exact List.mem_map.2 ⟨vm, hvm, rfl⟩
    have hlook : lookupKey sk (vmKey vm) = optProp vm "commentId" := by
      apply lookupKey_of_mem _ _ _ _ hmem
      rw [hskeq, hskn]; exact hvmk
    refine ⟨chipKey p, (mem_objectEntries _ _ _).2 hk, ?_, ?_⟩
    · rw [hkk]
      exact (hasKey_iff_mem sk _).2 (List.mem_map.2 ⟨_, hmem, rfl⟩)
    · rw [hkk, hlook]
      exact hid

/-- The own entries of `paymentsMapped` for a response with the one-to-one correspondence:
the identifier `c` is an own entry with the text `t` exactly when a paid chip and a view
model share a surface key, the view model carries `c` and `t` is the chip's text. -/
theorem paymentsMapped_spec (response : JVal) (payments sk : Dict)
    (hpay : payments = setAll [] ((chipPayloads response).map (fun p => (chipKey p, chipText p))))
    (hsk : sk = if payments.isEmpty then []
      else setAll [] ((viewModels response).map (fun vm => (vmKey vm, optProp vm "commentId"))))
    (h11 : oneToOne response) (c : String) (t : JVal) :
    (hasKey (setAll [] (mappedPairs sk (objectEntries payments))) c = true ∧
        lookupKey (setAll [] (mappedPairs sk (objectEntries payments))) c = t) ↔
      ∃ p ∈ chipPayloads response, ∃ vm ∈ viewModels response,
        chipKey p = vmKey vm ∧ vmId vm = c ∧ t = chipText p := by
  have hE := mappedPairs_spec response payments sk hpay hsk h11 c
  obtain ⟨hchips, hvmk, hvmi⟩ := h11
  -- a comment identifier is mapped to at most one text
  have hU : ∀ x y, (c, x) ∈ mappedPairs sk (objectEntries payments) →
      (c, y) ∈ mappedPairs sk (objectEntries payments) → y = x := by
    intro x y hx hy
    obtain ⟨p1, hp1, vm1, hvm1, hk1, hid1, hx1⟩ := (hE x).1 hx
    obtain ⟨p2, hp2, vm2, hvm2, hk2, hid2, hy2⟩ := (hE y).1 hy
    have hvm : vm1 = vm2 :=
      List.inj_on_of_nodup_map hvmi hvm1 hvm2 (by rw [hid1, hid2])
    have hp : p1 = p2 :=
      List.inj_on_of_nodup_map hchips hp1 hp2 (by rw [hk1, hk2, hvm])
    rw [hx1, hy2, hp]
  constructor
  · rintro ⟨hhas, hlook⟩
    have hkm := (hasKey_setAll _ _ _).1 hhas
    rcases hkm with hkm | hkm
    · simp [hasKey] at hkm
    · obtain ⟨⟨c2, x⟩, hx, hc2⟩ := List.mem_map.1 hkm
      simp only at hc2
      subst hc2
      have := lookupKey_setAll_unique _ [] c2 x hkm (fun w hw => hU x w hx hw)
      rw [this] at hlook
      rw [← hlook]
      exact (hE x).1 hx
  · intro h
    have hx := (hE t).2 h
    have hkm : c ∈ (mappedPairs sk (objectEntries payments)).map Prod.fst :=
      List.mem_map.2 ⟨(c, t), hx, rfl⟩
    exact ⟨(hasKey_setAll _ _ _).2 (Or.inr hkm),
      lookupKey_setAll_unique _ [] c t hkm (fun w hw => hU t w hx hw)⟩

/-- The object `paymentsMapped` of a response with the one-to-one correspondence and no
inherited name among its keys: its prototype is still `Object.prototype` and its own entries
are the assignments of the mapped pairs. -/
theorem paymentsMapped_built (response : JVal) (payments sk pm : Built)
    (hpay : collectPayments (searchDict response "commentSurfaceEntityPayload") {} = .ok payments)
    (hsk : surfaceKeysOf response payments = .ok sk)
    (hpm : mapPayments sk (objectEntries payments.own) {} = .ok pm)
    (h11 : oneToOne response) (hplain : plainNames response) :
    payments.own = setAll [] ((chipPayloads response).map (fun p => (chipKey p, chipText p))) ∧
      (sk.own = if payments.own.isEmpty then []
        else setAll [] ((viewModels response).map (fun vm => (vmKey vm, optProp vm "commentId")))) ∧
      pm.proto = .objectPrototype ∧
      pm.own = setAll [] (mappedPairs sk.own (objectEntries payments.own)) := by
  obtain ⟨hchip, hvm⟩ := hplain
  have hp0 := collectPayments_eq _ _ _ hpay
    (fun p hp => ne_proto_of_not_mem _ (hchip p hp))
  have hpown : payments.own =
      setAll [] ((chipPayloads response).map (fun p => (chipKey p, chipText p))) := by
    rw [hp0]
    rfl
  obtain ⟨hskp, hskown⟩ := surfaceKeysOf_eq response payments sk hsk
    (fun vm hv => ne_proto_of_not_mem _ (hvm vm hv).1)
  have hE := mappedPairs_spec response payments.own sk.own hpown hskown h11
  have hkeys : ∀ e ∈ objectEntries payments.own, e.1 ∉ objectPrototypeNames := by
    intro e he
    obtain ⟨k, x⟩ := e
    rw [mem_objectEntries] at he
    have hn : (((chipPayloads response).map (fun p => (chipKey p, chipText p))).map
        Prod.fst).Nodup := by
      simpa [List.map_map, Function.comp_def] using h11.1
    rw [hpown, setAll_eq_append _ _ (by simpa using hn)] at he
    simp only [List.nil_append, List.mem_map, Prod.mk.injEq] at he
    obtain ⟨p, hp, hk, _⟩ := he
    simp only
    rw [← hk]
    exact hchip p hp
  have hids : ∀ e ∈ mappedPairs sk.own (objectEntries payments.own), e.1 ≠ "__proto__" := by
    intro e he
    obtain ⟨c, x⟩ := e
    obtain ⟨p, _, vm, hv, _, hid, _⟩ := (hE c x).1 he
    simp only
    rw [← hid]
    exact ne_proto_of_not_mem _ (hvm vm hv).2
  have hpm0 := mapPayments_eq sk hskp _ _ _ hpm hkeys hids
  refine ⟨hpown, hskown, ?_, ?_⟩
  · rw [hpm0]
  · rw [hpm0]

/-- C19 (as stated, refuted): a batch with no paid chip and no view model, whose one entity
has the identifier `constructor`.  Surface keys and identifiers correspond one to one, there
is no `commentSurfaceEntityPayload` with a `pdgCommentChip`, and still the record carries a
paid field: the test `cid in paymentsMapped` finds the member `constructor` that the empty
object inherits from `Object.prototype`, and the field holds the function `Object`. -/
theorem processResponse_paid_inherited_counterexample :
    oneToOne sampleInheritedPage ∧ chipPayloads sampleInheritedPage = [] ∧
      viewModels sampleInheritedPage = [] ∧
      processResponse sampleRuntime sampleInheritedPage [] [] =
        .ok ([], [samplePaidRecord "constructor" (some (.objectFunction "constructor"))]) ∧
      (samplePaidRecord "constructor" (some (.objectFunction "constructor"))).paid ≠ none := by
  refine ⟨?_, by rfl, by rfl, by rfl, by decide⟩
  refine ⟨?_, ?_, ?_⟩ <;> decide

/-- C19 (amended): in a response where surface keys and comment identifiers correspond one to
one and no chip key, surface key or view-model identifier is the name of a member of
`Object.prototype`, a record whose identifier is not such a name either carries a paid text
exactly when the response holds a `commentSurfaceEntityPayload` with a `pdgCommentChip` and a
comment view model that share a surface key, the view model carrying the record's identifier;
the text is the first `simpleText` found in that payload (whenever that is a string), the
empty string when there is none; every other such record has no paid field.  A record whose
identifier is the name of a member of `Object.prototype` always has a paid field, holding
that inherited member.  A `simpleText` that is falsy and not a string also gives the empty
string. -/
theorem processResponse_paid_overlay (rt : Runtime) (response : JVal) (W W1 : List JVal)
    (comments comments1 : List Comment)
    (h : processResponse rt response W comments = .ok (W1, comments1))
    (h11 : oneToOne response) (hplain : plainNames response) :
    (∃ records, comments1 = comments ++ records ∧ ∀ r ∈ records,
      (jsToString r.cid ∉ objectPrototypeNames →
        (∀ m, r.paid = some m ↔
          ∃ p ∈ chipPayloads response, ∃ vm ∈ viewModels response,
            chipKey p = vmKey vm ∧ vmId vm = jsToString r.cid ∧ m = .val (chipText p)) ∧
        (r.paid = none ↔
          ¬ ∃ p ∈ chipPayloads response, ∃ vm ∈ viewModels response,
            chipKey p = vmKey vm ∧ vmId vm = jsToString r.cid)) ∧
      (jsToString r.cid ∈ objectPrototypeNames →
        r.paid = objectMember .objectPrototype (jsToString r.cid) ∧ r.paid ≠ none)) ∧
    (∀ p, searchDict p "simpleText" = [] → chipText p = .str "") ∧
    (∀ p s rest, searchDict p "simpleText" = .str s :: rest → chipText p = .str s) ∧
    (∀ p v rest, searchDict p "simpleText" = v :: rest →
      chipText p = if v.truthy then v else .str "") := by
  refine ⟨?_, ?_, ?_, ?_⟩
  · obtain ⟨payments, sk, pm, ts, hpay, hsk, hpm, hall⟩ :=
      processResponse_paid_parts rt response W W1 comments comments1 h
    obtain ⟨records, hrec, hmem⟩ := assembleAll_records rt ts _ _ _ _ hall
    refine ⟨records, hrec, ?_⟩
    intro r hr
    obtain ⟨q, _, hq⟩ := hmem r hr
    have hpaid := assembleComment_paid rt ts _ q r hq
    obtain ⟨hpown, hskown, hpmp, hpmown⟩ :=
      paymentsMapped_built response payments sk pm hpay hsk hpm h11 hplain
    have hspec := paymentsMapped_spec response payments.own sk.own hpown hskown h11
      (jsToString r.cid)
    rw [← hpmown] at hspec
    constructor
    · intro hcid
      rw [findMember_plain pm _ hpmp hcid] at hpaid
      have hsome : ∀ m, r.paid = some m ↔
          ∃ p ∈ chipPayloads response, ∃ vm ∈ viewModels response,
            chipKey p = vmKey vm ∧ vmId vm = jsToString r.cid ∧ m = .val (chipText p) := by
        intro m
        rw [hpaid]
        by_cases hk : hasKey pm.own (jsToString r.cid) = true
        · simp only [hk, if_true, Option.some.injEq]
          constructor
          · intro hm
            obtain ⟨p, hp, vm, hv, h1, h2, h3⟩ := (hspec _).1 ⟨hk, rfl⟩
            exact ⟨p, hp, vm, hv, h1, h2, by rw [← hm, h3]⟩
          · rintro ⟨p, hp, vm, hv, h1, h2, h3⟩
            have := ((hspec (chipText p)).2 ⟨p, hp, vm, hv, h1, h2, rfl⟩).2
            rw [h3, this]
        · simp only [hk, Bool.false_eq_true, if_false]
          constructor
          · intro hm
            cases hm
          rintro ⟨p, hp, vm, hv, h1, h2, _⟩
          exact (hk ((hspec (chipText p)).2 ⟨p, hp, vm, hv, h1, h2, rfl⟩).1).elim
      refine ⟨hsome, ?_⟩
      constructor
      · rintro hnone ⟨p, hp, vm, hvm, hk, hid⟩
        have := (hsome (.val (chipText p))).2 ⟨p, hp, vm, hvm, hk, hid, rfl⟩
        rw [hnone] at this
        cases this
      · intro hno
        cases hp : r.paid with
        | none => rfl
        | some text =>
          exfalso
          obtain ⟨p, hp1, vm, hvm, hk, hid, _⟩ := (hsome text).1 hp
          exact hno ⟨p, hp1, vm, hvm, hk, hid⟩
    · intro hcid
      have hown : hasKey pm.own (jsToString r.cid) = false := by
        cases hk : hasKey pm.own (jsToString r.cid) with
        | false => rfl
        | true =>
          exfalso
          obtain ⟨p, _, vm, hv, _, h2, _⟩ := (hspec _).1 ⟨hk, rfl⟩
          exact (hplain.2 vm hv).2 (by rw [h2]; exact hcid)
      rw [findMember_inherited pm _ hpmp hown] at hpaid
      exact ⟨hpaid, by rw [hpaid]; exact objectMember_isSome _ _ hcid⟩
  · intro p hp
    simp [chipText, hp, findFirst, jsOr, JVal.truthy]
  · intro p s rest hp
    by_cases hs : s = ""
    · subst hs
      simp [chipText, hp, findFirst, jsOr, JVal.truthy]
    · simp [chipText, hp, findFirst, jsOr, JVal.truthy, hs]
  · intro p v rest hp
    simp [chipText, hp, findFirst, jsOr]

/-- C19 (amended) on `samplePaidPage`: the chip with key `sk1` and the view model mapping
`sk1` to `c1` give the record of `c1` the paid text `R$ 10,00`; the record of `c2` has no
paid field. -/
theorem processResponse_paid_overlay_witness :
    processResponse sampleRuntime samplePaidPage [] [] =
        .ok ([], [samplePaidRecord "c1" (some (.val (.str "R$ 10,00"))),
          samplePaidRecord "c2" none]) ∧
      oneToOne samplePaidPage ∧ plainNames samplePaidPage ∧
      ((samplePaidRecord "c2" none).paid = none ↔
        ¬ ∃ p ∈ chipPayloads samplePaidPage, ∃ vm ∈ viewModels samplePaidPage,
          chipKey p = vmKey vm ∧ vmId vm = jsToString (samplePaidRecord "c2" none).cid) := by
  have h11 : oneToOne samplePaidPage := by
    refine ⟨?_, ?_, ?_⟩ <;> decide
  have hplain : plainNames samplePaidPage := by
    refine ⟨?_, ?_⟩ <;> decide
  have hrun : processResponse sampleRuntime samplePaidPage [] [] =
      .ok ([], [samplePaidRecord "c1" (some (.val (.str "R$ 10,00"))),
        samplePaidRecord "c2" none]) := by
    rfl
  obtain ⟨records, hrec, hall⟩ :=
    (processResponse_paid_overlay sampleRuntime samplePaidPage [] [] []
      [samplePaidRecord "c1" (some (.val (.str "R$ 10,00"))), samplePaidRecord "c2" none]
      hrun h11 hplain).1
  simp only [List.nil_append] at hrec
  subst hrec
  exact ⟨hrun, h11, hplain, ((hall _ (by simp)).1 (by decide)).2⟩
